import Mathlib

/-!
# cognicraft/uuid: a shallow embedding of `uuid.go`

Bytes are natural numbers below 256, byte slices and Go strings are `List Nat`
(a Go string is its sequence of bytes), and the array type `UUID = [16]byte` is a
`List Nat` of length 16 (`UUID.wf`).  A Go call either returns or panics with a
run-time error (index or slice bound out of range); this is the type `Run`.
-/

namespace uuid

/-! ## Go run-time model -/

/-- Outcome of a Go call: it returns a value, or it panics (out-of-range index or slice). -/
inductive Run (α : Type) where
  | ret : α → Run α
  | panic : Run α
  deriving DecidableEq, Repr

/-- Sequencing of Go statements: a panic aborts everything after it. -/
def Run.bind {α β : Type} (x : Run α) (f : α → Run β) : Run β :=
  match x with
  | .ret a => f a
  | .panic => .panic

/-- Go index expression `t[i]`: panics when `i` is out of range. -/
def index (t : List Nat) (i : Nat) : Run Nat :=
  match t.get? i with
  | some c => .ret c
  | none => .panic

/-- Go slice expression `t[:n]` on a slice whose capacity is its length. -/
def sliceTo (t : List Nat) (n : Nat) : Run (List Nat) :=
  if n ≤ t.length then .ret (t.take n) else .panic

/-- Go slice expression `t[n:]`. -/
def sliceFrom (t : List Nat) (n : Nat) : Run (List Nat) :=
  if n ≤ t.length then .ret (t.drop n) else .panic

/-- The bytes of an ASCII Go string literal (`[]byte(raw)`): one byte per character. -/
def bytesOf (s : String) : List Nat :=
  s.toList.map Char.toNat

/-! ## Errors -/

/-- The error values `UnmarshalText` can return: the three `fmt.Errorf` messages of
`uuid.go` (two of them quote the input text) and the two errors of `encoding/hex`. -/
inductive Err where
  /-- The message "uuid: UUID string too short: %s". -/
  | tooShort (text : List Nat)
  /-- The message "uuid: invalid string format". -/
  | invalidFormat
  /-- The message "uuid: UUID string too long: %s". -/
  | tooLong (text : List Nat)
  /-- The error `hex.InvalidByteError(c)`. -/
  | invalidByte (c : Nat)
  /-- The error `hex.ErrLength`. -/
  | errLength
  deriving DecidableEq, Repr

/-! ## The UUID type and its accessors -/

/-- The type `UUID [16]byte`. -/
abbrev UUID := List Nat

/-- Well-formedness of a `[16]byte` value: sixteen entries, each a byte. -/
def UUID.wf (u : UUID) : Prop := u.length = 16 ∧ ∀ b ∈ u, b < 256

instance (u : UUID) : Decidable (UUID.wf u) := by
  unfold UUID.wf; infer_instance

/-- Index expression `u[i]` on a `[16]byte` or a 16-byte buffer (in range for `i < 16`). -/
def UUID.at (u : UUID) (i : Nat) : Nat := u.getD i 0

/-- Index store `u[i] = v` on a `[16]byte` or a 16-byte buffer. -/
def UUID.put (u : UUID) (i : Nat) (v : Nat) : UUID := u.set i v

/-- The zero value `UUID{}`. -/
def Nil : UUID := List.replicate 16 0

/-- The type `Variant uint8`. -/
abbrev Variant := Nat

def VariantNCS : Variant := 0
def VariantRFC4122 : Variant := 1
def VariantMicrosoft : Variant := 2
def VariantFuture : Variant := 3

/-- The method `func (u UUID) Version() uint8`. -/
def UUID.Version (u : UUID) : Nat := (u.at 6 >>> 4) % 256

/-- The method `func (u UUID) Variant() Variant`: a `switch` whose cases are tried in order. -/
def UUID.Variant (u : UUID) : Variant :=
  if (u.at 8 &&& 0x80) = 0x00 then VariantNCS
  else if ((u.at 8 &&& 0xc0) ||| 0x80) = 0x80 then VariantRFC4122
  else if ((u.at 8 &&& 0xe0) ||| 0xc0) = 0xc0 then VariantMicrosoft
  else VariantFuture

/-- The function `Equal`: `bytes.Equal(a[:], b[:])`. -/
def Equal (a b : UUID) : Bool := decide (a = b)

/-! ## Text encoding -/

/-- The digit table `"0123456789abcdef"` used by `fmt` for the verb `%x`. -/
def ldigits : List Nat :=
  [48, 49, 50, 51, 52, 53, 54, 55, 56, 57, 97, 98, 99, 100, 101, 102]

/-- One byte under `%x`: `digits[c>>4]`, `digits[c&0xF]`. -/
def hexByte (c : Nat) : List Nat :=
  [ldigits.getD (c >>> 4) 0, ldigits.getD (c &&& 0xF) 0]

/-- The verb `%x` applied to a byte slice: two lower-case digits per byte. -/
def hexEncode : List Nat → List Nat
  | [] => []
  | c :: cs => hexByte c ++ hexEncode cs

/-- Go slice expression `u[lo:hi]` of an array, for `lo ≤ hi ≤ 16`. -/
def UUID.slice (u : UUID) (lo hi : Nat) : List Nat := (u.take hi).drop lo

/-- The method `String`: `fmt.Sprintf("%x-%x-%x-%x-%x", u[0:4], u[4:6], u[6:8], u[8:10], u[10:])`. -/
def UUID.String (u : UUID) : List Nat :=
  hexEncode (u.slice 0 4) ++ (45 :: (hexEncode (u.slice 4 6) ++ (45 ::
    (hexEncode (u.slice 6 8) ++ (45 :: (hexEncode (u.slice 8 10) ++ (45 ::
      hexEncode (u.slice 10 16))))))))

/-! ## Text decoding -/

/-- The table `reverseHexTable` of `encoding/hex`: the value of a hex digit, `0xff` otherwise. -/
def reverseHexTable (c : Nat) : Nat :=
  if 48 ≤ c ∧ c ≤ 57 then c - 48
  else if 65 ≤ c ∧ c ≤ 70 then c - 55
  else if 97 ≤ c ∧ c ≤ 102 then c - 87
  else 0xff

/-- The function `hex.Decode(dst, src)` of the Go standard library, returning the contents of
`dst` afterwards and the error.  Pairs are decoded left to right and each decoded byte is stored
at once, so the bytes decoded before a bad digit stay written; the returned count is discarded
by the caller and is not modelled. -/
def Decode : List Nat → List Nat → Run (List Nat × Option Err)
  | dst, [] => .ret (dst, none)
  | dst, [p] =>
    if reverseHexTable p > 0x0f then .ret (dst, some (.invalidByte p))
    else .ret (dst, some .errLength)
  | dst, p :: q :: src =>
    if reverseHexTable p > 0x0f then .ret (dst, some (.invalidByte p))
    else if reverseHexTable q > 0x0f then .ret (dst, some (.invalidByte q))
    else
      match dst with
      | [] => .panic
      | _ :: dst' =>
        (Decode dst' src).bind fun r =>
          .ret ((((reverseHexTable p <<< 4) % 256) ||| reverseHexTable q) :: r.1, r.2)

/-- The prefix `urnPrefix = []byte("urn:uuid:")`. -/
def urnPrefix : List Nat := [117, 114, 110, 58, 117, 117, 105, 100, 58]

/-- The table `byteGroups = []int{8, 4, 4, 4, 12}`. -/
def byteGroups : List Nat := [8, 4, 4, 4, 12]

/-- What one pass through the body of the `for` loop of `UnmarshalText` does: it goes on to the
next group, or it leaves the function with an error.  The array `u` is `pre ++ b`: the slice
`b` of the source is the part of `u` not yet decoded, `pre` the part before it. -/
inductive Flow where
  | next (pre b t : List Nat)
  | done (u : UUID) (err : Err)
  deriving DecidableEq, Repr

/-- Lines 163 to 180 of `uuid.go`: the length checks, `hex.Decode(b[:byteGroup/2], t[:byteGroup])`
and the two re-slicings that end the loop body. -/
def decodeGroup (text : List Nat) (braced : Bool) (i byteGroup : Nat)
    (pre b t : List Nat) : Run Flow :=
  if t.length < byteGroup then .ret (.done (pre ++ b) (.tooShort text))
  else
    (if i = 4 ∧ t.length > byteGroup then
      (if braced then (index t byteGroup).bind fun c => .ret (decide (c ≠ 125))
        else .ret false).bind fun noBrace =>
        (sliceFrom t byteGroup).bind fun rest =>
          .ret (noBrace || decide (rest.length > 1) || !braced)
     else .ret false).bind fun tooLong =>
    if tooLong then .ret (.done (pre ++ b) (.tooLong text))
    else
      (sliceTo b (byteGroup / 2)).bind fun dst =>
      (sliceTo t byteGroup).bind fun src =>
      (Decode dst src).bind fun r =>
        match r.2 with
        | some err => .ret (.done (pre ++ r.1 ++ b.drop (byteGroup / 2)) err)
        | none =>
          (sliceFrom t byteGroup).bind fun t' =>
          (sliceFrom b (byteGroup / 2)).bind fun b' =>
            .ret (.next (pre ++ r.1) b' t')

/-- The body of the `for i, byteGroup := range byteGroups` loop: the separator check of lines
155 to 161, then `decodeGroup`. -/
def iteration (text : List Nat) (braced : Bool) (i byteGroup : Nat)
    (pre b t : List Nat) : Run Flow :=
  if i > 0 then
    (index t 0).bind fun c =>
      if c ≠ 45 then .ret (.done (pre ++ b) .invalidFormat)
      else (sliceFrom t 1).bind fun t' => decodeGroup text braced i byteGroup pre b t'
  else decodeGroup text braced i byteGroup pre b t

/-- The `for` loop of `UnmarshalText` over the remaining groups, from index `i`. -/
def loop (text : List Nat) (braced : Bool) :
    Nat → List Nat → List Nat → List Nat → List Nat → Run (UUID × Option Err)
  | _, [], pre, b, _ => .ret (pre ++ b, none)
  | i, byteGroup :: groups, pre, b, t =>
    (iteration text braced i byteGroup pre b t).bind fun f =>
      match f with
      | .done u err => .ret (u, some err)
      | .next pre' b' t' => loop text braced (i + 1) groups pre' b' t'

/-- The method `func (u *UUID) UnmarshalText(text []byte) (err error)`: the result is the array
`*u` after the call together with the returned error (`none` is `nil`). -/
def UnmarshalText (u : UUID) (text : List Nat) : Run (UUID × Option Err) :=
  if text.length < 32 then .ret (u, some (.tooShort text))
  else
    (sliceTo text 9).bind fun p =>
    (if p = urnPrefix then (sliceFrom text 9).bind fun t => .ret (t, false)
     else (index text 0).bind fun c =>
       if c = 123 then (sliceFrom text 1).bind fun t => .ret (t, true)
       else .ret (text, false)).bind fun tb =>
    loop text tb.2 0 byteGroups [] u tb.1

/-- The function `Parse`: `u := UUID{}; err := u.UnmarshalText([]byte(raw)); return u, err`. -/
def Parse (raw : List Nat) : Run (UUID × Option Err) :=
  UnmarshalText Nil raw

/-! ## Constructors -/

/-- The builtin `copy(dst, src)`: the first `min(len(dst), len(src))` bytes of `src` replace
those of `dst`; the result is the contents of `dst` afterwards. -/
def copy (dst src : List Nat) : List Nat := src.take dst.length ++ dst.drop src.length

/-- A `hash.Hash` object: the digest function of its algorithm (MD5 or SHA-1, an external
collaborator taken as a parameter) and the bytes written so far. -/
structure Hash where
  digest : List Nat → List Nat
  written : List Nat

/-- The constructors `md5.New()` and `sha1.New()`: a fresh object of the given algorithm. -/
def Hash.New (digest : List Nat → List Nat) : Hash := ⟨digest, []⟩

/-- The method `Write(p)`: the bytes are added to the running input. -/
def Hash.Write (h : Hash) (p : List Nat) : Hash := ⟨h.digest, h.written ++ p⟩

/-- The method `Sum(b)`: the digest of what was written, appended to `b`. -/
def Hash.Sum (h : Hash) (b : List Nat) : List Nat := b ++ h.digest h.written

/-- The function `newFromHash(hash, ns, name)`. -/
def newFromHash (hash : Hash) (ns : UUID) (name : List Nat) : UUID :=
  let hash := hash.Write ns
  let hash := hash.Write name
  let uuid := Nil
  copy uuid (hash.Sum [])

/-- The function `NewV3(ns, name)`, over the digest function of `md5`. -/
def NewV3 (md5 : List Nat → List Nat) (ns : UUID) (name : List Nat) : UUID :=
  let uuid := newFromHash (Hash.New md5) ns name
  let uuid := uuid.put 6 ((uuid.at 6 &&& 0x0f) ||| 0x30)
  let uuid := uuid.put 8 ((uuid.at 8 &&& 0xbf) ||| 0x80)
  uuid

/-- The function `NewV5(ns, name)`, over the digest function of `sha1`. -/
def NewV5 (sha1 : List Nat → List Nat) (ns : UUID) (name : List Nat) : UUID :=
  let uuid := newFromHash (Hash.New sha1) ns name
  let uuid := uuid.put 6 ((uuid.at 6 &&& 0x0f) ||| 0x50)
  let uuid := uuid.put 8 ((uuid.at 8 &&& 0xbf) ||| 0x80)
  uuid

/-- The buffer after `buf := make([]byte, 16); random.Read(buf)`, where `rnd` are the bytes the
reader stores: sixteen of them on a full read, fewer on a short or failed read (the count and
the error are ignored), the rest of the buffer staying zero. -/
def readBuf (rnd : List Nat) : List Nat := copy (List.replicate 16 0) rnd

/-- The function `NewV4()`, over the bytes `rnd` delivered by the random source. -/
def NewV4 (rnd : List Nat) : UUID :=
  let buf := readBuf rnd
  let buf := UUID.put buf 6 ((UUID.at buf 6 &&& 0x0f) ||| 0x40)
  let buf := UUID.put buf 8 ((UUID.at buf 8 &&& 0xbf) ||| 0x80)
  let uuid := Nil
  copy uuid buf

/-! ## The hash primitives

`crypto/md5` and `crypto/sha1` belong to the Go standard library; their digest functions are
written out here from RFC 1321 and RFC 3174, on 32-bit words kept as natural numbers below
`2^32`. -/

/-- Rotation of a 32-bit word to the left by `n` bits. -/
def rotl32 (x n : Nat) : Nat := ((x <<< n) ||| (x >>> (32 - n))) % 4294967296

/-- Bitwise complement of a 32-bit word. -/
def not32 (x : Nat) : Nat := x ^^^ 0xffffffff

/-- The `k` low bytes of `n`, least significant first. -/
def leBytes (k n : Nat) : List Nat := (List.range k).map fun i => (n >>> (8 * i)) % 256

/-- The `k` low bytes of `n`, most significant first. -/
def beBytes (k n : Nat) : List Nat := (leBytes k n).reverse

/-- The word written by bytes given least significant first. -/
def leWord (bs : List Nat) : Nat := bs.foldr (fun b acc => b + 256 * acc) 0

/-- The word written by bytes given most significant first. -/
def beWord (bs : List Nat) : Nat := bs.foldl (fun acc b => 256 * acc + b) 0

/-- The successive pieces of `k` elements of a list whose length is a multiple of `k`. -/
def chunks (k : Nat) (l : List Nat) : List (List Nat) :=
  (List.range (l.length / k)).map fun i => (l.drop (k * i)).take k

/-- Message padding of MD5 and SHA-1: the byte `0x80`, zero bytes up to 56 modulo 64, then the
eight bytes of the bit length. -/
def padded (msg lenBytes : List Nat) : List Nat :=
  msg ++ (0x80 :: (List.replicate ((119 - msg.length % 64) % 64) 0 ++ lenBytes))

/-- The table `T[1..64]` of RFC 1321: the integer part of `2^32 * abs(sin(i))`. -/
def md5K : List Nat := [
  0xd76aa478, 0xe8c7b756, 0x242070db, 0xc1bdceee, 0xf57c0faf, 0x4787c62a,
  0xa8304613, 0xfd469501, 0x698098d8, 0x8b44f7af, 0xffff5bb1, 0x895cd7be,
  0x6b901122, 0xfd987193, 0xa679438e, 0x49b40821, 0xf61e2562, 0xc040b340,
  0x265e5a51, 0xe9b6c7aa, 0xd62f105d, 0x02441453, 0xd8a1e681, 0xe7d3fbc8,
  0x21e1cde6, 0xc33707d6, 0xf4d50d87, 0x455a14ed, 0xa9e3e905, 0xfcefa3f8,
  0x676f02d9, 0x8d2a4c8a, 0xfffa3942, 0x8771f681, 0x6d9d6122, 0xfde5380c,
  0xa4beea44, 0x4bdecfa9, 0xf6bb4b60, 0xbebfbc70, 0x289b7ec6, 0xeaa127fa,
  0xd4ef3085, 0x04881d05, 0xd9d4d039, 0xe6db99e5, 0x1fa27cf8, 0xc4ac5665,
  0xf4292244, 0x432aff97, 0xab9423a7, 0xfc93a039, 0x655b59c3, 0x8f0ccc92,
  0xffeff47d, 0x85845dd1, 0x6fa87e4f, 0xfe2ce6e0, 0xa3014314, 0x4e0811a1,
  0xf7537e82, 0xbd3af235, 0x2ad7d2bb, 0xeb86d391]

/-- The per-step rotation amounts of RFC 1321. -/
def md5S : List Nat := [
  7, 12, 17, 22, 7, 12, 17, 22, 7, 12, 17, 22, 7, 12, 17, 22,
  5, 9, 14, 20, 5, 9, 14, 20, 5, 9, 14, 20, 5, 9, 14, 20,
  4, 11, 16, 23, 4, 11, 16, 23, 4, 11, 16, 23, 4, 11, 16, 23,
  6, 10, 15, 21, 6, 10, 15, 21, 6, 10, 15, 21, 6, 10, 15, 21]

/-- Step `i` of the 64 steps of MD5 on the message words `M`. -/
def md5Step (M : List Nat) (st : Nat × Nat × Nat × Nat) (i : Nat) : Nat × Nat × Nat × Nat :=
  match st with
  | (a, b, c, d) =>
    let f := if i < 16 then (b &&& c) ||| (not32 b &&& d)
      else if i < 32 then (d &&& b) ||| (not32 d &&& c)
      else if i < 48 then b ^^^ c ^^^ d
      else c ^^^ (b ||| not32 d)
    let g := if i < 16 then i
      else if i < 32 then (5 * i + 1) % 16
      else if i < 48 then (3 * i + 5) % 16
      else (7 * i) % 16
    let x := (a + f + md5K.getD i 0 + M.getD g 0) % 4294967296
    (d, (b + rotl32 x (md5S.getD i 0)) % 4294967296, b, c)

/-- One 64-byte block of MD5. -/
def md5Block (st : Nat × Nat × Nat × Nat) (block : List Nat) : Nat × Nat × Nat × Nat :=
  match (List.range 64).foldl (md5Step ((chunks 4 block).map leWord)) st, st with
  | (a, b, c, d), (a0, b0, c0, d0) =>
    ((a0 + a) % 4294967296, (b0 + b) % 4294967296, (c0 + c) % 4294967296,
      (d0 + d) % 4294967296)

/-- The MD5 digest (16 bytes) of a message: what `Sum(nil)` returns on a fresh `md5.New()`
after the message was written. -/
def md5Sum (msg : List Nat) : List Nat :=
  match (chunks 64 (padded msg (leBytes 8 ((8 * msg.length) % 18446744073709551616)))).foldl
      md5Block (0x67452301, 0xefcdab89, 0x98badcfe, 0x10325476) with
  | (a, b, c, d) => leBytes 4 a ++ leBytes 4 b ++ leBytes 4 c ++ leBytes 4 d

/-- The 80 words of the SHA-1 message schedule of a block. -/
def sha1Schedule (block : List Nat) : List Nat :=
  (List.range 64).foldl (fun w t =>
    w ++ [rotl32 (w.getD (t + 13) 0 ^^^ w.getD (t + 8) 0 ^^^ w.getD (t + 2) 0 ^^^ w.getD t 0) 1])
    ((chunks 4 block).map beWord)

/-- Step `t` of the 80 steps of SHA-1 on the schedule `W`. -/
def sha1Step (W : List Nat) (st : Nat × Nat × Nat × Nat × Nat) (t : Nat) :
    Nat × Nat × Nat × Nat × Nat :=
  match st with
  | (a, b, c, d, e) =>
    let f := if t < 20 then (b &&& c) ||| (not32 b &&& d)
      else if t < 40 then b ^^^ c ^^^ d
      else if t < 60 then (b &&& c) ||| (b &&& d) ||| (c &&& d)
      else b ^^^ c ^^^ d
    let k := if t < 20 then 0x5a827999 else if t < 40 then 0x6ed9eba1
      else if t < 60 then 0x8f1bbcdc else 0xca62c1d6
    ((rotl32 a 5 + f + e + k + W.getD t 0) % 4294967296, a, rotl32 b 30, c, d)

/-- One 64-byte block of SHA-1. -/
def sha1Block (st : Nat × Nat × Nat × Nat × Nat) (block : List Nat) :
    Nat × Nat × Nat × Nat × Nat :=
  match (List.range 80).foldl (sha1Step (sha1Schedule block)) st, st with
  | (a, b, c, d, e), (a0, b0, c0, d0, e0) =>
    ((a0 + a) % 4294967296, (b0 + b) % 4294967296, (c0 + c) % 4294967296,
      (d0 + d) % 4294967296, (e0 + e) % 4294967296)

/-- The SHA-1 digest (20 bytes) of a message: what `Sum(nil)` returns on a fresh `sha1.New()`
after the message was written. -/
def sha1Sum (msg : List Nat) : List Nat :=
  match (chunks 64 (padded msg (beBytes 8 ((8 * msg.length) % 18446744073709551616)))).foldl
      sha1Block (0x67452301, 0xefcdab89, 0x98badcfe, 0x10325476, 0xc3d2e1f0) with
  | (a, b, c, d, e) => beBytes 4 a ++ beBytes 4 b ++ beBytes 4 c ++ beBytes 4 d ++ beBytes 4 e

/-! ## Package variables -/

/-- The function `Must(u, err)`: it panics on a non-nil error and returns `u` otherwise; a panic
while its argument `Parse(...)` is evaluated comes first. -/
def Must (r : Run (UUID × Option Err)) : Run UUID :=
  r.bind fun ue =>
    match ue.2 with
    | some _ => .panic
    | none => .ret ue.1

/-- The variable `NamespaceDNS`, as its initialiser runs at package initialisation. -/
def NamespaceDNS : Run UUID := Must (Parse (bytesOf "6ba7b810-9dad-11d1-80b4-00c04fd430c8"))

/-- The variable `NamespaceURL`. -/
def NamespaceURL : Run UUID := Must (Parse (bytesOf "6ba7b811-9dad-11d1-80b4-00c04fd430c8"))

/-- The variable `NamespaceOID`. -/
def NamespaceOID : Run UUID := Must (Parse (bytesOf "6ba7b812-9dad-11d1-80b4-00c04fd430c8"))

/-- The variable `NamespaceX500`. -/
def NamespaceX500 : Run UUID := Must (Parse (bytesOf "6ba7b814-9dad-11d1-80b4-00c04fd430c8"))

/-- The first case expression of the `switch` in `Variant`, `(u[8] & 0x80) == 0x00`, on the
value `b` of byte 8. -/
def caseNCS (b : Nat) : Bool := decide ((b &&& 0x80) = 0x00)

/-- The second case expression of the `switch` in `Variant`, `(u[8]&0xc0)|0x80 == 0x80`. -/
def caseRFC4122 (b : Nat) : Bool := decide (((b &&& 0xc0) ||| 0x80) = 0x80)

/-- The third case expression of the `switch` in `Variant`, `(u[8]&0xe0)|0xc0 == 0xc0`. -/
def caseMicrosoft (b : Nat) : Bool := decide (((b &&& 0xe0) ||| 0xc0) = 0xc0)

/-! ## Vocabulary of the specification -/

/-- A lower-case hex digit, `0-9` or `a-f`. -/
def isLowerHexDigit (c : Nat) : Prop := (48 ≤ c ∧ c ≤ 57) ∨ (97 ≤ c ∧ c ≤ 102)

/-- A hex digit of either case, `0-9`, `a-f` or `A-F`. -/
def isHexDigit (c : Nat) : Prop :=
  (48 ≤ c ∧ c ≤ 57) ∨ (97 ≤ c ∧ c ≤ 102) ∨ (65 ≤ c ∧ c ≤ 70)

instance (c : Nat) : Decidable (isLowerHexDigit c) := by
  unfold isLowerHexDigit; infer_instance

instance (c : Nat) : Decidable (isHexDigit c) := by
  unfold isHexDigit; infer_instance

/-- The lower-case character that writes the digit value `d < 16`. -/
def lowerHexChar (d : Nat) : Nat := if d < 10 then 48 + d else 87 + d

/-- Index in the canonical text of the first digit of byte `k`: two characters per byte and one
`-` after bytes 3, 5, 7 and 9. -/
def digitPos (k : Nat) : Nat :=
  2 * k + (if k < 4 then 0 else if k < 6 then 1 else if k < 8 then 2 else if k < 10 then 3 else 4)

/-! ## Auxiliary definitions -/

/-- The text of five groups of bytes `g0 .. g4`, written with `%x` and joined by `-`, then
`rest`. -/
def joined (g0 g1 g2 g3 g4 rest : List Nat) : List Nat :=
  hexEncode g0 ++ (45 :: (hexEncode g1 ++ (45 :: (hexEncode g2 ++ (45 ::
    (hexEncode g3 ++ (45 :: (hexEncode g4 ++ rest))))))))

/-- The state of the array after one pass of the loop: on an error fewer than `g2` bytes of `b`
are overwritten, otherwise exactly `g2` are and the pass moves on. -/
def FlowShape (pre b : List Nat) (g2 : Nat) : Flow → Prop
  | .done u _ => ∃ d, d.length < g2 ∧ u = pre ++ d ++ b.drop d.length
  | .next pre1 b1 _ => ∃ d, d.length = g2 ∧ g2 ≤ b.length ∧ pre1 = pre ++ d ∧ b1 = b.drop g2

/-- The byte `hex.Decode` stores for one pair of hex digits: `(a << 4) | b`. -/
def hexPair (p q : Nat) : Nat := ((reverseHexTable p <<< 4) % 256) ||| reverseHexTable q

/-- The bytes written for a text of hex digits, pair by pair. -/
def hexDecode : List Nat → List Nat
  | p :: q :: src => hexPair p q :: hexDecode src
  | _ => []

/-- Five groups of characters joined by `-`, then `rest`. -/
def rawJoined (g0 g1 g2 g3 g4 rest : List Nat) : List Nat :=
  g0 ++ (45 :: (g1 ++ (45 :: (g2 ++ (45 :: (g3 ++ (45 :: (g4 ++ rest))))))))

/-- Every character of a group is a hex digit. -/
def allHex (g : List Nat) : Prop := ∀ c ∈ g, isHexDigit c

instance (g : List Nat) : Decidable (allHex g) := by
  unfold allHex; infer_instance

/-- The number of hex-digit characters in a text. -/
def countHex (t : List Nat) : Nat := (t.filter fun c => decide (isHexDigit c)).length

/-- The upper-case form of the letters `a-f`; other characters are unchanged. -/
def upperHex (c : Nat) : Nat := if 97 ≤ c ∧ c ≤ 102 then c - 32 else c

/-- The lower-case form of the letters `A-F`; other characters are unchanged. -/
def lowerHex (c : Nat) : Nat := if 65 ≤ c ∧ c ≤ 70 then c + 32 else c

/-- Groups of characters with one `-` between consecutive groups. -/
def sepJoin : List (List Nat) → List Nat
  | [] => []
  | [g] => g
  | g :: gs => g ++ (45 :: sepJoin gs)

/-- The lower-case form of the ASCII letters `A-Z`; other characters are unchanged. -/
def lowerAscii (c : Nat) : Nat := if 65 ≤ c ∧ c ≤ 90 then c + 32 else c

/-- Hex digits laid out in groups of the given lengths: a `-` stands before every group but the
first (`sep` is false at the first group), and nothing stands after the last digit. -/
def layout : Bool → List Nat → List Nat → List Nat
  | _, [], _ => []
  | sep, n :: ns, ds =>
    if ds = [] then []
    else (if sep then [45] else []) ++ (ds.take n ++ layout true ns (ds.drop n))

/-- Hex digits in the layout 8-4-4-4-12 of the text of a UUID. -/
def grouped (src : List Nat) : List Nat := layout false byteGroups src

/-- The `-` that the layout puts after the digits `src` before any further digit: present when
`src` ends the first, second, third or fourth group. -/
def sepAfter (src : List Nat) : List Nat :=
  if src.length = 8 ∨ src.length = 12 ∨ src.length = 16 ∨ src.length = 20 then [45] else []

/-- The length of the group that starts after `k` digits, and 0 when no group starts there. -/
def nextGroup (k : Nat) : Nat :=
  if k = 0 then 8 else if k = 8 ∨ k = 12 ∨ k = 16 then 4 else if k = 20 then 12 else 0

/-- The input after its optional prefix `urn:uuid:` or opening brace. -/
def bodyOf (text : List Nat) : List Nat :=
  if text.take 9 = urnPrefix then text.drop 9
  else if text.head? = some 123 then text.drop 1
  else text

/-- The input starts with an opening brace (and not with `urn:uuid:`). -/
def isBraced (text : List Nat) : Bool :=
  if text.take 9 = urnPrefix then false
  else if text.head? = some 123 then true
  else false

/-- Where a parse of `body` that returned the error `e` stopped, `src` being the hex digits it
had decoded: for the invalid-byte error the pair after `src` holds the invalid character; for
the other errors `src` is made of whole groups and is followed by a character other than `-`
(invalid format), by fewer characters than the next group has (too short), or is the first four
groups, with more after the fifth than may follow it (too long). -/
def FailedAt (body : List Nat) (braced : Bool) (text src : List Nat) : Err → Prop
  | .invalidByte c => ¬ isHexDigit c ∧ ∃ p q rest,
      body = grouped src ++ (sepAfter src ++ p :: q :: rest) ∧ (c = p ∨ (isHexDigit p ∧ c = q))
  | .invalidFormat => (src.length = 8 ∨ src.length = 12 ∨ src.length = 16 ∨ src.length = 20) ∧
      ∃ c rest, body = grouped src ++ c :: rest ∧ c ≠ 45
  | .tooShort t => t = text ∧ ∃ rest,
      body = grouped src ++ (sepAfter src ++ rest) ∧ rest.length < nextGroup src.length
  | .tooLong t => t = text ∧ src.length = 20 ∧ ∃ g rest,
      body = grouped src ++ (45 :: (g ++ rest)) ∧ g.length = 12 ∧ rest ≠ [] ∧
        ¬ (braced = true ∧ rest = [125])
  | .errLength => False

/-- The characters of a text other than `-`. -/
def digitsOf (t : List Nat) : List Nat := t.filter fun c => decide (c ≠ 45)

/-! ## Basic facts -/

@[simp] theorem Run.bind_ret {α β : Type} (a : α) (f : α → Run β) :
    (Run.ret a).bind f = f a := rfl

@[simp] theorem Run.bind_panic {α β : Type} (f : α → Run β) :
    (Run.panic : Run α).bind f = Run.panic := rfl

theorem list_length_16 {u : List Nat} (h : u.length = 16) :
    ∃ a0 a1 a2 a3 a4 a5 a6 a7 a8 a9 a10 a11 a12 a13 a14 a15,
      u = [a0, a1, a2, a3, a4, a5, a6, a7, a8, a9, a10, a11, a12, a13, a14, a15] := by
  match u, h with
  | [a0, a1, a2, a3, a4, a5, a6, a7, a8, a9, a10, a11, a12, a13, a14, a15], _ =>
    exact ⟨a0, a1, a2, a3, a4, a5, a6, a7, a8, a9, a10, a11, a12, a13, a14, a15, rfl⟩

set_option maxRecDepth 100000 in
/-- Decoding the two digits written for a byte gives the byte back. -/
theorem byte_hex_all : ∀ c < 256,
    reverseHexTable (ldigits.getD (c >>> 4) 0) ≤ 15 ∧
    reverseHexTable (ldigits.getD (c &&& 0xF) 0) ≤ 15 ∧
    ((reverseHexTable (ldigits.getD (c >>> 4) 0) <<< 4) % 256 |||
      reverseHexTable (ldigits.getD (c &&& 0xF) 0)) = c := by
  decide

set_option maxRecDepth 100000 in
/-- The two digits written for a byte are the lower-case digits of its two nibbles, and neither
is a character that starts a prefix. -/
theorem byte_digits_all : ∀ c < 256,
    ldigits.getD (c >>> 4) 0 = lowerHexChar (c / 16) ∧
    ldigits.getD (c &&& 0xF) 0 = lowerHexChar (c % 16) ∧
    isLowerHexDigit (ldigits.getD (c >>> 4) 0) ∧
    isLowerHexDigit (ldigits.getD (c &&& 0xF) 0) := by
  decide

theorem hexEncode_length (bs : List Nat) : (hexEncode bs).length = 2 * bs.length := by
  induction bs with
  | nil => rfl
  | cons c cs ih => simp [hexEncode, hexByte, ih]; omega

/-- Decoding what `%x` wrote gives the bytes back, and fills `dst` exactly. -/
theorem Decode_hexEncode (bs : List Nat) (hb : ∀ c ∈ bs, c < 256) :
    ∀ dst : List Nat, dst.length = bs.length → Decode dst (hexEncode bs) = .ret (bs, none) := by
  induction bs with
  | nil =>
    intro dst h
    have hd : dst = [] := List.length_eq_zero.mp h
    subst hd
    simp [hexEncode, Decode]
  | cons c cs ih =>
    intro dst hlen
    obtain ⟨h1, h2, h3⟩ := byte_hex_all c (hb c (by simp))
    cases dst with
    | nil => simp at hlen
    | cons d ds =>
      have hds : ds.length = cs.length := by simpa using hlen
      have ih2 := ih (fun x hx => hb x (by simp [hx])) ds hds
      have he : hexEncode (c :: cs) =
          ldigits.getD (c >>> 4) 0 :: ldigits.getD (c &&& 0xF) 0 :: hexEncode cs := rfl
      rw [he, Decode, if_neg (by omega), if_neg (by omega), ih2, Run.bind_ret]
      simp only [h3]

theorem decodeGroup_next (text : List Nat) (braced : Bool) (i g : Nat) (pre b bs rest : List Nat)
    (hb : ∀ c ∈ bs, c < 256) (hg : g = 2 * bs.length) (hlen : bs.length ≤ b.length)
    (hlast : i ≠ 4 ∨ rest = [] ∨ (braced = true ∧ rest = [125])) :
    decodeGroup text braced i g pre b (hexEncode bs ++ rest) =
      .ret (.next (pre ++ bs) (b.drop bs.length) rest) := by
  have hl : (hexEncode bs ++ rest).length = g + rest.length := by
    simp [hexEncode_length, hg]
  have hg2 : g / 2 = bs.length := by omega
  have htake : (hexEncode bs ++ rest).take g = hexEncode bs :=
    List.take_left' (by simp [hexEncode_length, hg])
  have hdrop : (hexEncode bs ++ rest).drop g = rest :=
    List.drop_left' (by simp [hexEncode_length, hg])
  have hdec : Decode (b.take bs.length) (hexEncode bs) = .ret (bs, none) :=
    Decode_hexEncode bs hb _ (by simp [hlen])
  have hidx : index (hexEncode bs ++ rest) g = match rest.head? with
      | some c => .ret c | none => .panic := by
    unfold index
    rw [List.get?_eq_getElem?, List.getElem?_append_right (by simp [hexEncode_length, hg])]
    simp [hexEncode_length, hg]
    cases rest <;> simp
  unfold decodeGroup
  rw [if_neg (by omega)]
  rcases hlast with h | h | ⟨h1, h2⟩
  · simp [h, sliceTo, sliceFrom, hl, hg2, hlen, htake, hdrop, hdec]
  · subst h
    simp only [List.append_nil] at hl htake hdrop ⊢
    simp [sliceTo, sliceFrom, hl, hg2, hlen, htake, hdrop, hdec]
  · subst h1 h2
    simp [hidx, sliceTo, sliceFrom, hl, hg2, hlen, htake, hdrop, hdec]

theorem decodeGroup_tooLong (text : List Nat) (braced : Bool) (g : Nat) (pre b bs rest : List Nat)
    (hg : g = 2 * bs.length) (hne : rest ≠ []) (hbr : ¬ (braced = true ∧ rest = [125])) :
    decodeGroup text braced 4 g pre b (hexEncode bs ++ rest) =
      .ret (.done (pre ++ b) (.tooLong text)) := by
  have hl : (hexEncode bs ++ rest).length = g + rest.length := by
    simp [hexEncode_length, hg]
  have hdrop : (hexEncode bs ++ rest).drop g = rest :=
    List.drop_left' (by simp [hexEncode_length, hg])
  have hidx : index (hexEncode bs ++ rest) g = match rest.head? with
      | some c => .ret c | none => .panic := by
    unfold index
    rw [List.get?_eq_getElem?, List.getElem?_append_right (by simp [hexEncode_length, hg])]
    simp [hexEncode_length, hg]
    cases rest <;> simp
  have hpos : 0 < rest.length := List.length_pos.mpr hne
  unfold decodeGroup
  rw [if_neg (by omega)]
  cases rest with
  | nil => exact absurd rfl hne
  | cons c cs =>
    cases braced with
    | false => simp [hidx, sliceFrom, hl, hdrop]
    | true =>
      cases cs with
      | nil =>
        have hc : c ≠ 125 := by
          intro h; exact hbr ⟨rfl, by rw [h]⟩
        simp [hidx, sliceFrom, hl, hdrop, hc]
      | cons c2 cs2 => simp [hidx, sliceFrom, hl, hdrop]

theorem iteration_first (text : List Nat) (braced : Bool) (g : Nat) (pre b t : List Nat) :
    iteration text braced 0 g pre b t = decodeGroup text braced 0 g pre b t := by
  simp [iteration]

theorem iteration_sep (text : List Nat) (braced : Bool) (i g : Nat) (pre b t : List Nat)
    (hi : 0 < i) :
    iteration text braced i g pre b (45 :: t) = decodeGroup text braced i g pre b t := by
  simp [iteration, hi, index, sliceFrom]

/-- The loop run on five well-formed groups reaches the last group with the first four
decoded. -/
theorem loop_joined_init (text : List Nat) (braced : Bool) (g0 g1 g2 g3 g4 rest u0 : List Nat)
    (h0 : g0.length = 4) (h1 : g1.length = 2) (h2 : g2.length = 2) (h3 : g3.length = 2)
    (hb0 : ∀ c ∈ g0, c < 256) (hb1 : ∀ c ∈ g1, c < 256)
    (hb2 : ∀ c ∈ g2, c < 256) (hb3 : ∀ c ∈ g3, c < 256) (hu : u0.length = 16) :
    loop text braced 0 byteGroups [] u0 (joined g0 g1 g2 g3 g4 rest) =
      (decodeGroup text braced 4 12 (g0 ++ g1 ++ g2 ++ g3) (u0.drop 10)
        (hexEncode g4 ++ rest)).bind fun f =>
        match f with
        | .done u err => .ret (u, some err)
        | .next pre b _ => .ret (pre ++ b, none) := by
  unfold joined byteGroups
  rw [loop, iteration_first,
    decodeGroup_next text braced 0 8 [] u0 g0 _ hb0 (by omega) (by omega) (Or.inl (by omega))]
  simp only [Run.bind_ret]
  rw [loop, iteration_sep _ _ _ _ _ _ _ (by omega),
    decodeGroup_next text braced 1 4 _ _ g1 _ hb1 (by omega) (by simp; omega)
      (Or.inl (by omega))]
  simp only [Run.bind_ret]
  rw [loop, iteration_sep _ _ _ _ _ _ _ (by omega),
    decodeGroup_next text braced 2 4 _ _ g2 _ hb2 (by omega) (by simp; omega)
      (Or.inl (by omega))]
  simp only [Run.bind_ret]
  rw [loop, iteration_sep _ _ _ _ _ _ _ (by omega),
    decodeGroup_next text braced 3 4 _ _ g3 _ hb3 (by omega) (by simp; omega)
      (Or.inl (by omega))]
  simp only [Run.bind_ret]
  rw [loop, iteration_sep _ _ _ _ _ _ _ (by omega)]
  simp only [List.nil_append, List.drop_drop, h0, h1, h2, h3]
  congr 1

/-- The loop accepts five well-formed groups followed by nothing, or by one `}` in the braced
form, and decodes them. -/
theorem loop_joined_ok (text : List Nat) (braced : Bool) (g0 g1 g2 g3 g4 rest u0 : List Nat)
    (h0 : g0.length = 4) (h1 : g1.length = 2) (h2 : g2.length = 2) (h3 : g3.length = 2)
    (h4 : g4.length = 6)
    (hb0 : ∀ c ∈ g0, c < 256) (hb1 : ∀ c ∈ g1, c < 256) (hb2 : ∀ c ∈ g2, c < 256)
    (hb3 : ∀ c ∈ g3, c < 256) (hb4 : ∀ c ∈ g4, c < 256) (hu : u0.length = 16)
    (hrest : rest = [] ∨ (braced = true ∧ rest = [125])) :
    loop text braced 0 byteGroups [] u0 (joined g0 g1 g2 g3 g4 rest) =
      .ret (g0 ++ g1 ++ g2 ++ g3 ++ g4, none) := by
  rw [loop_joined_init text braced g0 g1 g2 g3 g4 rest u0 h0 h1 h2 h3 hb0 hb1 hb2 hb3 hu,
    decodeGroup_next text braced 4 12 _ _ g4 _ hb4 (by omega) (by simp; omega) (Or.inr hrest)]
  have hnil : List.drop g4.length (List.drop 10 u0) = [] := by
    apply List.drop_eq_nil_of_le; simp; omega
  simp [hnil]

/-- The loop answers "too long" when anything else follows five well-formed groups. -/
theorem loop_joined_tooLong (text : List Nat) (braced : Bool)
    (g0 g1 g2 g3 g4 rest u0 : List Nat)
    (h0 : g0.length = 4) (h1 : g1.length = 2) (h2 : g2.length = 2) (h3 : g3.length = 2)
    (h4 : g4.length = 6)
    (hb0 : ∀ c ∈ g0, c < 256) (hb1 : ∀ c ∈ g1, c < 256) (hb2 : ∀ c ∈ g2, c < 256)
    (hb3 : ∀ c ∈ g3, c < 256) (hu : u0.length = 16)
    (hne : rest ≠ []) (hbr : ¬ (braced = true ∧ rest = [125])) :
    loop text braced 0 byteGroups [] u0 (joined g0 g1 g2 g3 g4 rest) =
      .ret (g0 ++ g1 ++ g2 ++ g3 ++ u0.drop 10, some (.tooLong text)) := by
  rw [loop_joined_init text braced g0 g1 g2 g3 g4 rest u0 h0 h1 h2 h3 hb0 hb1 hb2 hb3 hu,
    decodeGroup_tooLong text braced 12 _ _ g4 _ (by omega) hne hbr]
  simp

/-- Without a prefix the loop runs on the whole input. -/
theorem UnmarshalText_plain (u0 : UUID) (c : Nat) (tl : List Nat)
    (hlen : 32 ≤ (c :: tl).length) (h1 : c ≠ 117) (h2 : c ≠ 123) :
    UnmarshalText u0 (c :: tl) = loop (c :: tl) false 0 byteGroups [] u0 (c :: tl) := by
  have h9 : 9 ≤ (c :: tl).length := by omega
  have hp : List.take 9 (c :: tl) ≠ urnPrefix := by
    intro h
    simp [urnPrefix, List.take_succ_cons] at h
    exact h1 h.1
  unfold UnmarshalText
  rw [if_neg (by omega)]
  simp only [sliceTo, if_pos h9, Run.bind_ret, if_neg hp]
  simp [index, h2]

/-- After the prefix `urn:uuid:` the loop runs on what follows it. -/
theorem UnmarshalText_urn (u0 : UUID) (t : List Nat) (hlen : 23 ≤ t.length) :
    UnmarshalText u0 (urnPrefix ++ t) = loop (urnPrefix ++ t) false 0 byteGroups [] u0 t := by
  have hl : (urnPrefix ++ t).length = 9 + t.length := by simp [urnPrefix]; omega
  have htake : List.take 9 (urnPrefix ++ t) = urnPrefix := List.take_left' rfl
  have hdrop : List.drop 9 (urnPrefix ++ t) = t := List.drop_left' rfl
  unfold UnmarshalText
  rw [if_neg (by omega)]
  simp [sliceTo, sliceFrom, hl, htake, hdrop]

/-- After an opening brace the loop runs on what follows it, in braced mode. -/
theorem UnmarshalText_braced (u0 : UUID) (t : List Nat) (hlen : 31 ≤ t.length) :
    UnmarshalText u0 (123 :: t) = loop (123 :: t) true 0 byteGroups [] u0 t := by
  have h9 : 9 ≤ (123 :: t).length := by simp; omega
  have hp : List.take 9 (123 :: t) ≠ urnPrefix := by
    intro h
    simp [urnPrefix, List.take_succ_cons] at h
  unfold UnmarshalText
  rw [if_neg (by simp; omega)]
  simp only [sliceTo, if_pos h9, Run.bind_ret, if_neg hp]
  simp [index, sliceFrom]

/-- The canonical text of a well-formed UUID is the joined text of its five groups, and it
starts with a lower-case hex digit. -/
theorem String_joined (u : UUID) (rest : List Nat) :
    u.String ++ rest =
      joined (u.slice 0 4) (u.slice 4 6) (u.slice 6 8) (u.slice 8 10) (u.slice 10 16) rest := by
  simp [UUID.String, joined]

theorem String_head (u : UUID) (h : u.wf) :
    ∃ c tl, u.String = c :: tl ∧ isLowerHexDigit c ∧ tl.length = 35 := by
  obtain ⟨hl, hb⟩ := h
  obtain ⟨a0, a1, a2, a3, a4, a5, a6, a7, a8, a9, a10, a11, a12, a13, a14, a15, rfl⟩ :=
    list_length_16 hl
  refine ⟨ldigits.getD (a0 >>> 4) 0, _, rfl, ?_, rfl⟩
  exact (byte_digits_all a0 (hb a0 (by simp))).2.2.1

theorem slices_wf (u : UUID) (h : u.wf) :
    ((u.slice 0 4).length = 4 ∧ (u.slice 4 6).length = 2 ∧ (u.slice 6 8).length = 2 ∧
      (u.slice 8 10).length = 2 ∧ (u.slice 10 16).length = 6) ∧
    ((∀ c ∈ u.slice 0 4, c < 256) ∧ (∀ c ∈ u.slice 4 6, c < 256) ∧
      (∀ c ∈ u.slice 6 8, c < 256) ∧ (∀ c ∈ u.slice 8 10, c < 256) ∧
      (∀ c ∈ u.slice 10 16, c < 256)) ∧
    u.slice 0 4 ++ u.slice 4 6 ++ u.slice 6 8 ++ u.slice 8 10 ++ u.slice 10 16 = u ∧
    u.slice 0 4 ++ u.slice 4 6 ++ u.slice 6 8 ++ u.slice 8 10 = u.take 10 := by
  obtain ⟨hl, hb⟩ := h
  have hmem : ∀ lo hi, ∀ c ∈ u.slice lo hi, c < 256 := by
    intro lo hi c hc
    exact hb c (List.mem_of_mem_take (List.mem_of_mem_drop hc))
  obtain ⟨a0, a1, a2, a3, a4, a5, a6, a7, a8, a9, a10, a11, a12, a13, a14, a15, rfl⟩ :=
    list_length_16 hl
  exact ⟨⟨rfl, rfl, rfl, rfl, rfl⟩,
    ⟨hmem _ _, hmem _ _, hmem _ _, hmem _ _, hmem _ _⟩, rfl, rfl⟩

/-- The loop decodes the canonical text of `u` back to `u`. -/
theorem loop_String_ok (text : List Nat) (braced : Bool) (u : UUID) (u0 rest : List Nat)
    (h : u.wf) (hu : u0.length = 16) (hrest : rest = [] ∨ (braced = true ∧ rest = [125])) :
    loop text braced 0 byteGroups [] u0 (u.String ++ rest) = .ret (u, none) := by
  obtain ⟨⟨h0, h1, h2, h3, h4⟩, ⟨hb0, hb1, hb2, hb3, hb4⟩, hcat, _⟩ := slices_wf u h
  rw [String_joined u, loop_joined_ok text braced _ _ _ _ _ rest u0 h0 h1 h2 h3 h4
    hb0 hb1 hb2 hb3 hb4 hu hrest, hcat]

/-- The loop answers "too long" when something else follows the canonical text of `u`. -/
theorem loop_String_tooLong (text : List Nat) (braced : Bool) (u : UUID) (u0 rest : List Nat)
    (h : u.wf) (hu : u0.length = 16) (hne : rest ≠ [])
    (hbr : ¬ (braced = true ∧ rest = [125])) :
    loop text braced 0 byteGroups [] u0 (u.String ++ rest) =
      .ret (u.take 10 ++ u0.drop 10, some (.tooLong text)) := by
  obtain ⟨⟨h0, h1, h2, h3, h4⟩, ⟨hb0, hb1, hb2, hb3, _⟩, _, hcat⟩ := slices_wf u h
  rw [String_joined u, loop_joined_tooLong text braced _ _ _ _ _ rest u0 h0 h1 h2 h3 h4
    hb0 hb1 hb2 hb3 hu hne hbr, hcat]

theorem isLowerHexDigit_ne {c : Nat} (h : isLowerHexDigit c) : c ≠ 117 ∧ c ≠ 123 := by
  unfold isLowerHexDigit at h
  omega

/-- Parsing the canonical text of `u`, followed by `rest`, from an array `u0`. -/
theorem UnmarshalText_String (u : UUID) (u0 rest : List Nat) (h : u.wf) :
    UnmarshalText u0 (u.String ++ rest) =
      loop (u.String ++ rest) false 0 byteGroups [] u0 (u.String ++ rest) := by
  obtain ⟨c, tl, hs, hc, htl⟩ := String_head u h
  obtain ⟨n1, n2⟩ := isLowerHexDigit_ne hc
  rw [hs, List.cons_append]
  exact UnmarshalText_plain u0 c (tl ++ rest) (by simp; omega) n1 n2

theorem String_length (u : UUID) (h : u.wf) : u.String.length = 36 := by
  obtain ⟨c, tl, hs, _, htl⟩ := String_head u h
  rw [hs]; simp [htl]

theorem Nil_length : Nil.length = 16 := rfl

theorem hexByte_eq (c : Nat) (h : c < 256) :
    hexByte c = [lowerHexChar (c / 16), lowerHexChar (c % 16)] := by
  obtain ⟨h1, h2, _, _⟩ := byte_digits_all c h
  unfold hexByte
  rw [h1, h2]

theorem lowerHexChar_isLowerHexDigit (d : Nat) (h : d < 16) :
    isLowerHexDigit (lowerHexChar d) := by
  unfold isLowerHexDigit lowerHexChar
  split <;> omega

/-- The canonical text of sixteen bytes, character by character. -/
theorem String_explicit (a0 a1 a2 a3 a4 a5 a6 a7 a8 a9 a10 a11 a12 a13 a14 a15 : Nat)
    (hb : ∀ c ∈ [a0, a1, a2, a3, a4, a5, a6, a7, a8, a9, a10, a11, a12, a13, a14, a15],
      c < 256) :
    UUID.String [a0, a1, a2, a3, a4, a5, a6, a7, a8, a9, a10, a11, a12, a13, a14, a15] =
      [lowerHexChar (a0 / 16), lowerHexChar (a0 % 16), lowerHexChar (a1 / 16), lowerHexChar (a1
       % 16), lowerHexChar (a2 / 16), lowerHexChar (a2 % 16), lowerHexChar (a3 / 16),
       lowerHexChar (a3 % 16), 45, lowerHexChar (a4 / 16), lowerHexChar (a4 % 16), lowerHexChar
       (a5 / 16), lowerHexChar (a5 % 16), 45, lowerHexChar (a6 / 16), lowerHexChar (a6 % 16),
       lowerHexChar (a7 / 16), lowerHexChar (a7 % 16), 45, lowerHexChar (a8 / 16), lowerHexChar
       (a8 % 16), lowerHexChar (a9 / 16), lowerHexChar (a9 % 16), 45, lowerHexChar (a10 / 16),
       lowerHexChar (a10 % 16), lowerHexChar (a11 / 16), lowerHexChar (a11 % 16), lowerHexChar
       (a12 / 16), lowerHexChar (a12 % 16), lowerHexChar (a13 / 16), lowerHexChar (a13 % 16),
       lowerHexChar (a14 / 16), lowerHexChar (a14 % 16), lowerHexChar (a15 / 16), lowerHexChar
       (a15 % 16)] := by
  have hs : UUID.String [a0, a1, a2, a3, a4, a5, a6, a7, a8, a9, a10, a11, a12, a13, a14, a15] =
      (hexByte a0 ++ (hexByte a1 ++ (hexByte a2 ++ (hexByte a3 ++ (45 :: ((hexByte a4 ++
      (hexByte a5 ++ (45 :: ((hexByte a6 ++ (hexByte a7 ++ (45 :: ((hexByte a8 ++ (hexByte a9 ++
      (45 :: ((hexByte a10 ++ (hexByte a11 ++ (hexByte a12 ++ (hexByte a13 ++ (hexByte a14 ++
      hexByte a15))))))))))))))))))))))) := rfl
  rw [hs, hexByte_eq a0 (hb a0 (by simp)), hexByte_eq a1 (hb a1 (by simp)), hexByte_eq a2 (hb a2 (by
      simp)), hexByte_eq a3 (hb a3 (by simp)), hexByte_eq a4 (hb a4 (by simp)), hexByte_eq a5
      (hb a5 (by simp)), hexByte_eq a6 (hb a6 (by simp)), hexByte_eq a7 (hb a7 (by simp)),
      hexByte_eq a8 (hb a8 (by simp)), hexByte_eq a9 (hb a9 (by simp)), hexByte_eq a10 (hb a10
      (by simp)), hexByte_eq a11 (hb a11 (by simp)), hexByte_eq a12 (hb a12 (by simp)),
      hexByte_eq a13 (hb a13 (by simp)), hexByte_eq a14 (hb a14 (by simp)), hexByte_eq a15 (hb
      a15 (by simp))]
  rfl

/-- A parse of the canonical text of `u` into any array gives `u`. -/
theorem UnmarshalText_String_ok (u : UUID) (u0 : List Nat) (h : u.wf) (hu : u0.length = 16) :
    UnmarshalText u0 u.String = .ret (u, none) := by
  have h1 := UnmarshalText_String u u0 [] h
  have h2 := loop_String_ok (u.String ++ []) false u u0 [] h hu (Or.inl rfl)
  rw [List.append_nil] at h1 h2
  rw [h1, h2]

/-! ### Bit fields -/

theorem copy_length (dst src : List Nat) : (copy dst src).length = dst.length := by
  simp [copy]; omega

theorem copy_full (dst src : List Nat) (h : src.length = dst.length) : copy dst src = src := by
  simp [copy, ← h]

theorem at_put_same (u : UUID) (i v : Nat) (h : i < u.length) : (u.put i v).at i = v := by
  simp [UUID.at, UUID.put, List.getD_eq_getElem?_getD, List.getElem?_set, h]

theorem at_put_ne (u : UUID) (i j v : Nat) (h : i ≠ j) : (u.put i v).at j = u.at j := by
  simp [UUID.at, UUID.put, List.getD_eq_getElem?_getD, List.getElem?_set, h]

theorem put_length (u : UUID) (i v : Nat) : (u.put i v).length = u.length := by
  simp [UUID.put]

theorem wf_at_lt (u : UUID) (h : u.wf) (i : Nat) : u.at i < 256 := by
  unfold UUID.at
  rw [List.getD_eq_getElem?_getD]
  by_cases hi : i < u.length
  · rw [List.getElem?_eq_getElem hi]
    exact h.2 _ (List.getElem_mem hi)
  · rw [List.getElem?_eq_none (by omega)]
    simp

/-- A mask below 256 only sees the low eight bits. -/
theorem and_mask_mod (x m : Nat) (hm : m < 256) : x &&& m = (x % 256) &&& m := by
  apply Nat.eq_of_testBit_eq
  intro i
  have h256 : (256 : Nat) = 2 ^ 8 := rfl
  rw [Nat.testBit_and, Nat.testBit_and, h256, Nat.testBit_mod_two_pow]
  by_cases hi : i < 8
  · simp [hi]
  · have hmi : m.testBit i = false :=
      Nat.testBit_lt_two_pow (lt_of_lt_of_le hm (by
        rw [h256]; exact Nat.pow_le_pow_right (by decide) (by omega)))
    simp [hmi]

set_option maxRecDepth 100000 in
theorem stamp_bits_all : ∀ r < 256,
    (((r &&& 0x0f) ||| 0x30) >>> 4) % 256 = 3 ∧
    (((r &&& 0x0f) ||| 0x40) >>> 4) % 256 = 4 ∧
    (((r &&& 0x0f) ||| 0x50) >>> 4) % 256 = 5 ∧
    ((r &&& 0x0f) ||| 0x30) % 16 = r % 16 ∧
    ((r &&& 0x0f) ||| 0x40) % 16 = r % 16 ∧
    ((r &&& 0x0f) ||| 0x50) % 16 = r % 16 ∧
    ((r &&& 0xbf) ||| 0x80) % 64 = r % 64 ∧
    ((r &&& 0xbf) ||| 0x80) / 64 = 2 ∧
    ((r &&& 0xbf) ||| 0x80) < 256 := by
  decide

set_option maxRecDepth 100000 in
/-- The `switch` of `Variant`, case by case, on every byte value. -/
theorem variant_bits_all : ∀ r < 256,
    ((if (r &&& 0x80) = 0x00 then VariantNCS
      else if ((r &&& 0xc0) ||| 0x80) = 0x80 then VariantRFC4122
      else if ((r &&& 0xe0) ||| 0xc0) = 0xc0 then VariantMicrosoft
      else VariantFuture) =
     (if r / 128 = 0 then VariantNCS else if r / 64 = 2 then VariantRFC4122
      else if r / 32 = 6 then VariantMicrosoft else VariantFuture)) := by
  decide

set_option maxRecDepth 100000 in
/-- Each outcome of the `switch` of `Variant` against the top bits, on every byte value. -/
theorem variant_iff_all : ∀ r < 256,
    ((if (r &&& 0x80) = 0x00 then VariantNCS
      else if ((r &&& 0xc0) ||| 0x80) = 0x80 then VariantRFC4122
      else if ((r &&& 0xe0) ||| 0xc0) = 0xc0 then VariantMicrosoft
      else VariantFuture) = VariantNCS ↔ r / 128 = 0) ∧
    ((if (r &&& 0x80) = 0x00 then VariantNCS
      else if ((r &&& 0xc0) ||| 0x80) = 0x80 then VariantRFC4122
      else if ((r &&& 0xe0) ||| 0xc0) = 0xc0 then VariantMicrosoft
      else VariantFuture) = VariantRFC4122 ↔ r / 64 = 2) ∧
    ((if (r &&& 0x80) = 0x00 then VariantNCS
      else if ((r &&& 0xc0) ||| 0x80) = 0x80 then VariantRFC4122
      else if ((r &&& 0xe0) ||| 0xc0) = 0xc0 then VariantMicrosoft
      else VariantFuture) = VariantMicrosoft ↔ r / 32 = 6) ∧
    ((if (r &&& 0x80) = 0x00 then VariantNCS
      else if ((r &&& 0xc0) ||| 0x80) = 0x80 then VariantRFC4122
      else if ((r &&& 0xe0) ||| 0xc0) = 0xc0 then VariantMicrosoft
      else VariantFuture) = VariantFuture ↔ r / 32 = 7) := by
  decide

/-- The variant stamp `(x & 0xbf) | 0x80` on any value: a byte with top bits `10` and the low
six bits of `x`. -/
theorem variant_stamp (x : Nat) :
    ((x &&& 0xbf) ||| 0x80) < 256 ∧ ((x &&& 0xbf) ||| 0x80) / 64 = 2 ∧
    ((x &&& 0xbf) ||| 0x80) % 64 = x % 64 := by
  obtain ⟨_, _, _, _, _, _, h7, h8, h9⟩ := stamp_bits_all (x % 256) (Nat.mod_lt _ (by decide))
  rw [and_mask_mod x 0xbf (by decide)]
  refine ⟨h9, h8, ?_⟩
  rw [h7]; omega

/-- The version stamps `(x & 0x0f) | 0x30`, `| 0x40`, `| 0x50` on any value. -/
theorem version_stamp (x : Nat) :
    ((((x &&& 0x0f) ||| 0x30) >>> 4) % 256 = 3 ∧ ((x &&& 0x0f) ||| 0x30) % 16 = x % 16) ∧
    ((((x &&& 0x0f) ||| 0x40) >>> 4) % 256 = 4 ∧ ((x &&& 0x0f) ||| 0x40) % 16 = x % 16) ∧
    ((((x &&& 0x0f) ||| 0x50) >>> 4) % 256 = 5 ∧ ((x &&& 0x0f) ||| 0x50) % 16 = x % 16) := by
  obtain ⟨h1, h2, h3, h4, h5, h6, _, _, _⟩ :=
    stamp_bits_all (x % 256) (Nat.mod_lt _ (by decide))
  rw [and_mask_mod x 0x0f (by decide)]
  refine ⟨⟨h1, ?_⟩, ⟨h2, ?_⟩, ⟨h3, ?_⟩⟩
  · rw [h4]; omega
  · rw [h5]; omega
  · rw [h6]; omega

/-- The result of `Variant` read off the top three bits of byte 8. -/
theorem Variant_table (u : UUID) (h : u.at 8 < 256) :
    u.Variant = (if u.at 8 / 128 = 0 then VariantNCS else if u.at 8 / 64 = 2 then VariantRFC4122
      else if u.at 8 / 32 = 6 then VariantMicrosoft else VariantFuture) :=
  variant_bits_all (u.at 8) h

/-- A 16-byte value whose bytes 6 and 8 were stamped for version `v`. -/
theorem stamped_fields (d : UUID) (hd : d.length = 16) (a : Nat) :
    let r := (d.put 6 a).put 8 ((d.at 8 &&& 0xbf) ||| 0x80)
    r.Version = (a >>> 4) % 256 ∧ r.Variant = VariantRFC4122 ∧ r.length = 16 ∧
    r.at 6 = a ∧ r.at 8 % 64 = d.at 8 % 64 ∧
    (∀ i, i ≠ 6 → i ≠ 8 → r.at i = d.at i) := by
  intro r
  obtain ⟨v1, v2, v3⟩ := variant_stamp (d.at 8)
  have h6 : r.at 6 = a := by
    show ((d.put 6 a).put 8 _).at 6 = a
    rw [at_put_ne _ 8 6 _ (by decide), at_put_same _ _ _ (by omega)]
  have h8 : r.at 8 = (d.at 8 &&& 0xbf) ||| 0x80 := by
    show ((d.put 6 a).put 8 _).at 8 = _
    rw [at_put_same _ _ _ (by rw [put_length]; omega)]
  refine ⟨?_, ?_, ?_, h6, ?_, ?_⟩
  · unfold UUID.Version; rw [h6]
  · rw [Variant_table r (by rw [h8]; exact v1), h8, if_neg (by omega), if_pos v2]
  · show ((d.put 6 a).put 8 _).length = 16
    rw [put_length, put_length, hd]
  · rw [h8, v3]
  · intro i hi6 hi8
    show ((d.put 6 a).put 8 _).at i = d.at i
    rw [at_put_ne _ 8 i _ (Ne.symm hi8), at_put_ne _ 6 i _ (Ne.symm hi6)]

theorem newFromHash_length (hash : Hash) (ns : UUID) (name : List Nat) :
    (newFromHash hash ns name).length = 16 := by
  unfold newFromHash
  rw [copy_length]; rfl

theorem newFromHash_eq (digest : List Nat → List Nat) (ns : UUID) (name : List Nat) :
    newFromHash (Hash.New digest) ns name = copy Nil (digest (ns ++ name)) := by
  simp [newFromHash, Hash.New, Hash.Write, Hash.Sum]

/-- The function `NewV3` stamps bytes 6 and 8 of the truncated digest. -/
theorem NewV3_eq (md5 : List Nat → List Nat) (n : UUID) (s : List Nat) :
    NewV3 md5 n s =
      ((newFromHash (Hash.New md5) n s).put 6
        (((newFromHash (Hash.New md5) n s).at 6 &&& 0x0f) ||| 0x30)).put 8
        (((newFromHash (Hash.New md5) n s).at 8 &&& 0xbf) ||| 0x80) := by
  unfold NewV3
  simp only [at_put_ne _ 6 8 _ (by decide)]

/-- The function `NewV5` stamps bytes 6 and 8 of the truncated digest. -/
theorem NewV5_eq (sha1 : List Nat → List Nat) (n : UUID) (s : List Nat) :
    NewV5 sha1 n s =
      ((newFromHash (Hash.New sha1) n s).put 6
        (((newFromHash (Hash.New sha1) n s).at 6 &&& 0x0f) ||| 0x50)).put 8
        (((newFromHash (Hash.New sha1) n s).at 8 &&& 0xbf) ||| 0x80) := by
  unfold NewV5
  simp only [at_put_ne _ 6 8 _ (by decide)]

theorem readBuf_length (rnd : List Nat) : (readBuf rnd).length = 16 := by
  unfold readBuf; rw [copy_length]; rfl

/-- The function `NewV4` stamps bytes 6 and 8 of the buffer and copies it out whole. -/
theorem NewV4_eq (rnd : List Nat) :
    NewV4 rnd =
      UUID.put (UUID.put (readBuf rnd) 6 ((UUID.at (readBuf rnd) 6 &&& 0x0f) ||| 0x40)) 8
        ((UUID.at (readBuf rnd) 8 &&& 0xbf) ||| 0x80) := by
  unfold NewV4
  simp only [at_put_ne _ 6 8 _ (by decide)]
  exact copy_full _ _ (by rw [put_length, put_length, readBuf_length]; rfl)

/-! ### What a failing parse leaves in the array -/

theorem Run.bind_eq_ret {α β : Type} (x : Run α) (f : α → Run β) (y : β) :
    x.bind f = .ret y ↔ ∃ a, x = .ret a ∧ f a = .ret y := by
  cases x with
  | ret a => simp
  | panic => simp

theorem sliceTo_eq_ret (t : List Nat) (n : Nat) (r : List Nat) :
    sliceTo t n = .ret r ↔ n ≤ t.length ∧ r = t.take n := by
  unfold sliceTo
  split <;> simp [*, eq_comm]

theorem sliceFrom_eq_ret (t : List Nat) (n : Nat) (r : List Nat) :
    sliceFrom t n = .ret r ↔ n ≤ t.length ∧ r = t.drop n := by
  unfold sliceFrom
  split <;> simp [*, eq_comm]

theorem drop_take_append_drop (b : List Nat) (k m : Nat) (hk : k ≤ m) (hm : m ≤ b.length) :
    (b.take m).drop k ++ b.drop m = b.drop k := by
  have h : b.drop k = (b.take m ++ b.drop m).drop k := by rw [List.take_append_drop]
  rw [h, List.drop_append_of_le_length (by simp; omega)]

/-- What `hex.Decode` leaves in `dst`: the bytes `d` of the pairs decoded, then the old contents;
on an error at least one character of `src` was not decoded. -/
theorem Decode_shape : ∀ (dst src : List Nat) (r : List Nat × Option Err),
    Decode dst src = .ret r →
    ∃ d, r.1 = d ++ dst.drop d.length ∧ 2 * d.length ≤ src.length ∧ d.length ≤ dst.length ∧
      (r.2 ≠ none → 2 * d.length < src.length) ∧ (r.2 = none → 2 * d.length = src.length)
  | dst, [], r, h => by
    simp only [Decode, Run.ret.injEq] at h
    subst h
    exact ⟨[], by simp⟩
  | dst, [p], r, h => by
    simp only [Decode] at h
    split at h <;>
      · simp only [Run.ret.injEq] at h
        subst h
        exact ⟨[], by simp⟩
  | [], p :: q :: src, r, h => by
    rw [Decode] at h
    split at h
    · simp only [Run.ret.injEq] at h
      subst h
      exact ⟨[], by simp⟩
    · split at h
      · simp only [Run.ret.injEq] at h
        subst h
        exact ⟨[], by simp⟩
      · simp at h
  | x :: dst1, p :: q :: src, r, h => by
    rw [Decode] at h
    split at h
    · simp only [Run.ret.injEq] at h
      subst h
      exact ⟨[], by simp⟩
    · split at h
      · simp only [Run.ret.injEq] at h
        subst h
        exact ⟨[], by simp⟩
      · simp only [Run.bind_eq_ret, Run.ret.injEq] at h
        obtain ⟨r1, hr1, hr⟩ := h
        obtain ⟨d, hd1, hd2, hd3, hd4, hd5⟩ := Decode_shape dst1 src r1 hr1
        subst hr
        refine ⟨(((reverseHexTable p <<< 4) % 256) ||| reverseHexTable q) :: d,
          ?_, ?_, ?_, ?_, ?_⟩
        · simp [hd1]
        · simp; omega
        · simp; omega
        · intro hne; have := hd4 hne; simp; omega
        · intro hn; have := hd5 hn; simp; omega

theorem decodeGroup_shape (text : List Nat) (braced : Bool) (i g : Nat) (pre b t : List Nat)
    (f : Flow) (hg : 2 ≤ g) (heven : g % 2 = 0)
    (h : decodeGroup text braced i g pre b t = .ret f) : FlowShape pre b (g / 2) f := by
  have hpos : 0 < g / 2 := by omega
  unfold decodeGroup at h
  split at h
  · simp only [Run.ret.injEq] at h
    subst h
    exact ⟨[], by simpa using hpos, by simp⟩
  · rw [Run.bind_eq_ret] at h
    obtain ⟨tooLong, _, h⟩ := h
    cases tooLong with
    | true =>
      simp only [if_true, Run.ret.injEq] at h
      subst h
      exact ⟨[], by simpa using hpos, by simp⟩
    | false =>
      simp only [Bool.false_eq_true, if_false, Run.bind_eq_ret, sliceTo_eq_ret] at h
      obtain ⟨dst, ⟨hb, hdst⟩, src, ⟨ht, hsrc⟩, r, hdec, h⟩ := h
      obtain ⟨d, hd1, hd2, hd3, hd4, hd5⟩ := Decode_shape dst src r hdec
      have hdl : dst.length = g / 2 := by rw [hdst]; simp [hb]
      have hsl : src.length = g := by rw [hsrc]; simp [ht]
      cases hr2 : r.2 with
      | some err =>
        rw [hr2] at h
        simp only [Run.ret.injEq] at h
        subst h
        have := hd4 (by rw [hr2]; simp)
        refine ⟨d, by omega, ?_⟩
        rw [hd1, hdst, List.append_assoc, List.append_assoc, List.append_assoc,
          drop_take_append_drop b d.length (g / 2) (by omega) hb]
      | none =>
        rw [hr2] at h
        simp only [Run.bind_eq_ret, sliceFrom_eq_ret, Run.ret.injEq] at h
        obtain ⟨t1, ⟨_, _⟩, b1, ⟨_, hb1⟩, h⟩ := h
        subst h
        have := hd5 hr2
        have hdd : d.length = g / 2 := by omega
        refine ⟨d, hdd, hb, ?_, hb1⟩
        rw [hd1, List.drop_eq_nil_of_le (by omega), List.append_nil]

theorem iteration_shape (text : List Nat) (braced : Bool) (i g : Nat) (pre b t : List Nat)
    (f : Flow) (hg : 2 ≤ g) (heven : g % 2 = 0)
    (h : iteration text braced i g pre b t = .ret f) : FlowShape pre b (g / 2) f := by
  unfold iteration at h
  split at h
  · rw [Run.bind_eq_ret] at h
    obtain ⟨c, _, h⟩ := h
    split at h
    · simp only [Run.ret.injEq] at h
      subst h
      exact ⟨[], by simp; omega, by simp⟩
    · rw [Run.bind_eq_ret] at h
      obtain ⟨t1, _, h⟩ := h
      exact decodeGroup_shape text braced i g pre b t1 f hg heven h
  · exact decodeGroup_shape text braced i g pre b t f hg heven h

/-- A failing run of the loop has overwritten fewer bytes than the remaining groups hold, and
nothing after them. -/
theorem loop_shape (text : List Nat) (braced : Bool) :
    ∀ (gs : List Nat) (i : Nat) (pre b t : List Nat) (u1 : UUID) (e : Err),
    (∀ g ∈ gs, 2 ≤ g ∧ g % 2 = 0) → (gs.map (fun g => g / 2)).sum = b.length →
    loop text braced i gs pre b t = .ret (u1, some e) →
    ∃ d, d.length < b.length ∧ u1 = pre ++ d ++ b.drop d.length
  | [], i, pre, b, t, u1, e, _, _, h => by
    simp [loop] at h
  | g :: gs, i, pre, b, t, u1, e, hgs, hsum, h => by
    rw [loop, Run.bind_eq_ret] at h
    obtain ⟨f, hf, h⟩ := h
    obtain ⟨hg, heven⟩ := hgs g (by simp)
    have hshape := iteration_shape text braced i g pre b t f hg heven hf
    simp only [List.map_cons, List.sum_cons] at hsum
    cases f with
    | done u err =>
      simp only [Run.ret.injEq, Prod.mk.injEq, Option.some.injEq] at h
      obtain ⟨d, hd1, hd2⟩ := hshape
      obtain ⟨rfl, _⟩ := h
      exact ⟨d, by omega, hd2⟩
    | next pre1 b1 t1 =>
      obtain ⟨d0, hd0, hle, hpre, hb1⟩ := hshape
      simp only at h
      have hb1len : b1.length = b.length - g / 2 := by rw [hb1]; simp
      obtain ⟨d, hd1, hd2⟩ := loop_shape text braced gs (i + 1) pre1 b1 t1 u1 e
        (fun x hx => hgs x (by simp [hx])) (by omega) h
      refine ⟨d0 ++ d, by simp; omega, ?_⟩
      rw [hd2, hpre, hb1, List.drop_drop, List.length_append, hd0]
      simp [List.append_assoc, Nat.add_comm]

/-- A failing `UnmarshalText` has overwritten only a leading part `d` of the array, of fewer
than 16 bytes, and nothing when the input is shorter than 32 bytes. -/
theorem UnmarshalText_failure_shape (u : UUID) (text : List Nat) (u1 : UUID) (e : Err)
    (hu : u.length = 16) (h : UnmarshalText u text = .ret (u1, some e)) :
    ∃ d, d.length < 16 ∧ u1 = d ++ u.drop d.length ∧ (text.length < 32 → d = []) := by
  unfold UnmarshalText at h
  split at h
  · simp only [Run.ret.injEq, Prod.mk.injEq] at h
    exact ⟨[], by simp, by simp [h.1], fun _ => rfl⟩
  · rename_i hlen
    simp only [Run.bind_eq_ret] at h
    obtain ⟨_, _, tb, _, h⟩ := h
    obtain ⟨d, hd1, hd2⟩ := loop_shape text tb.2 byteGroups 0 [] u tb.1 u1 e
      (by decide) (by rw [hu]; rfl) h
    exact ⟨d, by omega, by simpa using hd2, fun hlt => absurd hlt hlen⟩

/-! ### Facts for the constructors, the constants and `Variant` -/

/-- The `switch` of `Variant` through its three case expressions. -/
theorem Variant_switch (u : UUID) :
    u.Variant = (if caseNCS (u.at 8) = true then VariantNCS
      else if caseRFC4122 (u.at 8) = true then VariantRFC4122
      else if caseMicrosoft (u.at 8) = true then VariantMicrosoft
      else VariantFuture) := by
  simp only [UUID.Variant, caseNCS, caseRFC4122, caseMicrosoft, decide_eq_true_eq]

set_option maxRecDepth 100000 in
/-- The case expressions of `Variant` against the top bits, on every byte value. -/
theorem case_bits_all : ∀ r < 256,
    (caseNCS r = true ↔ r / 128 = 0) ∧
    (caseNCS r = false → (caseRFC4122 r = true ↔ r / 64 = 2)) ∧
    (caseNCS r = false → (caseMicrosoft r = true ↔ (r / 32 = 4 ∨ r / 32 = 6))) ∧
    (caseNCS r = false → caseRFC4122 r = false → (caseMicrosoft r = true ↔ r / 32 = 6)) := by
  decide

/-- The truncated digest when the digest has at least 16 bytes. -/
theorem copy_Nil_take (D : List Nat) (h : 16 ≤ D.length) : copy Nil D = D.take 16 := by
  unfold copy
  rw [List.drop_eq_nil_of_le (by rw [Nil_length]; exact h), List.append_nil, Nil_length]

theorem at_take (D : List Nat) (i n : Nat) (h : i < n) : UUID.at (D.take n) i = UUID.at D i := by
  simp [UUID.at, List.getD_eq_getElem?_getD, List.getElem?_take, h]

theorem at_eq_of_eq {a b : UUID} (h : a = b) (i : Nat) : a.at i = b.at i := by rw [h]

theorem eq_of_at_eq (a b : UUID) (ha : a.length = 16) (hb : b.length = 16)
    (h : ∀ i < 16, a.at i = b.at i) : a = b := by
  apply List.ext_getElem (by rw [ha, hb])
  intro i h1 h2
  have := h i (by omega)
  simpa [UUID.at, List.getD_eq_getElem?_getD, List.getElem?_eq_getElem h1,
    List.getElem?_eq_getElem h2] using this

/-! ### Decoding arbitrary hex text -/

theorem isHexDigit_iff (c : Nat) : isHexDigit c ↔ reverseHexTable c ≤ 15 := by
  unfold isHexDigit reverseHexTable
  split_ifs <;> omega

theorem allHex_cons2 (p q : Nat) (src : List Nat) :
    allHex (p :: q :: src) ↔ isHexDigit p ∧ isHexDigit q ∧ allHex src := by
  simp [allHex]

theorem allHex_append (g h : List Nat) : allHex (g ++ h) ↔ allHex g ∧ allHex h := by
  simp only [allHex, List.mem_append]
  constructor
  · intro hh; exact ⟨fun c hc => hh c (Or.inl hc), fun c hc => hh c (Or.inr hc)⟩
  · rintro ⟨h1, h2⟩ c (hc | hc)
    · exact h1 c hc
    · exact h2 c hc

theorem hexDecode_length : ∀ (src : List Nat) (n : Nat), src.length = 2 * n →
    (hexDecode src).length = n
  | [], n, h => by simp at h; simp [hexDecode]; omega
  | [_], n, h => by simp at h; omega
  | p :: q :: src, n, h => by
    simp only [hexDecode, List.length_cons] at h ⊢
    rw [hexDecode_length src (n - 1) (by omega)]
    omega

/-- A text of hex digits that fills `dst` decodes to `hexDecode` of it. -/
theorem Decode_allHex : ∀ (dst src : List Nat), allHex src → src.length = 2 * dst.length →
    Decode dst src = .ret (hexDecode src, none)
  | [], [], _, _ => by simp [Decode, hexDecode]
  | [], _ :: _, _, h => by simp at h
  | _ :: _, [], _, h => by simp at h
  | _ :: _, [_], _, h => by simp at h; omega
  | x :: dst, p :: q :: src, hh, h => by
    obtain ⟨hp, hq, hs⟩ := (allHex_cons2 p q src).mp hh
    rw [isHexDigit_iff] at hp hq
    rw [Decode, if_neg (by omega), if_neg (by omega),
      Decode_allHex dst src hs (by simp at h; omega), Run.bind_ret]
    rfl

/-- A text with a character that is not a hex digit makes `hex.Decode` return the invalid-byte
error, for a character of the text that is not a hex digit. -/
theorem Decode_bad : ∀ (dst src : List Nat), ¬ allHex src → src.length = 2 * dst.length →
    ∃ d c, Decode dst src = .ret (d, some (.invalidByte c)) ∧ ¬ isHexDigit c ∧ c ∈ src
  | [], [], hh, _ => absurd (by simp [allHex]) hh
  | [], _ :: _, _, h => by simp at h
  | _ :: _, [], _, h => by simp at h
  | _ :: _, [_], _, h => by simp at h; omega
  | x :: dst, p :: q :: src, hh, h => by
    by_cases hp : isHexDigit p
    · by_cases hq : isHexDigit q
      · have hs : ¬ allHex src := fun hs => hh ((allHex_cons2 p q src).mpr ⟨hp, hq, hs⟩)
        obtain ⟨d, c, hd, hc, hm⟩ := Decode_bad dst src hs (by simp at h; omega)
        rw [isHexDigit_iff] at hp hq
        refine ⟨hexPair p q :: d, c, ?_, hc, by simp [hm]⟩
        rw [Decode, if_neg (by omega), if_neg (by omega), hd, Run.bind_ret]
        rfl
      · refine ⟨x :: dst, q, ?_, hq, by simp⟩
        rw [isHexDigit_iff] at hp hq
        rw [Decode, if_neg (by omega), if_pos (by omega)]
    · refine ⟨x :: dst, p, ?_, hp, by simp⟩
      rw [isHexDigit_iff] at hp
      rw [Decode, if_pos (by omega)]

theorem index_append_length (g rest : List Nat) :
    index (g ++ rest) g.length = match rest.head? with
      | some c => .ret c
      | none => .panic := by
  unfold index
  rw [List.get?_eq_getElem?, List.getElem?_append_right (Nat.le_refl _)]
  cases rest <;> simp

/-- The too-long test of the loop body on a group `g` followed by `rest`: it passes outside the
last pass, and in the last pass when nothing follows or one closing brace follows in braced
mode. -/
theorem decodeGroup_raw_pass (text : List Nat) (braced : Bool) (i : Nat) (pre b g rest : List Nat)
    (hlast : i ≠ 4 ∨ rest = [] ∨ (braced = true ∧ rest = [125])) :
    decodeGroup text braced i g.length pre b (g ++ rest) =
      (sliceTo b (g.length / 2)).bind fun dst =>
      (Decode dst g).bind fun r =>
        match r.2 with
        | some err => .ret (.done (pre ++ r.1 ++ b.drop (g.length / 2)) err)
        | none =>
          (sliceFrom b (g.length / 2)).bind fun b1 => .ret (.next (pre ++ r.1) b1 rest) := by
  have hl : (g ++ rest).length = g.length + rest.length := by simp
  have hidx := index_append_length g rest
  unfold decodeGroup
  rw [if_neg (by omega)]
  rcases hlast with h | h | ⟨h1, h2⟩
  · simp [h, sliceTo, sliceFrom, hl]
  · subst h
    simp [sliceTo, sliceFrom]
  · subst h1 h2
    simp [hidx, sliceTo, sliceFrom, hl]

/-- A group of hex digits is decoded and the pass moves on. -/
theorem decodeGroup_raw_next (text : List Nat) (braced : Bool) (i n : Nat)
    (pre b g rest : List Nat) (hg : g.length = n) (heven : n % 2 = 0) (hb : n / 2 ≤ b.length)
    (hhex : allHex g) (hlast : i ≠ 4 ∨ rest = [] ∨ (braced = true ∧ rest = [125])) :
    decodeGroup text braced i n pre b (g ++ rest) =
      .ret (.next (pre ++ hexDecode g) (b.drop (n / 2)) rest) := by
  subst hg
  rw [decodeGroup_raw_pass text braced i pre b g rest hlast]
  have hdec := Decode_allHex (b.take (g.length / 2)) g hhex (by simp [hb]; omega)
  simp [sliceTo, sliceFrom, hb, hdec]

/-- A group with a character that is not a hex digit ends the parse with the invalid-byte
error. -/
theorem decodeGroup_raw_bad (text : List Nat) (braced : Bool) (i n : Nat)
    (pre b g rest : List Nat) (hg : g.length = n) (heven : n % 2 = 0) (hb : n / 2 ≤ b.length)
    (hhex : ¬ allHex g) (hlast : i ≠ 4 ∨ rest = [] ∨ (braced = true ∧ rest = [125])) :
    ∃ v c, decodeGroup text braced i n pre b (g ++ rest) = .ret (.done v (.invalidByte c)) ∧
      ¬ isHexDigit c ∧ c ∈ g := by
  subst hg
  rw [decodeGroup_raw_pass text braced i pre b g rest hlast]
  obtain ⟨d, c, hd, hc, hm⟩ := Decode_bad (b.take (g.length / 2)) g hhex (by simp [hb]; omega)
  refine ⟨pre ++ d ++ b.drop (g.length / 2), c, ?_, hc, hm⟩
  simp [sliceTo, hb, hd]

theorem decodeGroup_short (text : List Nat) (braced : Bool) (i n : Nat) (pre b t : List Nat)
    (h : t.length < n) :
    decodeGroup text braced i n pre b t = .ret (.done (pre ++ b) (.tooShort text)) := by
  unfold decodeGroup
  rw [if_pos h]

theorem decodeGroup_raw_tooLong (text : List Nat) (braced : Bool) (pre b g rest : List Nat)
    (hne : rest ≠ []) (hbr : ¬ (braced = true ∧ rest = [125])) :
    decodeGroup text braced 4 g.length pre b (g ++ rest) =
      .ret (.done (pre ++ b) (.tooLong text)) := by
  have hl : (g ++ rest).length = g.length + rest.length := by simp
  have hdrop : (g ++ rest).drop g.length = rest := List.drop_left' rfl
  have hidx := index_append_length g rest
  have hpos : 0 < rest.length := List.length_pos.mpr hne
  unfold decodeGroup
  rw [if_neg (by omega)]
  cases rest with
  | nil => exact absurd rfl hne
  | cons c cs =>
    cases braced with
    | false => simp [hidx, sliceFrom, hl, hdrop]
    | true =>
      cases cs with
      | nil =>
        have hc : c ≠ 125 := by
          intro h; exact hbr ⟨rfl, by rw [h]⟩
        simp [hidx, sliceFrom, hl, hdrop, hc]
      | cons c2 cs2 => simp [hidx, sliceFrom, hl, hdrop]

/-! ### The loop, pass by pass -/

/-- The first pass on a group of hex digits. -/
theorem loop_step_first (text : List Nat) (braced : Bool) (n : Nat) (gs pre b g t : List Nat)
    (hg : g.length = n) (heven : n % 2 = 0) (hb : n / 2 ≤ b.length) (hhex : allHex g) :
    loop text braced 0 (n :: gs) pre b (g ++ t) =
      loop text braced 1 gs (pre ++ hexDecode g) (b.drop (n / 2)) t := by
  rw [loop, iteration_first,
    decodeGroup_raw_next text braced 0 n pre b g t hg heven hb hhex (Or.inl (by decide)),
    Run.bind_ret]

/-- A later pass, other than the last, on a separator and a group of hex digits. -/
theorem loop_step_sep (text : List Nat) (braced : Bool) (i n : Nat) (gs pre b g t : List Nat)
    (hi : 0 < i) (hi4 : i ≠ 4) (hg : g.length = n) (heven : n % 2 = 0) (hb : n / 2 ≤ b.length)
    (hhex : allHex g) :
    loop text braced i (n :: gs) pre b (45 :: (g ++ t)) =
      loop text braced (i + 1) gs (pre ++ hexDecode g) (b.drop (n / 2)) t := by
  rw [loop, iteration_sep _ _ _ _ _ _ _ hi,
    decodeGroup_raw_next text braced i n pre b g t hg heven hb hhex (Or.inl hi4),
    Run.bind_ret]

/-- A later pass that meets another character than `-` answers "invalid string format". -/
theorem loop_bad_sep (text : List Nat) (braced : Bool) (i n c : Nat) (gs pre b t : List Nat)
    (hi : 0 < i) (hc : c ≠ 45) :
    loop text braced i (n :: gs) pre b (c :: t) = .ret (pre ++ b, some .invalidFormat) := by
  rw [loop]
  simp [iteration, hi, index, hc]

/-- A pass on a group with a character that is not a hex digit answers the invalid-byte
error. -/
theorem loop_bad_group (text : List Nat) (braced : Bool) (i n : Nat) (gs pre b g t : List Nat)
    (hg : g.length = n) (heven : n % 2 = 0) (hb : n / 2 ≤ b.length) (hhex : ¬ allHex g)
    (hlast : i ≠ 4 ∨ t = [] ∨ (braced = true ∧ t = [125])) :
    ∃ v c, loop text braced i (n :: gs) pre b (if i = 0 then g ++ t else 45 :: (g ++ t)) =
      .ret (v, some (.invalidByte c)) ∧ ¬ isHexDigit c ∧ c ∈ g := by
  obtain ⟨v, c, hd, hc, hm⟩ := decodeGroup_raw_bad text braced i n pre b g t hg heven hb hhex hlast
  refine ⟨v, c, ?_, hc, hm⟩
  by_cases hi : i = 0
  · subst hi
    rw [if_pos rfl, loop, iteration_first, hd, Run.bind_ret]
  · rw [if_neg hi, loop, iteration_sep _ _ _ _ _ _ _ (by omega), hd, Run.bind_ret]

theorem loop_bad_first (text : List Nat) (braced : Bool) (n : Nat) (gs pre b g t : List Nat)
    (hg : g.length = n) (heven : n % 2 = 0) (hb : n / 2 ≤ b.length) (hhex : ¬ allHex g) :
    ∃ v c, loop text braced 0 (n :: gs) pre b (g ++ t) = .ret (v, some (.invalidByte c)) ∧
      ¬ isHexDigit c := by
  obtain ⟨v, c, hv, hc, _⟩ := loop_bad_group text braced 0 n gs pre b g t hg heven hb hhex
    (Or.inl (by decide))
  exact ⟨v, c, by simpa using hv, hc⟩

theorem loop_bad_later (text : List Nat) (braced : Bool) (i n : Nat) (gs pre b g t : List Nat)
    (hi : 0 < i) (hg : g.length = n) (heven : n % 2 = 0) (hb : n / 2 ≤ b.length)
    (hhex : ¬ allHex g) (hlast : i ≠ 4 ∨ t = [] ∨ (braced = true ∧ t = [125])) :
    ∃ v c, loop text braced i (n :: gs) pre b (45 :: (g ++ t)) =
      .ret (v, some (.invalidByte c)) ∧ ¬ isHexDigit c := by
  obtain ⟨v, c, hv, hc, _⟩ := loop_bad_group text braced i n gs pre b g t hg heven hb hhex hlast
  exact ⟨v, c, by rw [if_neg (by omega)] at hv; exact hv, hc⟩

/-- The three ways `UnmarshalText` enters its loop on an input of 32 bytes or more. -/
theorem UnmarshalText_cases (u0 : UUID) (text : List Nat) (hlen : 32 ≤ text.length) :
    UnmarshalText u0 text =
      (if text.take 9 = urnPrefix then loop text false 0 byteGroups [] u0 (text.drop 9)
       else if text.head? = some 123 then loop text true 0 byteGroups [] u0 (text.drop 1)
       else loop text false 0 byteGroups [] u0 text) := by
  have h9 : 9 ≤ text.length := by omega
  have h1 : 1 ≤ text.length := by omega
  unfold UnmarshalText
  rw [if_neg (by omega)]
  simp only [sliceTo, sliceFrom, if_pos h9, if_pos h1, Run.bind_ret]
  by_cases hp : List.take 9 text = urnPrefix
  · simp [hp]
  · rw [if_neg hp, if_neg hp]
    cases text with
    | nil => simp at h1
    | cons c tl =>
      by_cases hc : c = 123
      · simp [index, hc]
      · simp [index, hc]

/-! ### Separators -/

/-- The lists of `k` groups with the lengths of the first `k` entries of `byteGroups`. -/
theorem groups_of_lengths (k : Nat) (gs : List (List Nat)) (hk : 1 ≤ k ∧ k ≤ 4)
    (hgs : gs.map List.length = byteGroups.take k) :
    (∃ g0, gs = [g0] ∧ g0.length = 8) ∨
    (∃ g0 g1, gs = [g0, g1] ∧ g0.length = 8 ∧ g1.length = 4) ∨
    (∃ g0 g1 g2, gs = [g0, g1, g2] ∧ g0.length = 8 ∧ g1.length = 4 ∧ g2.length = 4) ∨
    (∃ g0 g1 g2 g3, gs = [g0, g1, g2, g3] ∧ g0.length = 8 ∧ g1.length = 4 ∧ g2.length = 4 ∧
      g3.length = 4) := by
  obtain ⟨h1, h4⟩ := hk
  interval_cases k
  · rcases gs with _ | ⟨g0, _ | ⟨g1, gs⟩⟩ <;> simp [byteGroups] at hgs
    exact Or.inl ⟨g0, rfl, hgs⟩
  · rcases gs with _ | ⟨g0, _ | ⟨g1, _ | ⟨g2, gs⟩⟩⟩ <;> simp [byteGroups] at hgs
    exact Or.inr (Or.inl ⟨g0, g1, rfl, hgs.1, hgs.2⟩)
  · rcases gs with _ | ⟨g0, _ | ⟨g1, _ | ⟨g2, _ | ⟨g3, gs⟩⟩⟩⟩ <;> simp [byteGroups] at hgs
    exact Or.inr (Or.inr (Or.inl ⟨g0, g1, g2, rfl, hgs.1, hgs.2.1, hgs.2.2⟩))
  · rcases gs with _ | ⟨g0, _ | ⟨g1, _ | ⟨g2, _ | ⟨g3, _ | ⟨g4, gs⟩⟩⟩⟩⟩ <;>
      simp [byteGroups] at hgs
    exact Or.inr (Or.inr (Or.inr ⟨g0, g1, g2, g3, rfl, hgs.1, hgs.2.1, hgs.2.2.1, hgs.2.2.2⟩))

/-- After `k` well-formed groups, a character other than `-` where the next separator is due
makes the loop answer "invalid string format". -/
theorem loop_sepJoin_bad (text : List Nat) (braced : Bool) (u0 : List Nat) (hu : u0.length = 16)
    (k : Nat) (gs : List (List Nat)) (c : Nat) (rest : List Nat) (hk : 1 ≤ k ∧ k ≤ 4)
    (hgs : gs.map List.length = byteGroups.take k) (hhex : ∀ g ∈ gs, allHex g) (hc : c ≠ 45) :
    ∃ v, loop text braced 0 byteGroups [] u0 (sepJoin gs ++ c :: rest) =
      .ret (v, some .invalidFormat) := by
  unfold byteGroups
  rcases groups_of_lengths k gs hk hgs with ⟨g0, rfl, h0⟩ | ⟨g0, g1, rfl, h0, h1⟩ |
    ⟨g0, g1, g2, rfl, h0, h1, h2⟩ | ⟨g0, g1, g2, g3, rfl, h0, h1, h2, h3⟩
  · simp only [sepJoin]
    rw [loop_step_first _ _ 8 _ _ _ g0 _ h0 (by decide) (by omega) (hhex g0 (by simp)),
      loop_bad_sep _ _ _ _ _ _ _ _ _ (by decide) hc]
    exact ⟨_, rfl⟩
  · simp only [sepJoin, List.append_assoc, List.cons_append]
    rw [loop_step_first _ _ 8 _ _ _ g0 _ h0 (by decide) (by omega) (hhex g0 (by simp)),
      loop_step_sep _ _ _ 4 _ _ _ g1 _ (by decide) (by decide) h1 (by decide)
        (by simp; omega) (hhex g1 (by simp)),
      loop_bad_sep _ _ _ _ _ _ _ _ _ (by decide) hc]
    exact ⟨_, rfl⟩
  · simp only [sepJoin, List.append_assoc, List.cons_append]
    rw [loop_step_first _ _ 8 _ _ _ g0 _ h0 (by decide) (by omega) (hhex g0 (by simp)),
      loop_step_sep _ _ _ 4 _ _ _ g1 _ (by decide) (by decide) h1 (by decide)
        (by simp; omega) (hhex g1 (by simp)),
      loop_step_sep _ _ _ 4 _ _ _ g2 _ (by decide) (by decide) h2 (by decide)
        (by simp; omega) (hhex g2 (by simp)),
      loop_bad_sep _ _ _ _ _ _ _ _ _ (by decide) hc]
    exact ⟨_, rfl⟩
  · simp only [sepJoin, List.append_assoc, List.cons_append]
    rw [loop_step_first _ _ 8 _ _ _ g0 _ h0 (by decide) (by omega) (hhex g0 (by simp)),
      loop_step_sep _ _ _ 4 _ _ _ g1 _ (by decide) (by decide) h1 (by decide)
        (by simp; omega) (hhex g1 (by simp)),
      loop_step_sep _ _ _ 4 _ _ _ g2 _ (by decide) (by decide) h2 (by decide)
        (by simp; omega) (hhex g2 (by simp)),
      loop_step_sep _ _ _ 4 _ _ _ g3 _ (by decide) (by decide) h3 (by decide)
        (by simp; omega) (hhex g3 (by simp)),
      loop_bad_sep _ _ _ _ _ _ _ _ _ (by decide) hc]
    exact ⟨_, rfl⟩

theorem isHexDigit_ne (c : Nat) (h : isHexDigit c) : c ≠ 117 ∧ c ≠ 123 ∧ c ≠ 45 := by
  unfold isHexDigit at h
  omega

theorem take9_ne_urn (c : Nat) (tl : List Nat) (hc : c ≠ 117) :
    List.take 9 (c :: tl) ≠ urnPrefix := by
  intro h
  simp [urnPrefix, List.take_succ_cons] at h
  exact hc h.1

/-- A text of 32 bytes or more that starts with a hex digit is parsed without a prefix. -/
theorem UnmarshalText_hex_head (u0 : UUID) (c : Nat) (tl : List Nat)
    (hlen : 32 ≤ (c :: tl).length) (hc : isHexDigit c) :
    UnmarshalText u0 (c :: tl) = loop (c :: tl) false 0 byteGroups [] u0 (c :: tl) := by
  obtain ⟨h1, h2, _⟩ := isHexDigit_ne c hc
  rw [UnmarshalText_cases u0 _ hlen, if_neg (take9_ne_urn c tl h1), if_neg (by simp [h2])]

theorem sepJoin_head (k : Nat) (gs : List (List Nat)) (tl : List Nat) (hk : 1 ≤ k ∧ k ≤ 4)
    (hgs : gs.map List.length = byteGroups.take k) (hhex : ∀ g ∈ gs, allHex g) :
    ∃ c t, sepJoin gs ++ tl = c :: t ∧ isHexDigit c := by
  have h8 : ∀ g0 : List Nat, g0.length = 8 → allHex g0 → ∀ x : List Nat,
      ∃ c t, g0 ++ x = c :: t ∧ isHexDigit c := by
    intro g0 h0 hh x
    cases g0 with
    | nil => simp at h0
    | cons c t => exact ⟨c, t ++ x, rfl, hh c (by simp)⟩
  rcases groups_of_lengths k gs hk hgs with ⟨g0, rfl, h0⟩ | ⟨g0, g1, rfl, h0, h1⟩ |
    ⟨g0, g1, g2, rfl, h0, h1, h2⟩ | ⟨g0, g1, g2, g3, rfl, h0, h1, h2, h3⟩
  · exact h8 g0 h0 (hhex g0 (by simp)) _
  · simp only [sepJoin, List.append_assoc]
    exact h8 g0 h0 (hhex g0 (by simp)) _
  · simp only [sepJoin, List.append_assoc]
    exact h8 g0 h0 (hhex g0 (by simp)) _
  · simp only [sepJoin, List.append_assoc]
    exact h8 g0 h0 (hhex g0 (by simp)) _

/-! ### Texts of 36 characters -/

theorem list_length_succ {t : List Nat} {n : Nat} (h : t.length = n + 1) :
    ∃ c tl, t = c :: tl ∧ tl.length = n := by
  cases t with
  | nil => simp at h
  | cons c tl => exact ⟨c, tl, rfl, by simpa using h⟩

theorem list_length_36 {t : List Nat} (h0 : t.length = 36) :
    ∃ c0 c1 c2 c3 c4 c5 c6 c7 c8 c9 c10 c11 c12 c13 c14 c15 c16 c17 c18 c19 c20 c21 c22 c23 c24
      c25 c26 c27 c28 c29 c30 c31 c32 c33 c34 c35,
      t = [c0, c1, c2, c3, c4, c5, c6, c7, c8, c9, c10, c11, c12, c13, c14, c15, c16, c17, c18,
          c19, c20, c21, c22, c23, c24, c25, c26, c27, c28, c29, c30, c31, c32, c33, c34, c35] := by
  obtain ⟨c0, t1, rfl, h1⟩ := list_length_succ h0
  obtain ⟨c1, t2, rfl, h2⟩ := list_length_succ h1
  obtain ⟨c2, t3, rfl, h3⟩ := list_length_succ h2
  obtain ⟨c3, t4, rfl, h4⟩ := list_length_succ h3
  obtain ⟨c4, t5, rfl, h5⟩ := list_length_succ h4
  obtain ⟨c5, t6, rfl, h6⟩ := list_length_succ h5
  obtain ⟨c6, t7, rfl, h7⟩ := list_length_succ h6
  obtain ⟨c7, t8, rfl, h8⟩ := list_length_succ h7
  obtain ⟨c8, t9, rfl, h9⟩ := list_length_succ h8
  obtain ⟨c9, t10, rfl, h10⟩ := list_length_succ h9
  obtain ⟨c10, t11, rfl, h11⟩ := list_length_succ h10
  obtain ⟨c11, t12, rfl, h12⟩ := list_length_succ h11
  obtain ⟨c12, t13, rfl, h13⟩ := list_length_succ h12
  obtain ⟨c13, t14, rfl, h14⟩ := list_length_succ h13
  obtain ⟨c14, t15, rfl, h15⟩ := list_length_succ h14
  obtain ⟨c15, t16, rfl, h16⟩ := list_length_succ h15
  obtain ⟨c16, t17, rfl, h17⟩ := list_length_succ h16
  obtain ⟨c17, t18, rfl, h18⟩ := list_length_succ h17
  obtain ⟨c18, t19, rfl, h19⟩ := list_length_succ h18
  obtain ⟨c19, t20, rfl, h20⟩ := list_length_succ h19
  obtain ⟨c20, t21, rfl, h21⟩ := list_length_succ h20
  obtain ⟨c21, t22, rfl, h22⟩ := list_length_succ h21
  obtain ⟨c22, t23, rfl, h23⟩ := list_length_succ h22
  obtain ⟨c23, t24, rfl, h24⟩ := list_length_succ h23
  obtain ⟨c24, t25, rfl, h25⟩ := list_length_succ h24
  obtain ⟨c25, t26, rfl, h26⟩ := list_length_succ h25
  obtain ⟨c26, t27, rfl, h27⟩ := list_length_succ h26
  obtain ⟨c27, t28, rfl, h28⟩ := list_length_succ h27
  obtain ⟨c28, t29, rfl, h29⟩ := list_length_succ h28
  obtain ⟨c29, t30, rfl, h30⟩ := list_length_succ h29
  obtain ⟨c30, t31, rfl, h31⟩ := list_length_succ h30
  obtain ⟨c31, t32, rfl, h32⟩ := list_length_succ h31
  obtain ⟨c32, t33, rfl, h33⟩ := list_length_succ h32
  obtain ⟨c33, t34, rfl, h34⟩ := list_length_succ h33
  obtain ⟨c34, t35, rfl, h35⟩ := list_length_succ h34
  obtain ⟨c35, t36, rfl, h36⟩ := list_length_succ h35
  have hnil : t36 = [] := List.length_eq_zero.mp h36
  subst hnil
  exact ⟨c0, c1, c2, c3, c4, c5, c6, c7, c8, c9, c10, c11, c12, c13, c14, c15, c16, c17, c18, c19,
    c20, c21, c22, c23, c24, c25, c26, c27, c28, c29, c30, c31, c32, c33, c34, c35, rfl⟩

/-- A text of 36 characters with `-` at indices 8, 13, 18 and 23 is five groups of 8, 4, 4, 4
and 12 characters joined by `-`. -/
theorem text36_groups (t : List Nat) (h : t.length = 36) (h8 : t.getD 8 0 = 45)
    (h13 : t.getD 13 0 = 45) (h18 : t.getD 18 0 = 45) (h23 : t.getD 23 0 = 45) :
    ∃ g0 g1 g2 g3 g4, t = rawJoined g0 g1 g2 g3 g4 [] ∧ g0.length = 8 ∧ g1.length = 4 ∧
      g2.length = 4 ∧ g3.length = 4 ∧ g4.length = 12 ∧
      (∀ i, i < 36 → i ∉ [8, 13, 18, 23] → t.getD i 0 ∈ g0 ++ g1 ++ g2 ++ g3 ++ g4) ∧
      (∀ c ∈ g0 ++ g1 ++ g2 ++ g3 ++ g4, ∃ i, i < 36 ∧ i ∉ [8, 13, 18, 23] ∧ t.getD i 0 = c) := by
  obtain ⟨c0, c1, c2, c3, c4, c5, c6, c7, c8, c9, c10, c11, c12, c13, c14, c15, c16, c17, c18,
          c19, c20, c21, c22, c23, c24, c25, c26, c27, c28, c29, c30, c31, c32, c33, c34, c35, rfl⟩ := list_length_36 h
  have e8 : c8 = 45 := h8
  have e13 : c13 = 45 := h13
  have e18 : c18 = 45 := h18
  have e23 : c23 = 45 := h23
  subst e8 e13 e18 e23
  refine ⟨[c0, c1, c2, c3, c4, c5, c6, c7], [c9, c10, c11, c12], [c14, c15, c16, c17],
    [c19, c20, c21, c22],
    [c24, c25, c26, c27, c28, c29, c30, c31, c32, c33, c34, c35],
    rfl, rfl, rfl, rfl, rfl, rfl, ?_, ?_⟩
  · intro i hi hn
    interval_cases i <;> first | exact (hn (by decide)).elim | simp
  · intro c hc
    simp only [List.cons_append, List.nil_append, List.mem_cons, List.not_mem_nil,
      or_false] at hc
    rcases hc with rfl | rfl | rfl | rfl | rfl | rfl | rfl | rfl | rfl | rfl | rfl | rfl | rfl | rfl | rfl | rfl | rfl | rfl | rfl | rfl | rfl | rfl | rfl | rfl | rfl | rfl | rfl | rfl | rfl | rfl | rfl | rfl
    · exact ⟨0, by decide, by decide, rfl⟩
    · exact ⟨1, by decide, by decide, rfl⟩
    · exact ⟨2, by decide, by decide, rfl⟩
    · exact ⟨3, by decide, by decide, rfl⟩
    · exact ⟨4, by decide, by decide, rfl⟩
    · exact ⟨5, by decide, by decide, rfl⟩
    · exact ⟨6, by decide, by decide, rfl⟩
    · exact ⟨7, by decide, by decide, rfl⟩
    · exact ⟨9, by decide, by decide, rfl⟩
    · exact ⟨10, by decide, by decide, rfl⟩
    · exact ⟨11, by decide, by decide, rfl⟩
    · exact ⟨12, by decide, by decide, rfl⟩
    · exact ⟨14, by decide, by decide, rfl⟩
    · exact ⟨15, by decide, by decide, rfl⟩
    · exact ⟨16, by decide, by decide, rfl⟩
    · exact ⟨17, by decide, by decide, rfl⟩
    · exact ⟨19, by decide, by decide, rfl⟩
    · exact ⟨20, by decide, by decide, rfl⟩
    · exact ⟨21, by decide, by decide, rfl⟩
    · exact ⟨22, by decide, by decide, rfl⟩
    · exact ⟨24, by decide, by decide, rfl⟩
    · exact ⟨25, by decide, by decide, rfl⟩
    · exact ⟨26, by decide, by decide, rfl⟩
    · exact ⟨27, by decide, by decide, rfl⟩
    · exact ⟨28, by decide, by decide, rfl⟩
    · exact ⟨29, by decide, by decide, rfl⟩
    · exact ⟨30, by decide, by decide, rfl⟩
    · exact ⟨31, by decide, by decide, rfl⟩
    · exact ⟨32, by decide, by decide, rfl⟩
    · exact ⟨33, by decide, by decide, rfl⟩
    · exact ⟨34, by decide, by decide, rfl⟩
    · exact ⟨35, by decide, by decide, rfl⟩

/-- Five groups of the right lengths, not all of hex digits: the loop answers the invalid-byte
error for a character that is not a hex digit. -/
theorem loop_rawJoined_bad (text : List Nat) (braced : Bool) (u0 g0 g1 g2 g3 g4 : List Nat)
    (hu : u0.length = 16) (h0 : g0.length = 8) (h1 : g1.length = 4) (h2 : g2.length = 4)
    (h3 : g3.length = 4) (h4 : g4.length = 12)
    (hbad : ¬ (allHex g0 ∧ allHex g1 ∧ allHex g2 ∧ allHex g3 ∧ allHex g4)) :
    ∃ v c, loop text braced 0 byteGroups [] u0 (rawJoined g0 g1 g2 g3 g4 []) =
      .ret (v, some (.invalidByte c)) ∧ ¬ isHexDigit c := by
  unfold rawJoined byteGroups
  by_cases a0 : allHex g0
  · rw [loop_step_first _ _ 8 _ _ _ g0 _ h0 (by decide) (by omega) a0]
    by_cases a1 : allHex g1
    · rw [loop_step_sep _ _ _ 4 _ _ _ g1 _ (by decide) (by decide) h1 (by decide)
        (by simp; omega) a1]
      by_cases a2 : allHex g2
      · rw [loop_step_sep _ _ _ 4 _ _ _ g2 _ (by decide) (by decide) h2 (by decide)
          (by simp; omega) a2]
        by_cases a3 : allHex g3
        · rw [loop_step_sep _ _ _ 4 _ _ _ g3 _ (by decide) (by decide) h3 (by decide)
            (by simp; omega) a3]
          have a4 : ¬ allHex g4 := fun a4 => hbad ⟨a0, a1, a2, a3, a4⟩
          exact loop_bad_later text braced 4 12 _ _ _ g4 [] (by decide) h4 (by decide)
            (by simp; omega) a4 (Or.inr (Or.inl rfl))
        · exact loop_bad_later text braced 3 4 _ _ _ g3 _ (by decide) h3 (by decide)
            (by simp; omega) a3 (Or.inl (by decide))
      · exact loop_bad_later text braced 2 4 _ _ _ g2 _ (by decide) h2 (by decide)
          (by simp; omega) a2 (Or.inl (by decide))
    · exact loop_bad_later text braced 1 4 _ _ _ g1 _ (by decide) h1 (by decide)
        (by simp; omega) a1 (Or.inl (by decide))
  · exact loop_bad_first text braced 8 _ _ _ g0 _ h0 (by decide) (by omega) a0

theorem take9_ne_urn_of_dash (t : List Nat) (h8 : t.getD 8 0 = 45) :
    List.take 9 t ≠ urnPrefix := by
  intro h
  have h1 := at_take t 8 9 (by decide)
  rw [h] at h1
  unfold UUID.at at h1
  rw [h8] at h1
  exact absurd h1 (by decide)

/-! ### Truncated texts -/

theorem isHexDigit_of_lower {c : Nat} (h : isLowerHexDigit c) : isHexDigit c := by
  unfold isLowerHexDigit at h
  unfold isHexDigit
  omega

theorem allHex_hexEncode (bs : List Nat) (hb : ∀ c ∈ bs, c < 256) : allHex (hexEncode bs) := by
  induction bs with
  | nil => intro c hc; simp [hexEncode] at hc
  | cons x xs ih =>
    have hx : x < 256 := hb x (by simp)
    have e : hexEncode (x :: xs) = hexByte x ++ hexEncode xs := rfl
    rw [e, allHex_append, hexByte_eq x hx]
    refine ⟨?_, ih (fun c hc => hb c (by simp [hc]))⟩
    intro c hc
    simp only [List.mem_cons, List.mem_singleton, List.not_mem_nil, or_false] at hc
    rcases hc with rfl | rfl
    · exact isHexDigit_of_lower (lowerHexChar_isLowerHexDigit _ (by omega))
    · exact isHexDigit_of_lower (lowerHexChar_isLowerHexDigit _ (by omega))

theorem joined_eq_rawJoined (g0 g1 g2 g3 g4 rest : List Nat) :
    joined g0 g1 g2 g3 g4 rest =
      rawJoined (hexEncode g0) (hexEncode g1) (hexEncode g2) (hexEncode g3) (hexEncode g4)
        rest := rfl

/-- Cutting five joined groups inside the last group. -/
theorem rawJoined_take (g0 g1 g2 g3 g4 : List Nat) (n : Nat) (h0 : g0.length = 8)
    (h1 : g1.length = 4) (h2 : g2.length = 4) (h3 : g3.length = 4) (hn : 24 ≤ n) :
    (rawJoined g0 g1 g2 g3 g4 []).take n = rawJoined g0 g1 g2 g3 (g4.take (n - 24)) [] := by
  have e : ∀ x : List Nat, rawJoined g0 g1 g2 g3 x [] =
      (g0 ++ (45 :: (g1 ++ (45 :: (g2 ++ (45 :: (g3 ++ [45]))))))) ++ x := by
    intro x; simp [rawJoined]
  have hl : (g0 ++ (45 :: (g1 ++ (45 :: (g2 ++ (45 :: (g3 ++ [45]))))))).length = 24 := by
    simp [h0, h1, h2, h3]
  rw [e, e, List.take_append_eq_append_take, hl, List.take_of_length_le (by omega)]

/-- The last pass on fewer than 12 characters answers "too short". -/
theorem loop_short_last (text : List Nat) (braced : Bool) (pre b x : List Nat)
    (hx : x.length < 12) :
    loop text braced 4 [12] pre b (45 :: x) = .ret (pre ++ b, some (.tooShort text)) := by
  rw [loop, iteration_sep _ _ _ _ _ _ _ (by decide), decodeGroup_short _ _ _ _ _ _ _ hx,
    Run.bind_ret]

/-- Four groups of hex digits and fewer than 12 characters after the fourth separator: the loop
answers "too short". -/
theorem loop_rawJoined_short (text : List Nat) (braced : Bool) (u0 g0 g1 g2 g3 x : List Nat)
    (hu : u0.length = 16) (h0 : g0.length = 8) (h1 : g1.length = 4) (h2 : g2.length = 4)
    (h3 : g3.length = 4) (a0 : allHex g0) (a1 : allHex g1) (a2 : allHex g2) (a3 : allHex g3)
    (hx : x.length < 12) :
    ∃ v, loop text braced 0 byteGroups [] u0 (rawJoined g0 g1 g2 g3 x []) =
      .ret (v, some (.tooShort text)) := by
  unfold rawJoined byteGroups
  rw [loop_step_first _ _ 8 _ _ _ g0 _ h0 (by decide) (by omega) a0,
    loop_step_sep _ _ _ 4 _ _ _ g1 _ (by decide) (by decide) h1 (by decide) (by simp; omega) a1,
    loop_step_sep _ _ _ 4 _ _ _ g2 _ (by decide) (by decide) h2 (by decide) (by simp; omega) a2,
    loop_step_sep _ _ _ 4 _ _ _ g3 _ (by decide) (by decide) h3 (by decide) (by simp; omega) a3,
    List.append_nil, loop_short_last _ _ _ _ _ hx]
  exact ⟨_, rfl⟩

/-- The loop on the canonical text of `u` cut after 24 to 35 characters answers "too short". -/
theorem loop_String_take_short (text : List Nat) (braced : Bool) (u : UUID) (u0 : List Nat)
    (h : u.wf) (hu : u0.length = 16) (n : Nat) (h24 : 24 ≤ n) (h36 : n < 36) :
    ∃ v, loop text braced 0 byteGroups [] u0 (u.String.take n) =
      .ret (v, some (.tooShort text)) := by
  obtain ⟨⟨h0, h1, h2, h3, h4⟩, ⟨hb0, hb1, hb2, hb3, hb4⟩, _, _⟩ := slices_wf u h
  have hs : u.String = rawJoined (hexEncode (u.slice 0 4)) (hexEncode (u.slice 4 6))
      (hexEncode (u.slice 6 8)) (hexEncode (u.slice 8 10)) (hexEncode (u.slice 10 16)) [] := by
    have := String_joined u []
    rw [List.append_nil] at this
    rw [this, joined_eq_rawJoined]
  rw [hs, rawJoined_take _ _ _ _ _ n (by rw [hexEncode_length, h0])
    (by rw [hexEncode_length, h1]) (by rw [hexEncode_length, h2])
    (by rw [hexEncode_length, h3]) h24]
  exact loop_rawJoined_short text braced u0 _ _ _ _ _ hu (by rw [hexEncode_length, h0])
    (by rw [hexEncode_length, h1]) (by rw [hexEncode_length, h2])
    (by rw [hexEncode_length, h3]) (allHex_hexEncode _ hb0) (allHex_hexEncode _ hb1)
    (allHex_hexEncode _ hb2) (allHex_hexEncode _ hb3)
    (by rw [List.length_take]; omega)

theorem UnmarshalText_short (u0 : UUID) (text : List Nat) (h : text.length < 32) :
    UnmarshalText u0 text = .ret (u0, some (.tooShort text)) := by
  unfold UnmarshalText
  rw [if_pos h]

/-! ### Letter case -/

theorem reverseHexTable_upperHex (c : Nat) : reverseHexTable (upperHex c) = reverseHexTable c := by
  unfold upperHex reverseHexTable
  split_ifs <;> omega

theorem isHexDigit_upperHex (c : Nat) (h : isHexDigit c) : isHexDigit (upperHex c) := by
  rw [isHexDigit_iff] at h ⊢
  rw [reverseHexTable_upperHex]; exact h

theorem allHex_map_upperHex (g : List Nat) (h : allHex g) : allHex (g.map upperHex) := by
  intro c hc
  obtain ⟨x, hx, rfl⟩ := List.mem_map.mp hc
  exact isHexDigit_upperHex x (h x hx)

theorem hexDecode_map_upperHex : ∀ g : List Nat, hexDecode (g.map upperHex) = hexDecode g
  | [] => rfl
  | [_] => rfl
  | p :: q :: src => by
    simp only [List.map_cons, hexDecode, hexPair, reverseHexTable_upperHex,
      hexDecode_map_upperHex src]

theorem hexDecode_hexEncode (bs : List Nat) (hb : ∀ c ∈ bs, c < 256) :
    hexDecode (hexEncode bs) = bs := by
  induction bs with
  | nil => rfl
  | cons x xs ih =>
    have e : hexEncode (x :: xs) =
        ldigits.getD (x >>> 4) 0 :: ldigits.getD (x &&& 0xF) 0 :: hexEncode xs := rfl
    rw [e, hexDecode, ih (fun c hc => hb c (by simp [hc]))]
    unfold hexPair
    rw [(byte_hex_all x (hb x (by simp))).2.2]

theorem rawJoined_map (f : Nat → Nat) (hf : f 45 = 45) (g0 g1 g2 g3 g4 : List Nat) :
    (rawJoined g0 g1 g2 g3 g4 []).map f =
      rawJoined (g0.map f) (g1.map f) (g2.map f) (g3.map f) (g4.map f) [] := by
  simp [rawJoined, hf]

/-- Five groups of hex digits of the right lengths, followed by nothing or, in braced mode, by
one closing brace: the loop decodes them. -/
theorem loop_rawJoined_ok (text : List Nat) (braced : Bool) (u0 g0 g1 g2 g3 g4 rest : List Nat)
    (hu : u0.length = 16) (h0 : g0.length = 8) (h1 : g1.length = 4) (h2 : g2.length = 4)
    (h3 : g3.length = 4) (h4 : g4.length = 12) (a0 : allHex g0) (a1 : allHex g1)
    (a2 : allHex g2) (a3 : allHex g3) (a4 : allHex g4)
    (hrest : rest = [] ∨ (braced = true ∧ rest = [125])) :
    loop text braced 0 byteGroups [] u0 (rawJoined g0 g1 g2 g3 g4 rest) =
      .ret (hexDecode g0 ++ hexDecode g1 ++ hexDecode g2 ++ hexDecode g3 ++ hexDecode g4,
        none) := by
  unfold rawJoined byteGroups
  rw [loop_step_first _ _ 8 _ _ _ g0 _ h0 (by decide) (by omega) a0,
    loop_step_sep _ _ _ 4 _ _ _ g1 _ (by decide) (by decide) h1 (by decide) (by simp; omega) a1,
    loop_step_sep _ _ _ 4 _ _ _ g2 _ (by decide) (by decide) h2 (by decide) (by simp; omega) a2,
    loop_step_sep _ _ _ 4 _ _ _ g3 _ (by decide) (by decide) h3 (by decide) (by simp; omega) a3,
    loop, iteration_sep _ _ _ _ _ _ _ (by decide),
    decodeGroup_raw_next text braced 4 12 _ _ g4 rest h4 (by decide) (by simp; omega) a4
      (Or.inr hrest),
    Run.bind_ret]
  have hnil : List.drop (12 / 2) (List.drop (4 / 2) (List.drop (4 / 2) (List.drop (4 / 2)
      (List.drop (8 / 2) u0)))) = [] := by
    apply List.drop_eq_nil_of_le; simp; omega
  simp only [loop, hnil, List.append_nil, List.nil_append]

/-- A text that starts with `u` or `U` and is not lower-case `urn:uuid:` in its first nine
bytes is parsed without a prefix and fails on its first character. -/
theorem UnmarshalText_bad_head (u0 : UUID) (c : Nat) (tl : List Nat)
    (hlen : 32 ≤ (c :: tl).length) (hu : u0.length = 16) (hc : ¬ isHexDigit c) (h123 : c ≠ 123)
    (hp : List.take 9 (c :: tl) ≠ urnPrefix) :
    ∃ v x, UnmarshalText u0 (c :: tl) = .ret (v, some (.invalidByte x)) := by
  rw [UnmarshalText_cases u0 _ hlen, if_neg hp, if_neg (by simp [h123])]
  have hsplit : c :: tl = (c :: tl).take 8 ++ (c :: tl).drop 8 :=
    (List.take_append_drop 8 (c :: tl)).symm
  have hbad : ¬ allHex ((c :: tl).take 8) := fun hh => hc (hh c (by simp))
  have hl : ((c :: tl).take 8).length = 8 := by
    rw [List.length_take]; simp at hlen ⊢; omega
  obtain ⟨v, x, hv, _⟩ := loop_bad_first (c :: tl) false 8 [4, 4, 4, 12] [] u0
    ((c :: tl).take 8) ((c :: tl).drop 8) hl (by decide) (by omega) hbad
  rw [← hsplit] at hv
  exact ⟨v, x, hv⟩

/-! ### What an accepted text looks like -/

/-- A pass of the loop body that moves on has decoded a group of hex digits at the head of
`t`; in the last pass nothing follows the group but, in braced mode, one closing brace. -/
theorem decodeGroup_next_inv (text : List Nat) (braced : Bool) (i n : Nat)
    (pre b t pre1 b1 t1 : List Nat) (heven : n % 2 = 0) (hb : n / 2 ≤ b.length)
    (h : decodeGroup text braced i n pre b t = .ret (.next pre1 b1 t1)) :
    ∃ g, t = g ++ t1 ∧ g.length = n ∧ allHex g ∧ pre1 = pre ++ hexDecode g ∧
      b1 = b.drop (n / 2) ∧ (i = 4 → t1 = [] ∨ (braced = true ∧ t1 = [125])) := by
  by_cases hlen : t.length < n
  · rw [decodeGroup_short _ _ _ _ _ _ _ hlen] at h
    simp at h
  · have hsplit : t = t.take n ++ t.drop n := (List.take_append_drop n t).symm
    have hgl : (t.take n).length = n := by rw [List.length_take]; omega
    by_cases hlast : i ≠ 4 ∨ t.drop n = [] ∨ (braced = true ∧ t.drop n = [125])
    · by_cases hhex : allHex (t.take n)
      · rw [hsplit, decodeGroup_raw_next text braced i n pre b _ _ hgl heven hb hhex hlast] at h
        simp only [Run.ret.injEq, Flow.next.injEq] at h
        obtain ⟨e1, e2, e3⟩ := h
        refine ⟨t.take n, by rw [← e3]; exact hsplit, hgl, hhex, e1.symm, e2.symm, ?_⟩
        intro hi4
        rw [← e3]
        rcases hlast with hh | hh | hh
        · exact absurd hi4 hh
        · exact Or.inl hh
        · exact Or.inr hh
      · obtain ⟨v, c, hv, _⟩ :=
          decodeGroup_raw_bad text braced i n pre b _ (t.drop n) hgl heven hb hhex hlast
        rw [← hsplit, h] at hv
        simp at hv
    · have hi4 : i = 4 := by
        by_contra hne; exact hlast (Or.inl hne)
      have hne : t.drop n ≠ [] := fun hh => hlast (Or.inr (Or.inl hh))
      have hbr : ¬ (braced = true ∧ t.drop n = [125]) := fun hh => hlast (Or.inr (Or.inr hh))
      have htl := decodeGroup_raw_tooLong text braced pre b (t.take n) (t.drop n) hne hbr
      rw [← hsplit, hgl, ← hi4, h] at htl
      simp at htl

/-- A successful run of the loop from pass `i` has passed a group of hex digits, after a `-`
unless `i = 0`, and succeeds from the next pass on what follows. -/
theorem loop_cons_inv (text : List Nat) (braced : Bool) (i n : Nat) (gs pre b t : List Nat)
    (u : UUID) (heven : n % 2 = 0) (hb : n / 2 ≤ b.length)
    (h : loop text braced i (n :: gs) pre b t = .ret (u, none)) :
    ∃ g t1, t = (if i = 0 then g ++ t1 else 45 :: (g ++ t1)) ∧ g.length = n ∧ allHex g ∧
      (i = 4 → t1 = [] ∨ (braced = true ∧ t1 = [125])) ∧
      loop text braced (i + 1) gs (pre ++ hexDecode g) (b.drop (n / 2)) t1 = .ret (u, none) := by
  rw [loop, Run.bind_eq_ret] at h
  obtain ⟨f, hf, h⟩ := h
  cases f with
  | done v err => simp at h
  | next pre1 b1 t1 =>
    simp only at h
    by_cases hi : i = 0
    · subst hi
      rw [iteration_first] at hf
      obtain ⟨g, e1, e2, e3, e4, e5, e6⟩ :=
        decodeGroup_next_inv text braced 0 n pre b t pre1 b1 t1 heven hb hf
      refine ⟨g, t1, by simpa using e1, e2, e3, e6, ?_⟩
      rw [← e4, ← e5]; exact h
    · unfold iteration at hf
      rw [if_pos (by omega), Run.bind_eq_ret] at hf
      obtain ⟨c, hc, hf⟩ := hf
      cases t with
      | nil => simp [index] at hc
      | cons c0 t0 =>
        simp only [index, List.get?_cons_zero, Run.ret.injEq] at hc
        subst hc
        by_cases h45 : c0 = 45
        · subst h45
          simp only [ne_eq, not_true_eq_false, if_false, sliceFrom, List.length_cons,
            List.drop_succ_cons, List.drop_zero, Run.bind_eq_ret] at hf
          obtain ⟨t2, ht2, hf⟩ := hf
          have ht2e : t2 = t0 := by
            split at ht2
            · simp only [Run.ret.injEq] at ht2; exact ht2.symm
            · simp at ht2
          subst ht2e
          obtain ⟨g, e1, e2, e3, e4, e5, e6⟩ :=
            decodeGroup_next_inv text braced i n pre b t2 pre1 b1 t1 heven hb hf
          refine ⟨g, t1, by rw [if_neg hi, e1], e2, e3, e6, ?_⟩
          rw [← e4, ← e5]; exact h
        · rw [if_pos h45] at hf
          simp at hf

/-- An input on which the loop succeeds is five groups of hex digits of lengths 8, 4, 4, 4 and
12 joined by `-`, followed by nothing or, in braced mode, by one closing brace; the result is
what the groups decode to. -/
theorem loop_ok_inv (text : List Nat) (braced : Bool) (u0 t : List Nat) (u : UUID)
    (hu : u0.length = 16) (h : loop text braced 0 byteGroups [] u0 t = .ret (u, none)) :
    ∃ g0 g1 g2 g3 g4 rest, t = rawJoined g0 g1 g2 g3 g4 rest ∧
      g0.length = 8 ∧ g1.length = 4 ∧ g2.length = 4 ∧ g3.length = 4 ∧ g4.length = 12 ∧
      allHex g0 ∧ allHex g1 ∧ allHex g2 ∧ allHex g3 ∧ allHex g4 ∧
      u = hexDecode g0 ++ hexDecode g1 ++ hexDecode g2 ++ hexDecode g3 ++ hexDecode g4 ∧
      (rest = [] ∨ (braced = true ∧ rest = [125])) := by
  unfold byteGroups at h
  obtain ⟨g0, t1, e0, h0, a0, _, h⟩ := loop_cons_inv text braced 0 8 _ _ _ _ u (by decide)
    (by omega) h
  obtain ⟨g1, t2, e1, h1, a1, _, h⟩ := loop_cons_inv text braced 1 4 _ _ _ _ u (by decide)
    (by simp; omega) h
  obtain ⟨g2, t3, e2, h2, a2, _, h⟩ := loop_cons_inv text braced 2 4 _ _ _ _ u (by decide)
    (by simp; omega) h
  obtain ⟨g3, t4, e3, h3, a3, _, h⟩ := loop_cons_inv text braced 3 4 _ _ _ _ u (by decide)
    (by simp; omega) h
  obtain ⟨g4, t5, e4, h4, a4, hrest, h⟩ := loop_cons_inv text braced 4 12 _ _ _ _ u (by decide)
    (by simp; omega) h
  simp only [if_true, Nat.reduceEqDiff, if_false] at e0 e1 e2 e3 e4
  have hnil : List.drop (12 / 2) (List.drop (4 / 2) (List.drop (4 / 2) (List.drop (4 / 2)
      (List.drop (8 / 2) u0)))) = [] := by
    apply List.drop_eq_nil_of_le; simp; omega
  rw [loop, hnil] at h
  simp only [Run.ret.injEq, Prod.mk.injEq, List.nil_append, List.append_nil, and_true] at h
  refine ⟨g0, g1, g2, g3, g4, t5, ?_, h0, h1, h2, h3, h4, a0, a1, a2, a3, a4, h.symm,
    hrest rfl⟩
  rw [e0, e1, e2, e3, e4]; rfl

/-! ### Encoding what was decoded -/

set_option maxRecDepth 100000 in
theorem hex_value_all : ∀ c < 128, isHexDigit c →
    reverseHexTable c < 16 ∧ lowerHexChar (reverseHexTable c) = lowerHex c := by
  decide

set_option maxRecDepth 100000 in
theorem nibbles_all : ∀ a < 16, ∀ b < 16,
    (((a <<< 4) % 256) ||| b) < 256 ∧ (((a <<< 4) % 256) ||| b) / 16 = a ∧
    (((a <<< 4) % 256) ||| b) % 16 = b := by
  decide

/-- The byte decoded from two hex digits is written back as their lower-case forms. -/
theorem hexByte_hexPair (p q : Nat) (hp : isHexDigit p) (hq : isHexDigit q) :
    hexByte (hexPair p q) = [lowerHex p, lowerHex q] := by
  have hp128 : p < 128 := by unfold isHexDigit at hp; omega
  have hq128 : q < 128 := by unfold isHexDigit at hq; omega
  obtain ⟨hp1, hp2⟩ := hex_value_all p hp128 hp
  obtain ⟨hq1, hq2⟩ := hex_value_all q hq128 hq
  obtain ⟨n1, n2, n3⟩ := nibbles_all _ hp1 _ hq1
  unfold hexPair
  rw [hexByte_eq _ n1, n2, n3, hp2, hq2]

theorem hexEncode_hexDecode : ∀ g : List Nat, allHex g → g.length % 2 = 0 →
    hexEncode (hexDecode g) = g.map lowerHex
  | [], _, _ => rfl
  | [_], _, h => by simp at h
  | p :: q :: src, hh, h => by
    obtain ⟨hp, hq, hs⟩ := (allHex_cons2 p q src).mp hh
    have e : hexEncode (hexDecode (p :: q :: src)) =
        hexByte (hexPair p q) ++ hexEncode (hexDecode src) := rfl
    rw [e, hexByte_hexPair p q hp hq,
      hexEncode_hexDecode src hs (by simp at h; omega)]
    rfl

/-- The canonical text of sixteen bytes given as five groups of 4, 2, 2, 2 and 6 bytes. -/
theorem String_concat (A B C D E : List Nat) (hA : A.length = 4) (hB : B.length = 2)
    (hC : C.length = 2) (hD : D.length = 2) (hE : E.length = 6) :
    UUID.String (A ++ B ++ C ++ D ++ E) = joined A B C D E [] := by
  obtain ⟨a0, A1, rfl, hA1⟩ := list_length_succ hA
  obtain ⟨a1, A2, rfl, hA2⟩ := list_length_succ hA1
  obtain ⟨a2, A3, rfl, hA3⟩ := list_length_succ hA2
  obtain ⟨a3, A4, rfl, hA4⟩ := list_length_succ hA3
  have nA : A4 = [] := List.length_eq_zero.mp hA4
  subst nA
  obtain ⟨b0, B1, rfl, hB1⟩ := list_length_succ hB
  obtain ⟨b1, B2, rfl, hB2⟩ := list_length_succ hB1
  have nB : B2 = [] := List.length_eq_zero.mp hB2
  subst nB
  obtain ⟨c0, C1, rfl, hC1⟩ := list_length_succ hC
  obtain ⟨c1, C2, rfl, hC2⟩ := list_length_succ hC1
  have nC : C2 = [] := List.length_eq_zero.mp hC2
  subst nC
  obtain ⟨d0, D1, rfl, hD1⟩ := list_length_succ hD
  obtain ⟨d1, D2, rfl, hD2⟩ := list_length_succ hD1
  have nD : D2 = [] := List.length_eq_zero.mp hD2
  subst nD
  obtain ⟨e0, E1, rfl, hE1⟩ := list_length_succ hE
  obtain ⟨e1, E2, rfl, hE2⟩ := list_length_succ hE1
  obtain ⟨e2, E3, rfl, hE3⟩ := list_length_succ hE2
  obtain ⟨e3, E4, rfl, hE4⟩ := list_length_succ hE3
  obtain ⟨e4, E5, rfl, hE5⟩ := list_length_succ hE4
  obtain ⟨e5, E6, rfl, hE6⟩ := list_length_succ hE5
  have nE : E6 = [] := List.length_eq_zero.mp hE6
  subst nE
  rfl

theorem map_lowerHex_of_no_upper (t : List Nat) (h : ∀ c ∈ t, ¬ (65 ≤ c ∧ c ≤ 70)) :
    t.map lowerHex = t := by
  induction t with
  | nil => rfl
  | cons c tl ih =>
    rw [List.map_cons, ih (fun x hx => h x (by simp [hx]))]
    have := h c (by simp)
    unfold lowerHex
    rw [if_neg this]

/-! ### Where a failing parse stopped -/

theorem layout_nil (sep : Bool) (ns : List Nat) : layout sep ns [] = [] := by
  cases ns <;> simp [layout]

theorem layout_cons_group (sep : Bool) (n : Nat) (ns g ds : List Nat) (hg : g.length = n)
    (hne : g ≠ []) :
    layout sep (n :: ns) (g ++ ds) = (if sep then [45] else []) ++ (g ++ layout true ns ds) := by
  have h1 : g ++ ds ≠ [] := by simp [hne]
  rw [layout, if_neg h1, List.take_left' hg, List.drop_left' hg]

theorem layout_cons_partial (sep : Bool) (n : Nat) (ns ds : List Nat) (h : ds.length ≤ n) :
    layout sep (n :: ns) ds = if ds = [] then [] else (if sep then [45] else []) ++ ds := by
  by_cases hd : ds = []
  · rw [if_pos hd, hd, layout_nil]
  · rw [if_neg hd, layout, if_neg hd, List.take_of_length_le h, List.drop_eq_nil_of_le h,
      layout_nil, List.append_nil]

theorem hexDecode_append : ∀ (a b : List Nat), a.length % 2 = 0 →
    hexDecode (a ++ b) = hexDecode a ++ hexDecode b
  | [], _, _ => rfl
  | [_], _, h => by simp at h
  | p :: q :: a, b, h => by
    have e : (p :: q :: a) ++ b = p :: q :: (a ++ b) := rfl
    rw [e, hexDecode, hexDecode, hexDecode_append a b (by simp at h; omega)]
    rfl

theorem hexDecode_length_even (src : List Nat) (h : src.length % 2 = 0) :
    (hexDecode src).length = src.length / 2 :=
  hexDecode_length src (src.length / 2) (by omega)

/-- A failing `hex.Decode` has decoded the pairs `p0` before the pair `p`, `q` that holds the
first character that is not a hex digit. -/
theorem Decode_bad_exact : ∀ (dst src : List Nat), ¬ allHex src → src.length = 2 * dst.length →
    ∃ p0 p q rest c, src = p0 ++ p :: q :: rest ∧ allHex p0 ∧ p0.length % 2 = 0 ∧
      ¬ isHexDigit c ∧ (c = p ∨ (isHexDigit p ∧ c = q)) ∧
      Decode dst src = .ret (hexDecode p0 ++ dst.drop (p0.length / 2), some (.invalidByte c))
  | [], [], hh, _ => absurd (by simp [allHex]) hh
  | [], _ :: _, _, h => by simp at h
  | _ :: _, [], _, h => by simp at h
  | _ :: _, [_], _, h => by simp at h; omega
  | x :: dst, p :: q :: src, hh, h => by
    by_cases hp : isHexDigit p
    · by_cases hq : isHexDigit q
      · have hs : ¬ allHex src := fun hs => hh ((allHex_cons2 p q src).mpr ⟨hp, hq, hs⟩)
        obtain ⟨p0, p1, q1, rest, c, e1, e2, e3, e4, e5, e6⟩ :=
          Decode_bad_exact dst src hs (by simp at h; omega)
        refine ⟨p :: q :: p0, p1, q1, rest, c, by rw [e1]; rfl,
          (allHex_cons2 p q p0).mpr ⟨hp, hq, e2⟩, by simp; omega, e4, e5, ?_⟩
        have hp1 := (isHexDigit_iff p).mp hp
        have hq1 := (isHexDigit_iff q).mp hq
        have hdrop : (x :: dst).drop ((p :: q :: p0).length / 2) = dst.drop (p0.length / 2) := by
          have : (p :: q :: p0).length / 2 = p0.length / 2 + 1 := by simp; omega
          rw [this, List.drop_succ_cons]
        rw [Decode, if_neg (by omega), if_neg (by omega), e6, Run.bind_ret, hdrop]
        rfl
      · refine ⟨[], p, q, src, q, rfl, by simp [allHex], rfl, hq, Or.inr ⟨hp, rfl⟩, ?_⟩
        have hp1 := (isHexDigit_iff p).mp hp
        rw [isHexDigit_iff] at hq
        rw [Decode, if_neg (by omega), if_pos (by omega)]
        rfl
    · refine ⟨[], p, q, src, p, rfl, by simp [allHex], rfl, hp, Or.inl rfl, ?_⟩
      rw [isHexDigit_iff] at hp
      rw [Decode, if_pos (by omega)]
      rfl

/-- The ways a pass of the loop body can end the parse, once the separator is passed. -/
theorem decodeGroup_done_inv (text : List Nat) (braced : Bool) (i n : Nat)
    (pre b t : List Nat) (u1 : UUID) (e : Err) (heven : n % 2 = 0) (hb : n / 2 ≤ b.length)
    (h : decodeGroup text braced i n pre b t = .ret (.done u1 e)) :
    (e = .tooShort text ∧ t.length < n ∧ u1 = pre ++ b) ∨
    (e = .tooLong text ∧ i = 4 ∧ u1 = pre ++ b ∧ ∃ g rest, t = g ++ rest ∧ g.length = n ∧
      rest ≠ [] ∧ ¬ (braced = true ∧ rest = [125])) ∨
    (∃ p0 p q rest c, e = .invalidByte c ∧ ¬ isHexDigit c ∧ (c = p ∨ (isHexDigit p ∧ c = q)) ∧
      t = p0 ++ p :: q :: rest ∧ allHex p0 ∧ p0.length % 2 = 0 ∧ p0.length + 2 ≤ n ∧
      u1 = pre ++ hexDecode p0 ++ b.drop (p0.length / 2)) := by
  by_cases hlen : t.length < n
  · rw [decodeGroup_short _ _ _ _ _ _ _ hlen] at h
    simp only [Run.ret.injEq, Flow.done.injEq] at h
    exact Or.inl ⟨h.2.symm, hlen, h.1.symm⟩
  · have hsplit : t = t.take n ++ t.drop n := (List.take_append_drop n t).symm
    have hgl : (t.take n).length = n := by rw [List.length_take]; omega
    by_cases hlast : i ≠ 4 ∨ t.drop n = [] ∨ (braced = true ∧ t.drop n = [125])
    · by_cases hhex : allHex (t.take n)
      · rw [hsplit, decodeGroup_raw_next text braced i n pre b _ _ hgl heven hb hhex hlast] at h
        simp at h
      · obtain ⟨p0, p, q, rest, c, e1, e2, e3, e4, e5, e6⟩ :=
          Decode_bad_exact (b.take (n / 2)) (t.take n) hhex (by simp [hb]; omega)
        have hp0 : p0.length + 2 ≤ n := by
          have := congrArg List.length e1
          rw [hgl] at this
          simp at this; omega
        have hpass := decodeGroup_raw_pass text braced i pre b (t.take n) (t.drop n) hlast
        rw [hgl, ← hsplit, h] at hpass
        simp only [sliceTo, if_pos hb, Run.bind_ret, e6] at hpass
        simp only [Run.ret.injEq, Flow.done.injEq] at hpass
        obtain ⟨hu1, he⟩ := hpass
        refine Or.inr (Or.inr ⟨p0, p, q, rest ++ t.drop n, c, he, e4, e5, ?_, e2, e3, hp0, ?_⟩)
        · conv_lhs => rw [hsplit, e1]
          simp
        · rw [hu1, List.append_assoc, List.append_assoc, List.append_assoc,
            drop_take_append_drop b (p0.length / 2) (n / 2) (by omega) hb]
    · have hi4 : i = 4 := by
        by_contra hne; exact hlast (Or.inl hne)
      have hne : t.drop n ≠ [] := fun hh => hlast (Or.inr (Or.inl hh))
      have hbr : ¬ (braced = true ∧ t.drop n = [125]) := fun hh => hlast (Or.inr (Or.inr hh))
      have htl := decodeGroup_raw_tooLong text braced pre b (t.take n) (t.drop n) hne hbr
      rw [← hsplit, hgl, ← hi4, h] at htl
      simp only [Run.ret.injEq, Flow.done.injEq] at htl
      exact Or.inr (Or.inl ⟨htl.2, hi4, htl.1, t.take n, t.drop n, hsplit, hgl, hne, hbr⟩)

/-- The ways a pass of the loop can end the parse: at the separator, or in the body after
it. -/
theorem iteration_done_inv (text : List Nat) (braced : Bool) (i n : Nat)
    (pre b t : List Nat) (u1 : UUID) (e : Err)
    (h : iteration text braced i n pre b t = .ret (.done u1 e)) :
    (0 < i ∧ e = .invalidFormat ∧ u1 = pre ++ b ∧ ∃ c rest, t = c :: rest ∧ c ≠ 45) ∨
    (∃ t0, t = (if i = 0 then [] else [45]) ++ t0 ∧
      decodeGroup text braced i n pre b t0 = .ret (.done u1 e)) := by
  by_cases hi : i = 0
  · subst hi
    rw [iteration_first] at h
    exact Or.inr ⟨t, by simp, h⟩
  · unfold iteration at h
    rw [if_pos (by omega), Run.bind_eq_ret] at h
    obtain ⟨c, hc, h⟩ := h
    cases t with
    | nil => simp [index] at hc
    | cons c0 t0 =>
      simp only [index, List.get?_cons_zero, Run.ret.injEq] at hc
      subst hc
      by_cases h45 : c0 = 45
      · subst h45
        simp only [ne_eq, not_true_eq_false, if_false, sliceFrom, List.length_cons,
          List.drop_succ_cons, List.drop_zero, Run.bind_eq_ret] at h
        obtain ⟨t2, ht2, h⟩ := h
        have ht2e : t2 = t0 := by
          split at ht2
          · simp only [Run.ret.injEq] at ht2; exact ht2.symm
          · simp at ht2
        subst ht2e
        exact Or.inr ⟨t2, by rw [if_neg hi]; rfl, h⟩
      · rw [if_pos h45] at h
        simp only [Run.ret.injEq, Flow.done.injEq] at h
        exact Or.inl ⟨by omega, h.2.symm, h.1.symm, c0, t0, rfl, h45⟩

/-- A pass of the loop that moves on has passed the separator, unless it is the first pass,
and a group of hex digits. -/
theorem iteration_next_inv (text : List Nat) (braced : Bool) (i n : Nat)
    (pre b t pre1 b1 t1 : List Nat) (heven : n % 2 = 0) (hb : n / 2 ≤ b.length)
    (h : iteration text braced i n pre b t = .ret (.next pre1 b1 t1)) :
    ∃ g, t = (if i = 0 then [] else [45]) ++ (g ++ t1) ∧ g.length = n ∧ allHex g ∧
      pre1 = pre ++ hexDecode g ∧ b1 = b.drop (n / 2) := by
  by_cases hi : i = 0
  · subst hi
    rw [iteration_first] at h
    obtain ⟨g, e1, e2, e3, e4, e5, _⟩ :=
      decodeGroup_next_inv text braced 0 n pre b t pre1 b1 t1 heven hb h
    exact ⟨g, by simpa using e1, e2, e3, e4, e5⟩
  · unfold iteration at h
    rw [if_pos (by omega), Run.bind_eq_ret] at h
    obtain ⟨c, hc, h⟩ := h
    cases t with
    | nil => simp [index] at hc
    | cons c0 t0 =>
      simp only [index, List.get?_cons_zero, Run.ret.injEq] at hc
      subst hc
      by_cases h45 : c0 = 45
      · subst h45
        simp only [ne_eq, not_true_eq_false, if_false, sliceFrom, List.length_cons,
          List.drop_succ_cons, List.drop_zero, Run.bind_eq_ret] at h
        obtain ⟨t2, ht2, h⟩ := h
        have ht2e : t2 = t0 := by
          split at ht2
          · simp only [Run.ret.injEq] at ht2; exact ht2.symm
          · simp at ht2
        subst ht2e
        obtain ⟨g, e1, e2, e3, e4, e5, _⟩ :=
          decodeGroup_next_inv text braced i n pre b t2 pre1 b1 t1 heven hb h
        exact ⟨g, by rw [if_neg hi, e1]; rfl, e2, e3, e4, e5⟩
      · rw [if_pos h45] at h
        simp at h

/-- A failing run of the loop from pass `i` fails in that pass, or passes a group of hex digits
and fails from the next pass. -/
theorem loop_cons_fail (text : List Nat) (braced : Bool) (i n : Nat) (gs pre b t : List Nat)
    (u1 : UUID) (e : Err) (heven : n % 2 = 0) (hb : n / 2 ≤ b.length)
    (h : loop text braced i (n :: gs) pre b t = .ret (u1, some e)) :
    iteration text braced i n pre b t = .ret (.done u1 e) ∨
    ∃ g t1, t = (if i = 0 then [] else [45]) ++ (g ++ t1) ∧ g.length = n ∧ allHex g ∧
      loop text braced (i + 1) gs (pre ++ hexDecode g) (b.drop (n / 2)) t1 =
        .ret (u1, some e) := by
  rw [loop, Run.bind_eq_ret] at h
  obtain ⟨f, hf, h⟩ := h
  cases f with
  | done v err =>
    simp only [Run.ret.injEq, Prod.mk.injEq, Option.some.injEq] at h
    rw [h.1, h.2] at hf
    exact Or.inl hf
  | next pre1 b1 t1 =>
    simp only at h
    obtain ⟨g, e1, e2, e3, e4, e5⟩ :=
      iteration_next_inv text braced i n pre b t pre1 b1 t1 heven hb hf
    rw [e4, e5] at h
    exact Or.inr ⟨g, t1, e1, e2, e3, h⟩

/-- A pass of the loop that ends the parse, after the digits `D` of whole groups were decoded
from `body = L ++ t`: the digits decoded in all, and where the parse stopped. -/
theorem stage_fail (text : List Nat) (braced : Bool) (u0 body : List Nat) (i n : Nat)
    (D L pre b t : List Nat) (u1 : UUID) (e : Err) (hu : u0.length = 16)
    (hbody : body = L ++ t) (hD : allHex D)
    (hcfg : (i = 0 ∧ n = 8 ∧ D.length = 0) ∨ (i = 1 ∧ n = 4 ∧ D.length = 8) ∨
      (i = 2 ∧ n = 4 ∧ D.length = 12) ∨ (i = 3 ∧ n = 4 ∧ D.length = 16) ∨
      (i = 4 ∧ n = 12 ∧ D.length = 20))
    (hL : ∀ p0 : List Nat, p0.length ≤ n → grouped (D ++ p0) =
      L ++ (if p0 = [] then [] else (if i = 0 then [] else [45]) ++ p0))
    (hpre : pre = hexDecode D) (hb : b = u0.drop (D.length / 2))
    (h : iteration text braced i n pre b t = .ret (.done u1 e)) :
    ∃ src, allHex src ∧ src.length % 2 = 0 ∧ src.length ≤ 30 ∧
      u1 = hexDecode src ++ u0.drop (src.length / 2) ∧ FailedAt body braced text src e := by
  have hDe : D.length % 2 = 0 := by omega
  have hne : n % 2 = 0 := by omega
  have hbl : n / 2 ≤ b.length := by rw [hb, List.length_drop]; omega
  have hgD : grouped D = L := by
    have := hL [] (by simp)
    simpa using this
  have hsep : sepAfter D = (if i = 0 then [] else [45]) := by
    unfold sepAfter
    rcases hcfg with ⟨h1, _, h3⟩ | ⟨h1, _, h3⟩ | ⟨h1, _, h3⟩ | ⟨h1, _, h3⟩ | ⟨h1, _, h3⟩ <;>
      simp [h1, h3]
  have hng : nextGroup D.length = n := by
    unfold nextGroup
    rcases hcfg with ⟨_, h2, h3⟩ | ⟨_, h2, h3⟩ | ⟨_, h2, h3⟩ | ⟨_, h2, h3⟩ | ⟨_, h2, h3⟩ <;>
      simp [h2, h3]
  rcases iteration_done_inv text braced i n pre b t u1 e h with
    ⟨hi, he, hu1, c, rest, ht, hc⟩ | ⟨t0, ht, hdg⟩
  · refine ⟨D, hD, hDe, by omega, by rw [hu1, hpre, hb], ?_⟩
    rw [he]
    exact ⟨by omega, c, rest, by rw [hbody, hgD, ht], hc⟩
  · rcases decodeGroup_done_inv text braced i n pre b t0 u1 e hne hbl hdg with
      ⟨he, hlen, hu1⟩ | ⟨he, hi4, hu1, g, rest, htg, hgl, hrne, hbr⟩ |
      ⟨p0, p, q, rest, c, he, hc, hpq, ht0, hp0, hp0e, hp0l, hu1⟩
    · refine ⟨D, hD, hDe, by omega, by rw [hu1, hpre, hb], ?_⟩
      rw [he]
      exact ⟨rfl, t0, by rw [hbody, hgD, hsep, ht], by rw [hng]; exact hlen⟩
    · refine ⟨D, hD, hDe, by omega, by rw [hu1, hpre, hb], ?_⟩
      rw [he]
      refine ⟨rfl, by omega, g, rest, ?_, by omega, hrne, hbr⟩
      rw [hbody, hgD, ht, htg, if_neg (by omega)]
      rfl
    · refine ⟨D ++ p0, (allHex_append D p0).mpr ⟨hD, hp0⟩, by simp; omega, by simp; omega,
        ?_, ?_⟩
      · have hlen2 : (D ++ p0).length / 2 = D.length / 2 + p0.length / 2 := by
          simp; omega
        rw [hu1, hpre, hb, hexDecode_append D p0 hDe, hlen2, List.drop_drop]
      · rw [he]
        refine ⟨hc, p, q, rest, ?_, hpq⟩
        rw [hL p0 (by omega), hbody, ht, ht0]
        by_cases hp0n : p0 = []
        · subst hp0n
          simp [hsep]
        · have hpos : 0 < p0.length := List.length_pos.mpr hp0n
          have hsa : sepAfter (D ++ p0) = [] := by
            unfold sepAfter
            rw [if_neg (by simp; omega)]
          rw [hsa, if_neg hp0n]
          simp

theorem grouped_stage0 (p0 : List Nat) (h : p0.length ≤ 8) :
    grouped ([] ++ p0) =
      [] ++ (if p0 = [] then [] else (if (0 : Nat) = 0 then [] else [45]) ++ p0) := by
  unfold grouped byteGroups
  rw [List.nil_append, layout_cons_partial false 8 _ p0 h]
  simp

theorem grouped_stage1 (g0 p0 : List Nat) (h0 : g0.length = 8) (h : p0.length ≤ 4) :
    grouped (g0 ++ p0) =
      g0 ++ (if p0 = [] then [] else (if (1 : Nat) = 0 then [] else [45]) ++ p0) := by
  have n0 : g0 ≠ [] := by intro hh; rw [hh] at h0; simp at h0
  unfold grouped byteGroups
  rw [layout_cons_group false 8 _ g0 p0 h0 n0, layout_cons_partial true 4 _ p0 h]
  simp

theorem grouped_stage2 (g0 g1 p0 : List Nat) (h0 : g0.length = 8) (h1 : g1.length = 4)
    (h : p0.length ≤ 4) :
    grouped ((g0 ++ g1) ++ p0) = (g0 ++ (45 :: g1)) ++
      (if p0 = [] then [] else (if (2 : Nat) = 0 then [] else [45]) ++ p0) := by
  have n0 : g0 ≠ [] := by intro hh; rw [hh] at h0; simp at h0
  have n1 : g1 ≠ [] := by intro hh; rw [hh] at h1; simp at h1
  unfold grouped byteGroups
  simp only [List.append_assoc]
  rw [layout_cons_group false 8 _ g0 _ h0 n0,
    layout_cons_group true 4 _ g1 p0 h1 n1, layout_cons_partial true 4 _ p0 h]
  simp

theorem grouped_stage3 (g0 g1 g2 p0 : List Nat) (h0 : g0.length = 8) (h1 : g1.length = 4)
    (h2 : g2.length = 4) (h : p0.length ≤ 4) :
    grouped (((g0 ++ g1) ++ g2) ++ p0) = (g0 ++ (45 :: (g1 ++ (45 :: g2)))) ++
      (if p0 = [] then [] else (if (3 : Nat) = 0 then [] else [45]) ++ p0) := by
  have n0 : g0 ≠ [] := by intro hh; rw [hh] at h0; simp at h0
  have n1 : g1 ≠ [] := by intro hh; rw [hh] at h1; simp at h1
  have n2 : g2 ≠ [] := by intro hh; rw [hh] at h2; simp at h2
  unfold grouped byteGroups
  simp only [List.append_assoc]
  rw [layout_cons_group false 8 _ g0 _ h0 n0, layout_cons_group true 4 _ g1 _ h1 n1,
    layout_cons_group true 4 _ g2 p0 h2 n2, layout_cons_partial true 4 _ p0 h]
  simp

theorem grouped_stage4 (g0 g1 g2 g3 p0 : List Nat) (h0 : g0.length = 8) (h1 : g1.length = 4)
    (h2 : g2.length = 4) (h3 : g3.length = 4) (h : p0.length ≤ 12) :
    grouped ((((g0 ++ g1) ++ g2) ++ g3) ++ p0) =
      (g0 ++ (45 :: (g1 ++ (45 :: (g2 ++ (45 :: g3)))))) ++
      (if p0 = [] then [] else (if (4 : Nat) = 0 then [] else [45]) ++ p0) := by
  have n0 : g0 ≠ [] := by intro hh; rw [hh] at h0; simp at h0
  have n1 : g1 ≠ [] := by intro hh; rw [hh] at h1; simp at h1
  have n2 : g2 ≠ [] := by intro hh; rw [hh] at h2; simp at h2
  have n3 : g3 ≠ [] := by intro hh; rw [hh] at h3; simp at h3
  unfold grouped byteGroups
  simp only [List.append_assoc]
  rw [layout_cons_group false 8 _ g0 _ h0 n0, layout_cons_group true 4 _ g1 _ h1 n1,
    layout_cons_group true 4 _ g2 _ h2 n2, layout_cons_group true 4 _ g3 p0 h3 n3,
    layout_cons_partial true 12 _ p0 h]
  simp

/-- A failing run of the whole loop: the digits it had decoded and where it stopped. -/
theorem loop_fail_spec (text : List Nat) (braced : Bool) (u0 body : List Nat) (u1 : UUID)
    (e : Err) (hu : u0.length = 16)
    (h : loop text braced 0 byteGroups [] u0 body = .ret (u1, some e)) :
    ∃ src, allHex src ∧ src.length % 2 = 0 ∧ src.length ≤ 30 ∧
      u1 = hexDecode src ++ u0.drop (src.length / 2) ∧ FailedAt body braced text src e := by
  unfold byteGroups at h
  rcases loop_cons_fail text braced 0 8 _ [] u0 body u1 e (by decide) (by omega) h with
    hd | ⟨g0, t1, e0, h0, a0, h⟩
  · exact stage_fail text braced u0 body 0 8 [] [] [] u0 body u1 e hu (by simp)
      (by simp [allHex]) (Or.inl ⟨rfl, rfl, rfl⟩) (fun p0 hp => grouped_stage0 p0 hp) rfl
      (by simp) hd
  have b0 : body = g0 ++ t1 := by simpa using e0
  have g0e : g0.length % 2 = 0 := by omega
  rcases loop_cons_fail text braced 1 4 _ _ _ t1 u1 e (by decide) (by simp; omega) h with
    hd | ⟨g1, t2, e1, h1, a1, h⟩
  · exact stage_fail text braced u0 body 1 4 g0 g0 _ _ t1 u1 e hu b0 a0
      (Or.inr (Or.inl ⟨rfl, rfl, h0⟩)) (fun p0 hp => grouped_stage1 g0 p0 h0 hp)
      (by simp) (by rw [h0]) hd
  have b1 : body = (g0 ++ (45 :: g1)) ++ t2 := by
    rw [b0, e1]; simp
  rcases loop_cons_fail text braced 2 4 _ _ _ t2 u1 e (by decide) (by simp; omega) h with
    hd | ⟨g2, t3, e2, h2, a2, h⟩
  · exact stage_fail text braced u0 body 2 4 (g0 ++ g1) (g0 ++ (45 :: g1)) _ _ t2 u1 e hu b1
      ((allHex_append _ _).mpr ⟨a0, a1⟩)
      (Or.inr (Or.inr (Or.inl ⟨rfl, rfl, by simp [h0, h1]⟩)))
      (fun p0 hp => grouped_stage2 g0 g1 p0 h0 h1 hp)
      (by rw [hexDecode_append g0 g1 g0e]; simp)
      (by simp [h0, h1, List.drop_drop]) hd
  have b2 : body = (g0 ++ (45 :: (g1 ++ (45 :: g2)))) ++ t3 := by
    rw [b1, e2]; simp
  rcases loop_cons_fail text braced 3 4 _ _ _ t3 u1 e (by decide) (by simp; omega) h with
    hd | ⟨g3, t4, e3, h3, a3, h⟩
  · exact stage_fail text braced u0 body 3 4 ((g0 ++ g1) ++ g2)
      (g0 ++ (45 :: (g1 ++ (45 :: g2)))) _ _ t3 u1 e hu b2
      ((allHex_append _ _).mpr ⟨(allHex_append _ _).mpr ⟨a0, a1⟩, a2⟩)
      (Or.inr (Or.inr (Or.inr (Or.inl ⟨rfl, rfl, by simp [h0, h1, h2]⟩))))
      (fun p0 hp => grouped_stage3 g0 g1 g2 p0 h0 h1 h2 hp)
      (by rw [hexDecode_append (g0 ++ g1) g2 (by simp; omega), hexDecode_append g0 g1 g0e]
          simp)
      (by simp [h0, h1, h2, List.drop_drop]) hd
  have b3 : body = (g0 ++ (45 :: (g1 ++ (45 :: (g2 ++ (45 :: g3)))))) ++ t4 := by
    rw [b2, e3]; simp
  rcases loop_cons_fail text braced 4 12 _ _ _ t4 u1 e (by decide) (by simp; omega) h with
    hd | ⟨g4, t5, e4, h4, a4, h⟩
  · exact stage_fail text braced u0 body 4 12 (((g0 ++ g1) ++ g2) ++ g3)
      (g0 ++ (45 :: (g1 ++ (45 :: (g2 ++ (45 :: g3)))))) _ _ t4 u1 e hu b3
      ((allHex_append _ _).mpr
        ⟨(allHex_append _ _).mpr ⟨(allHex_append _ _).mpr ⟨a0, a1⟩, a2⟩, a3⟩)
      (Or.inr (Or.inr (Or.inr (Or.inr ⟨rfl, rfl, by simp [h0, h1, h2, h3]⟩))))
      (fun p0 hp => grouped_stage4 g0 g1 g2 g3 p0 h0 h1 h2 h3 hp)
      (by rw [hexDecode_append ((g0 ++ g1) ++ g2) g3 (by simp; omega),
            hexDecode_append (g0 ++ g1) g2 (by simp; omega), hexDecode_append g0 g1 g0e]
          simp)
      (by simp [h0, h1, h2, h3, List.drop_drop]) hd
  · rw [loop] at h
    simp at h

/-- On an input of 32 bytes or more `UnmarshalText` runs its loop on the input after the
optional prefix. -/
theorem UnmarshalText_body (u0 : UUID) (text : List Nat) (hlen : 32 ≤ text.length) :
    UnmarshalText u0 text = loop text (isBraced text) 0 byteGroups [] u0 (bodyOf text) := by
  rw [UnmarshalText_cases u0 text hlen]
  unfold isBraced bodyOf
  split
  · rfl
  · split <;> rfl

/-! ### The digits decoded before a failure are determined by the input -/

theorem digitsOf_append (a b : List Nat) : digitsOf (a ++ b) = digitsOf a ++ digitsOf b := by
  simp [digitsOf]

theorem digitsOf_allHex (g : List Nat) (h : allHex g) : digitsOf g = g := by
  unfold digitsOf
  rw [List.filter_eq_self]
  intro c hc
  have := (isHexDigit_ne c (h c hc)).2.2
  simpa using this

/-- Taking the `-` out of laid-out hex digits gives the digits back. -/
theorem digitsOf_layout : ∀ (ns : List Nat) (sep : Bool) (s : List Nat), allHex s →
    s.length ≤ ns.sum → digitsOf (layout sep ns s) = s
  | [], _, s, _, h => by
    have : s = [] := List.length_eq_zero.mp (by simpa using h)
    rw [this]; rfl
  | n :: ns, sep, s, ha, h => by
    by_cases hs : s = []
    · rw [hs, layout_nil]; rfl
    · have htd : s.take n ++ s.drop n = s := List.take_append_drop n s
      have ha2 : allHex (s.take n) ∧ allHex (s.drop n) := by
        rw [← allHex_append, htd]; exact ha
      have hsep : digitsOf (if sep then [45] else []) = [] := by
        cases sep <;> rfl
      rw [layout, if_neg hs, digitsOf_append, digitsOf_append, hsep, digitsOf_allHex _ ha2.1,
        digitsOf_layout ns true (s.drop n) ha2.2
          (by rw [List.length_drop]; simp at h; omega), List.nil_append, htd]

/-- The layout of more digits starts with the layout of fewer. -/
theorem layout_isPrefix : ∀ (ns : List Nat) (sep : Bool) (s more : List Nat),
    layout sep ns s <+: layout sep ns (s ++ more)
  | [], _, _, _ => by simp [layout]
  | n :: ns, sep, s, more => by
    by_cases hs : s = []
    · rw [hs, layout_nil]; exact List.nil_prefix
    · have hsm : s ++ more ≠ [] := by simp [hs]
      rw [layout, layout, if_neg hs, if_neg hsm]
      apply (List.prefix_append_right_inj _).mpr
      by_cases hn : s.length ≤ n
      · rw [List.take_of_length_le hn, List.drop_eq_nil_of_le hn, layout_nil, List.append_nil,
          List.take_append_eq_append_take, List.take_of_length_le hn, List.append_assoc]
        exact List.prefix_append _ _
      · have hn2 : n ≤ s.length := by omega
        rw [List.take_append_of_le_length hn2, List.drop_append_of_le_length hn2]
        exact (List.prefix_append_right_inj _).mpr (layout_isPrefix ns true (s.drop n) more)

/-- Within a stage of the layout, further digits of the same group are laid out right after
the digits so far, and after the `-` when these end a group. -/
theorem extend_of_stage (n : Nat) (D L S b g : List Nat)
    (hL : ∀ p0 : List Nat, p0.length ≤ n → grouped (D ++ p0) =
      L ++ (if p0 = [] then [] else S ++ p0))
    (hS : sepAfter D = S)
    (hS2 : ∀ p0 : List Nat, p0 ≠ [] → p0.length < n → sepAfter (D ++ p0) = [])
    (hg : g ≠ []) (hbg : b.length + g.length ≤ n) :
    grouped ((D ++ b) ++ g) = grouped (D ++ b) ++ (sepAfter (D ++ b) ++ g) := by
  have hgpos : 0 < g.length := List.length_pos.mpr hg
  rw [List.append_assoc, hL (b ++ g) (by simp; omega), hL b (by omega),
    if_neg (by simp [hg])]
  by_cases hb : b = []
  · subst hb
    simp [hS]
  · rw [if_neg hb, hS2 b hb (by omega)]
    simp

theorem exists_split (s : List Nat) (k : Nat) (h : k ≤ s.length) :
    ∃ a b, s = a ++ b ∧ a.length = k :=
  ⟨s.take k, s.drop k, (List.take_append_drop k s).symm, by rw [List.length_take]; omega⟩

/-- Further digits that fit in the current group, or in the next group when the digits so far
end a group, are laid out right after them, after the `-` in the second case. -/
theorem grouped_extend (src g : List Nat) (hg : g ≠ [])
    (hroom : (src.length < 8 ∧ src.length + g.length ≤ 8) ∨
      (8 ≤ src.length ∧ src.length < 12 ∧ src.length + g.length ≤ 12) ∨
      (12 ≤ src.length ∧ src.length < 16 ∧ src.length + g.length ≤ 16) ∨
      (16 ≤ src.length ∧ src.length < 20 ∧ src.length + g.length ≤ 20) ∨
      (20 ≤ src.length ∧ src.length + g.length ≤ 32)) :
    grouped (src ++ g) = grouped src ++ (sepAfter src ++ g) := by
  rcases hroom with ⟨h1, h2⟩ | ⟨h1, h2, h3⟩ | ⟨h1, h2, h3⟩ | ⟨h1, h2, h3⟩ | ⟨h1, h3⟩
  · have := extend_of_stage 8 [] [] _ src g (fun p0 hp => grouped_stage0 p0 hp)
      (by simp [sepAfter])
      (fun p0 _ hp => by unfold sepAfter; rw [if_neg (by simp; omega)]) hg h2
    simpa using this
  · obtain ⟨g0, b, rfl, h0⟩ := exists_split src 8 h1
    simp only [List.length_append] at h2 h3
    exact extend_of_stage 4 g0 g0 _ b g (fun p0 hp => grouped_stage1 g0 p0 h0 hp)
      (by unfold sepAfter; rw [if_pos (by omega)]; rfl)
      (fun p0 hne hp => by
        have := List.length_pos.mpr hne
        unfold sepAfter; rw [if_neg (by simp; omega)]) hg (by omega)
  · obtain ⟨D, b, rfl, hD⟩ := exists_split src 12 h1
    obtain ⟨g0, g1, rfl, h0⟩ := exists_split D 8 (by omega)
    simp only [List.length_append] at h2 h3 hD
    exact extend_of_stage 4 (g0 ++ g1) _ _ b g
      (fun p0 hp => grouped_stage2 g0 g1 p0 h0 (by omega) hp)
      (by unfold sepAfter; rw [if_pos (by simp only [List.length_append]; omega)]; rfl)
      (fun p0 hne hp => by
        have := List.length_pos.mpr hne
        unfold sepAfter; rw [if_neg (by simp; omega)]) hg (by omega)
  · obtain ⟨D, b, rfl, hD⟩ := exists_split src 16 h1
    obtain ⟨D2, g2, rfl, hD2⟩ := exists_split D 12 (by omega)
    obtain ⟨g0, g1, rfl, h0⟩ := exists_split D2 8 (by omega)
    simp only [List.length_append] at h2 h3 hD hD2
    exact extend_of_stage 4 ((g0 ++ g1) ++ g2) _ _ b g
      (fun p0 hp => grouped_stage3 g0 g1 g2 p0 h0 (by omega) (by omega) hp)
      (by unfold sepAfter; rw [if_pos (by simp only [List.length_append]; omega)]; rfl)
      (fun p0 hne hp => by
        have := List.length_pos.mpr hne
        unfold sepAfter; rw [if_neg (by simp; omega)]) hg (by omega)
  · obtain ⟨D, b, rfl, hD⟩ := exists_split src 20 h1
    obtain ⟨D3, g3, rfl, hD3⟩ := exists_split D 16 (by omega)
    obtain ⟨D2, g2, rfl, hD2⟩ := exists_split D3 12 (by omega)
    obtain ⟨g0, g1, rfl, h0⟩ := exists_split D2 8 (by omega)
    simp only [List.length_append] at h3 hD hD2 hD3
    exact extend_of_stage 12 (((g0 ++ g1) ++ g2) ++ g3) _ _ b g
      (fun p0 hp => grouped_stage4 g0 g1 g2 g3 p0 h0 (by omega) (by omega) (by omega) hp)
      (by unfold sepAfter; rw [if_pos (by simp only [List.length_append]; omega)]; rfl)
      (fun p0 hne hp => by
        have := List.length_pos.mpr hne
        unfold sepAfter; rw [if_neg (by simp; omega)]) hg (by omega)

theorem FailedAt_body (body : List Nat) (braced : Bool) (text src : List Nat) (e : Err)
    (h : FailedAt body braced text src e) : ∃ X, body = grouped src ++ X := by
  cases e with
  | tooShort t =>
    simp only [FailedAt] at h
    obtain ⟨_, rest, hb, _⟩ := h
    exact ⟨_, hb⟩
  | invalidFormat =>
    simp only [FailedAt] at h
    obtain ⟨_, c, rest, hb, _⟩ := h
    exact ⟨_, hb⟩
  | tooLong t =>
    simp only [FailedAt] at h
    obtain ⟨_, _, g, rest, hb, _⟩ := h
    exact ⟨_, hb⟩
  | invalidByte c =>
    simp only [FailedAt] at h
    obtain ⟨_, p, q, rest, hb, _⟩ := h
    exact ⟨_, hb⟩
  | errLength => exact h.elim

theorem digitsOf_grouped_append (src X : List Nat) (ha : allHex src) (hl : src.length ≤ 32) :
    digitsOf (grouped src ++ X) = src ++ digitsOf X := by
  rw [digitsOf_append]
  unfold grouped
  rw [digitsOf_layout byteGroups false src ha (le_trans hl (by decide))]

/-- The text after digits laid out in groups, when more digits follow in the layout. -/
theorem body_after_grouped (body src g m2 X : List Nat) (hg : g ≠ [])
    (hroom : (src.length < 8 ∧ src.length + g.length ≤ 8) ∨
      (8 ≤ src.length ∧ src.length < 12 ∧ src.length + g.length ≤ 12) ∨
      (12 ≤ src.length ∧ src.length < 16 ∧ src.length + g.length ≤ 16) ∨
      (16 ≤ src.length ∧ src.length < 20 ∧ src.length + g.length ≤ 20) ∨
      (20 ≤ src.length ∧ src.length + g.length ≤ 32))
    (hb : body = grouped (src ++ (g ++ m2)) ++ X) :
    ∃ Z, body = grouped src ++ (sepAfter src ++ (g ++ Z)) := by
  obtain ⟨W, hW⟩ := layout_isPrefix byteGroups false (src ++ g) m2
  refine ⟨W ++ X, ?_⟩
  rw [hb, ← List.append_assoc src g m2]
  unfold grouped at *
  rw [← hW]
  have := grouped_extend src g hg hroom
  unfold grouped at this
  rw [this]
  simp only [List.append_assoc]

theorem FailedAt_lt_false (body : List Nat) (braced : Bool) (text src src2 : List Nat) (e : Err)
    (ha : allHex src) (ha2 : allHex src2)
    (he : src.length % 2 = 0) (he2 : src2.length % 2 = 0) (hl2 : src2.length ≤ 30)
    (h : FailedAt body braced text src e) (h2 : FailedAt body braced text src2 e)
    (hlt : src.length < src2.length) : False := by
  obtain ⟨X, hX⟩ := FailedAt_body body braced text src e h
  obtain ⟨X2, hX2⟩ := FailedAt_body body braced text src2 e h2
  have hd : digitsOf body = src ++ digitsOf X := by
    rw [hX]; exact digitsOf_grouped_append src X ha (by omega)
  have hd2 : digitsOf body = src2 ++ digitsOf X2 := by
    rw [hX2]; exact digitsOf_grouped_append src2 X2 ha2 (by omega)
  have hp : src <+: src2 :=
    List.prefix_of_prefix_length_le ⟨_, hd.symm⟩ ⟨_, hd2.symm⟩ (by omega)
  obtain ⟨more, rfl⟩ := hp
  have hm := (allHex_append src more).mp ha2
  simp only [List.length_append] at hlt he2 hl2
  cases e with
  | invalidByte c =>
    simp only [FailedAt] at h
    obtain ⟨hc, p, q, rest, hb, hpq⟩ := h
    match more, hm, hlt, he2, hl2, hX2 with
    | [], _, hlt, _, _, _ => simp at hlt
    | [x], _, _, he2, _, _ => simp at he2; omega
    | x :: y :: m2, hm, _, _, hl2, hX2 =>
      simp only [List.length_cons] at hl2
      obtain ⟨Z, hZ⟩ := body_after_grouped body src [x, y] m2 X2 (by simp)
        (by simp only [List.length_cons, List.length_nil]; omega) (by simpa using hX2)
      rw [hb] at hZ
      have hZ2 := List.append_cancel_left (List.append_cancel_left hZ)
      simp only [List.cons_append, List.nil_append, List.cons.injEq] at hZ2
      have hx := ((allHex_cons2 x y m2).mp hm.2).1
      have hy := ((allHex_cons2 x y m2).mp hm.2).2.1
      rcases hpq with rfl | ⟨_, rfl⟩
      · exact hc (hZ2.1 ▸ hx)
      · exact hc (hZ2.2.1 ▸ hy)
  | invalidFormat =>
    simp only [FailedAt] at h
    obtain ⟨hbd, c, rest, hb, hc⟩ := h
    match more, hm, hlt, he2, hl2, hX2 with
    | [], _, hlt, _, _, _ => simp at hlt
    | [x], _, _, he2, _, _ => simp at he2; omega
    | x :: y :: m2, hm, _, _, hl2, hX2 =>
      simp only [List.length_cons] at hl2
      obtain ⟨Z, hZ⟩ := body_after_grouped body src [x, y] m2 X2 (by simp)
        (by simp only [List.length_cons, List.length_nil]; omega) (by simpa using hX2)
      rw [hb] at hZ
      have hZ2 := List.append_cancel_left hZ
      have hs : sepAfter src = [45] := by unfold sepAfter; rw [if_pos hbd]
      rw [hs] at hZ2
      simp only [List.cons_append, List.nil_append, List.cons.injEq] at hZ2
      exact hc hZ2.1
  | tooShort t =>
    simp only [FailedAt] at h h2
    obtain ⟨_, rest, hb, hr⟩ := h
    obtain ⟨_, rest2, _, hr2⟩ := h2
    simp only [List.length_append] at hr2
    have hn : 0 < nextGroup src.length := by omega
    have hn2 : 0 < nextGroup (src.length + more.length) := by omega
    have hge : nextGroup src.length ≤ more.length ∧
        ((src.length < 8 ∧ src.length + nextGroup src.length ≤ 8) ∨
        (8 ≤ src.length ∧ src.length < 12 ∧ src.length + nextGroup src.length ≤ 12) ∨
        (12 ≤ src.length ∧ src.length < 16 ∧ src.length + nextGroup src.length ≤ 16) ∨
        (16 ≤ src.length ∧ src.length < 20 ∧ src.length + nextGroup src.length ≤ 20) ∨
        (20 ≤ src.length ∧ src.length + nextGroup src.length ≤ 32)) := by
      unfold nextGroup at hn hn2 ⊢
      split_ifs at hn hn2 ⊢ <;> omega
    obtain ⟨g, m2, rfl, hgl⟩ := exists_split more (nextGroup src.length) hge.1
    obtain ⟨Z, hZ⟩ := body_after_grouped body src g m2 X2
      (by intro hg; rw [hg] at hgl; simp at hgl; omega) (by rw [hgl]; exact hge.2) hX2
    rw [hb] at hZ
    have hZ2 := List.append_cancel_left (List.append_cancel_left hZ)
    rw [hZ2, List.length_append] at hr
    omega
  | tooLong t =>
    simp only [FailedAt] at h h2
    simp only [List.length_append] at h2
    omega
  | errLength => exact h.elim

/-- The digits decoded before a failure are determined by the input and the error: two lists of
hex digits, each of even length at most 30, that both satisfy `FailedAt` for the same text and
the same error are equal. -/
theorem FailedAt_unique (body : List Nat) (braced : Bool) (text src src2 : List Nat) (e : Err)
    (ha : allHex src) (ha2 : allHex src2)
    (he : src.length % 2 = 0) (he2 : src2.length % 2 = 0)
    (hl : src.length ≤ 30) (hl2 : src2.length ≤ 30)
    (h : FailedAt body braced text src e) (h2 : FailedAt body braced text src2 e) :
    src2 = src := by
  obtain ⟨X, hX⟩ := FailedAt_body body braced text src e h
  obtain ⟨X2, hX2⟩ := FailedAt_body body braced text src2 e h2
  have hd : digitsOf body = src ++ digitsOf X := by
    rw [hX]; exact digitsOf_grouped_append src X ha (by omega)
  have hd2 : digitsOf body = src2 ++ digitsOf X2 := by
    rw [hX2]; exact digitsOf_grouped_append src2 X2 ha2 (by omega)
  rcases Nat.lt_trichotomy src.length src2.length with hlt | heq | hgt
  · exact (FailedAt_lt_false body braced text src src2 e ha ha2 he he2 hl2 h h2 hlt).elim
  · rw [hd] at hd2
    exact (List.append_inj hd2 heq).1.symm
  · exact (FailedAt_lt_false body braced text src2 src e ha2 ha he2 he hl h2 h hgt).elim

/-- The description of the stopping place on two inputs: the 32 hex digits without hyphens stop
after the first group at a character that is not `-`, and a canonical text whose last character
is `g` stops at the last pair, after 30 digits. -/
theorem FailedAt_examples :
    FailedAt (bodyOf (bytesOf "6ba7b8109dad11d180b400c04fd430c8"))
      (isBraced (bytesOf "6ba7b8109dad11d180b400c04fd430c8"))
      (bytesOf "6ba7b8109dad11d180b400c04fd430c8") (bytesOf "6ba7b810") .invalidFormat ∧
    FailedAt (bodyOf (bytesOf "6ba7b810-9dad-11d1-80b4-00c04fd430cg"))
      (isBraced (bytesOf "6ba7b810-9dad-11d1-80b4-00c04fd430cg"))
      (bytesOf "6ba7b810-9dad-11d1-80b4-00c04fd430cg")
      (bytesOf "6ba7b8109dad11d180b400c04fd430") (.invalidByte 103) :=
  ⟨⟨by decide, 57, bytesOf "dad11d180b400c04fd430c8", by decide, by decide⟩,
    ⟨by decide, 99, 103, [], by decide, Or.inr ⟨by decide, rfl⟩⟩⟩

/-! ### The hash primitives on the test vectors of their standards -/

set_option maxRecDepth 1000000 in
/-- The test suite of RFC 1321: the digests of the empty message, of `abc` and of `message
digest`, and a message of two blocks. -/
theorem md5Sum_vectors :
    md5Sum [] = [212, 29, 140, 217, 143, 0, 178, 4, 233, 128, 9, 152, 236, 248, 66, 126] ∧
    md5Sum (bytesOf "abc") =
      [144, 1, 80, 152, 60, 210, 79, 176, 214, 150, 63, 125, 40, 225, 127, 114] ∧
    md5Sum (bytesOf "message digest") =
      [249, 107, 105, 125, 124, 183, 147, 141, 82, 90, 47, 49, 170, 241, 97, 208] ∧
    md5Sum (bytesOf
      "12345678901234567890123456789012345678901234567890123456789012345678901234567890") =
      [87, 237, 244, 162, 43, 227, 201, 85, 172, 73, 218, 46, 33, 7, 182, 122] := by
  decide

set_option maxRecDepth 1000000 in
/-- The test vectors of RFC 3174: the digests of `abc` and of a message of two blocks, and the
digest of the empty message. -/
theorem sha1Sum_vectors :
    sha1Sum [] =
      [218, 57, 163, 238, 94, 107, 75, 13, 50, 85, 191, 239, 149, 96, 24, 144, 175, 216, 7, 9] ∧
    sha1Sum (bytesOf "abc") =
      [169, 153, 62, 54, 71, 6, 129, 106, 186, 62, 37, 113, 120, 80, 194, 108, 156, 208, 216, 157] ∧
    sha1Sum (bytesOf "abcdbcdecdefdefgefghfghighijhijkijkljklmklmnlmnomnopnopq") =
      [132, 152, 62, 68, 28, 59, 210, 110, 186, 174, 74, 161, 249, 81, 41, 229, 229, 70, 112, 241] := by
  decide

/-! ## The claims -/

/-- C1. Round trip: for every UUID `u` (sixteen bytes), `Parse(u.String())` returns `u` with a
nil error. -/
theorem C1_parse_string_roundtrip (u : UUID) (h : u.wf) :
    Parse u.String = .ret (u, none) :=
  UnmarshalText_String_ok u Nil h Nil_length

theorem C1_witness :
    UUID.wf [107, 167, 184, 16, 157, 173, 17, 209, 128, 180, 0, 192, 79, 212, 48, 200] ∧
    Parse (UUID.String [107, 167, 184, 16, 157, 173, 17, 209, 128, 180, 0, 192, 79, 212, 48, 200])
      = .ret ([107, 167, 184, 16, 157, 173, 17, 209, 128, 180, 0, 192, 79, 212, 48, 200], none) :=
  ⟨by decide, C1_parse_string_roundtrip _ (by decide)⟩

/-- C2. The input `"urn:uuid:6ba7b810-9dad-11d1-80b4"` has 32 bytes, so it passes the length
check; after the prefix and four groups nothing is left, and the separator check `t[0]` of the
fifth pass indexes an empty slice: `Parse` panics instead of returning an error. -/
theorem C2_parse_panics_on_short_urn :
    (bytesOf "urn:uuid:6ba7b810-9dad-11d1-80b4").length = 32 ∧
    Parse (bytesOf "urn:uuid:6ba7b810-9dad-11d1-80b4") = .panic := by
  decide

/-- C3. The input `"{6ba7b810-9dad-11d1-80b4-00c04fd430c8"`, an opening brace and the 36
characters with no closing brace, is none of the three listed forms, and `Parse` accepts it:
it returns the namespace-DNS bytes with a nil error. -/
theorem C3_parse_accepts_unclosed_brace :
    Parse (bytesOf "\x7b6ba7b810-9dad-11d1-80b4-00c04fd430c8") =
      .ret ([107, 167, 184, 16, 157, 173, 17, 209, 128, 180, 0, 192, 79, 212, 48, 200], none) ∧
    (bytesOf "\x7b6ba7b810-9dad-11d1-80b4-00c04fd430c8").getLast? ≠ some 125 := by
  decide

/-- C4. The three surface forms are accepted and agree: for every UUID `u`, parsing
`"{" + u.String() + "}"`, parsing `"urn:uuid:" + u.String()` and parsing `u.String()` each
return `u` with a nil error. -/
theorem C4_three_forms_agree (u : UUID) (h : u.wf) :
    Parse (123 :: (u.String ++ [125])) = .ret (u, none) ∧
    Parse (urnPrefix ++ u.String) = .ret (u, none) ∧
    Parse u.String = .ret (u, none) := by
  have hlen := String_length u h
  refine ⟨?_, ?_, UnmarshalText_String_ok u Nil h Nil_length⟩
  · unfold Parse
    rw [UnmarshalText_braced Nil _ (by simp [hlen])]
    exact loop_String_ok _ true u Nil [125] h Nil_length (Or.inr ⟨rfl, rfl⟩)
  · unfold Parse
    rw [UnmarshalText_urn Nil _ (by omega)]
    have h2 := loop_String_ok (urnPrefix ++ u.String) false u Nil [] h Nil_length (Or.inl rfl)
    rw [List.append_nil] at h2
    exact h2

theorem C4_witness :
    UUID.wf [107, 167, 184, 16, 157, 173, 17, 209, 128, 180, 0, 192, 79, 212, 48, 200] ∧
    Parse (bytesOf "\x7b6ba7b810-9dad-11d1-80b4-00c04fd430c8\x7d") =
      .ret ([107, 167, 184, 16, 157, 173, 17, 209, 128, 180, 0, 192, 79, 212, 48, 200], none) ∧
    Parse (bytesOf "urn:uuid:6ba7b810-9dad-11d1-80b4-00c04fd430c8") =
      .ret ([107, 167, 184, 16, 157, 173, 17, 209, 128, 180, 0, 192, 79, 212, 48, 200], none) ∧
    Parse (bytesOf "6ba7b810-9dad-11d1-80b4-00c04fd430c8") =
      .ret ([107, 167, 184, 16, 157, 173, 17, 209, 128, 180, 0, 192, 79, 212, 48, 200], none) :=
  ⟨by decide, C4_three_forms_agree
    [107, 167, 184, 16, 157, 173, 17, 209, 128, 180, 0, 192, 79, 212, 48, 200] (by decide)⟩

/-- C5. For every UUID `u`, `u.String()` has 36 characters, `-` at indices 8, 13, 18 and 23 and
a lower-case hex digit everywhere else, and the digits are the two-digit hex encodings of the
bytes 0..15 in order (byte `k` at index `digitPos k`). -/
theorem C5_string_format (u : UUID) (h : u.wf) :
    u.String.length = 36 ∧
    (∀ i ∈ [8, 13, 18, 23], u.String.getD i 0 = 45) ∧
    (∀ i < 36, i ∉ [8, 13, 18, 23] → isLowerHexDigit (u.String.getD i 0)) ∧
    (∀ k < 16, u.String.getD (digitPos k) 0 = lowerHexChar (u.at k / 16) ∧
      u.String.getD (digitPos k + 1) 0 = lowerHexChar (u.at k % 16)) := by
  obtain ⟨hl, hb⟩ := h
  obtain ⟨a0, a1, a2, a3, a4, a5, a6, a7, a8, a9, a10, a11, a12, a13, a14, a15, rfl⟩ :=
    list_length_16 hl
  have hlt : ∀ c ∈ [a0, a1, a2, a3, a4, a5, a6, a7, a8, a9, a10, a11, a12, a13, a14, a15],
      c / 16 < 16 ∧ c % 16 < 16 := by
    intro c hc
    have := hb c hc
    omega
  rw [String_explicit _ _ _ _ _ _ _ _ _ _ _ _ _ _ _ _ hb]
  refine ⟨rfl, ?_, ?_, ?_⟩
  · intro i hi
    simp only [List.mem_cons, List.mem_singleton, List.not_mem_nil, or_false] at hi
    rcases hi with rfl | rfl | rfl | rfl <;> rfl
  · intro i hi hn
    interval_cases i <;>
      first
      | exact (hn (by decide)).elim
      | exact lowerHexChar_isLowerHexDigit _ (hlt _ (by simp)).1
      | exact lowerHexChar_isLowerHexDigit _ (hlt _ (by simp)).2
  · intro k hk
    interval_cases k <;> exact ⟨rfl, rfl⟩

theorem C5_witness :
    UUID.wf [107, 167, 184, 16, 157, 173, 17, 209, 128, 180, 0, 192, 79, 212, 48, 200] ∧
    UUID.String [107, 167, 184, 16, 157, 173, 17, 209, 128, 180, 0, 192, 79, 212, 48, 200] =
      bytesOf "6ba7b810-9dad-11d1-80b4-00c04fd430c8" ∧
    (UUID.String
      [107, 167, 184, 16, 157, 173, 17, 209, 128, 180, 0, 192, 79, 212, 48, 200]).length = 36 :=
  ⟨by decide, by decide, (C5_string_format
    [107, 167, 184, 16, 157, 173, 17, 209, 128, 180, 0, 192, 79, 212, 48, 200] (by decide)).1⟩

/-- C6. With the hash primitive an arbitrary digest function: `NewV3(n, s)` has version 3 and
variant RFC4122, `NewV5(n, s)` has version 5 and variant RFC4122, and each is determined by the
digest of the namespace bytes followed by the name, hence by `(n, s)`. -/
theorem C6_name_based_version_variant (md5 sha1 : List Nat → List Nat) (n : UUID)
    (s : List Nat) :
    (NewV3 md5 n s).Version = 3 ∧ (NewV3 md5 n s).Variant = VariantRFC4122 ∧
    (NewV5 sha1 n s).Version = 5 ∧ (NewV5 sha1 n s).Variant = VariantRFC4122 ∧
    (∀ f : List Nat → List Nat, f (n ++ s) = md5 (n ++ s) → NewV3 f n s = NewV3 md5 n s) ∧
    (∀ f : List Nat → List Nat, f (n ++ s) = sha1 (n ++ s) → NewV5 f n s = NewV5 sha1 n s) := by
  have h3 := stamped_fields (newFromHash (Hash.New md5) n s) (newFromHash_length _ _ _)
    (((newFromHash (Hash.New md5) n s).at 6 &&& 0x0f) ||| 0x30)
  have h5 := stamped_fields (newFromHash (Hash.New sha1) n s) (newFromHash_length _ _ _)
    (((newFromHash (Hash.New sha1) n s).at 6 &&& 0x0f) ||| 0x50)
  rw [NewV3_eq, NewV5_eq]
  refine ⟨?_, h3.2.1, ?_, h5.2.1, ?_, ?_⟩
  · exact h3.1.trans (version_stamp _).1.1
  · exact h5.1.trans (version_stamp _).2.2.1
  · intro f hf
    rw [← NewV3_eq]
    unfold NewV3
    rw [newFromHash_eq, newFromHash_eq, hf]
  · intro f hf
    rw [← NewV5_eq]
    unfold NewV5
    rw [newFromHash_eq, newFromHash_eq, hf]

/-- C6 at a concrete input: the identity as digest, the namespace-DNS bytes and the name `a`. -/
theorem C6_witness :
    (NewV3 (fun m => m)
      [107, 167, 184, 16, 157, 173, 17, 209, 128, 180, 0, 192, 79, 212, 48, 200]
      (bytesOf "a")).Version = 3 :=
  (C6_name_based_version_variant (fun m => m) (fun m => m)
    [107, 167, 184, 16, 157, 173, 17, 209, 128, 180, 0, 192, 79, 212, 48, 200] (bytesOf "a")).1

/-- C7. Whatever the random source stores in the 16-byte buffer (a short or failed read
included), `NewV4` returns a UUID with version 4 and variant RFC4122 (top two bits of byte 8
are `10`) whose other bits are those of the buffer: bytes other than 6 and 8 are equal, and so
are the low nibble of byte 6 and the low six bits of byte 8. -/
theorem C7_random_version_variant (rnd : List Nat) :
    (NewV4 rnd).Version = 4 ∧ (NewV4 rnd).Variant = VariantRFC4122 ∧
    (NewV4 rnd).at 8 / 64 = 2 ∧
    (∀ i, i < 16 → i ≠ 6 → i ≠ 8 → (NewV4 rnd).at i = UUID.at (readBuf rnd) i) ∧
    (NewV4 rnd).at 6 % 16 = UUID.at (readBuf rnd) 6 % 16 ∧
    (NewV4 rnd).at 8 % 64 = UUID.at (readBuf rnd) 8 % 64 := by
  have hlen : (readBuf rnd).length = 16 := readBuf_length rnd
  obtain ⟨hv, hvar, _, h6, h8, hrest⟩ :=
    stamped_fields (readBuf rnd) hlen ((UUID.at (readBuf rnd) 6 &&& 0x0f) ||| 0x40)
  have h8v := at_put_same
    (UUID.put (readBuf rnd) 6 ((UUID.at (readBuf rnd) 6 &&& 0x0f) ||| 0x40)) 8
    ((UUID.at (readBuf rnd) 8 &&& 0xbf) ||| 0x80) (by rw [put_length]; omega)
  rw [NewV4_eq]
  refine ⟨hv.trans (version_stamp _).2.1.1, hvar, ?_, ?_, ?_, h8⟩
  · rw [h8v]; exact (variant_stamp _).2.1
  · intro i _ hi6 hi8; exact hrest i hi6 hi8
  · rw [h6]; exact (version_stamp _).2.1.2

/-- C7 at a concrete input: a short read of three bytes. -/
theorem C7_witness : (NewV4 [255, 255, 255]).Version = 4 :=
  (C7_random_version_variant [255, 255, 255]).1

/-- C8. For every UUID `u`, `u.Variant()` is decided by the top bits of byte 8 as in the table:
NCS iff the top bit is 0, RFC4122 iff the top two bits are `10`, Microsoft iff the top three
bits are `110`, Future iff they are `111`. -/
theorem C8_variant_table (u : UUID) (h : u.wf) :
    (u.Variant = VariantNCS ↔ u.at 8 / 128 = 0) ∧
    (u.Variant = VariantRFC4122 ↔ u.at 8 / 64 = 2) ∧
    (u.Variant = VariantMicrosoft ↔ u.at 8 / 32 = 6) ∧
    (u.Variant = VariantFuture ↔ u.at 8 / 32 = 7) := by
  exact variant_iff_all (u.at 8) (wf_at_lt u h 8)

theorem C8_witness :
    UUID.wf [107, 167, 184, 16, 157, 173, 17, 209, 128, 180, 0, 192, 79, 212, 48, 200] ∧
    (UUID.Variant [107, 167, 184, 16, 157, 173, 17, 209, 128, 180, 0, 192, 79, 212, 48, 200]
      = VariantRFC4122 ↔
     UUID.at [107, 167, 184, 16, 157, 173, 17, 209, 128, 180, 0, 192, 79, 212, 48, 200] 8 / 64
      = 2) :=
  ⟨by decide, (C8_variant_table
    [107, 167, 184, 16, 157, 173, 17, 209, 128, 180, 0, 192, 79, 212, 48, 200] (by decide)).2.1⟩

/-- C9, as stated, fails: on the 32 hex digits without hyphens (an error case of the test
suite) the first group is decoded into the array before the missing separator is found, so
`UnmarshalText` returns an error with the array changed and `Parse` returns a UUID that is not
all-zero alongside the error. -/
theorem C9_counterexample :
    UnmarshalText Nil (bytesOf "6ba7b8109dad11d180b400c04fd430c8") =
      .ret ([107, 167, 184, 16, 0, 0, 0, 0, 0, 0, 0, 0, 0, 0, 0, 0], some .invalidFormat) ∧
    Parse (bytesOf "6ba7b8109dad11d180b400c04fd430c8") =
      .ret ([107, 167, 184, 16, 0, 0, 0, 0, 0, 0, 0, 0, 0, 0, 0, 0], some .invalidFormat) ∧
    ([107, 167, 184, 16, 0, 0, 0, 0, 0, 0, 0, 0, 0, 0, 0, 0] : UUID) ≠ Nil := by
  decide

/-- C9, amended. Parsing decodes in place and is not atomic on failure: when `UnmarshalText`
returns a non-nil error, the array holds in its leading part the bytes decoded before the
failure and after it its old bytes.  There are hex digits `src`, an even number of them and at
most 30, such that the first `len(src)/2` bytes of the array are the decoding of `src` and all
later bytes are unchanged; when the input is shorter than 32 bytes `src` is empty, nothing is
written and the error is "too short"; otherwise `src` is what the input after its optional
prefix begins with, in the layout 8-4-4-4-12, up to the place where the parse stopped
(`FailedAt`), and it is the only list of hex digits of even length at most 30 of which that
holds.  Hence the UUID returned by `Parse` alongside an error is the decoding of `src` followed
by zero bytes. -/
theorem C9_failure_keeps_suffix (u : UUID) (text : List Nat) (u1 : UUID) (e : Err)
    (hu : u.length = 16) (h : UnmarshalText u text = .ret (u1, some e)) :
    ∃ src, allHex src ∧ src.length % 2 = 0 ∧ src.length ≤ 30 ∧
      (hexDecode src).length = src.length / 2 ∧
      u1 = hexDecode src ++ u.drop (src.length / 2) ∧
      (u = Nil → u1 = hexDecode src ++ List.replicate (16 - src.length / 2) 0) ∧
      (text.length < 32 → src = [] ∧ u1 = u ∧ e = .tooShort text) ∧
      (32 ≤ text.length → FailedAt (bodyOf text) (isBraced text) text src e ∧
        ∀ src2, allHex src2 → src2.length % 2 = 0 → src2.length ≤ 30 →
          FailedAt (bodyOf text) (isBraced text) text src2 e → src2 = src) := by
  have hnil : ∀ src : List Nat, u1 = hexDecode src ++ u.drop (src.length / 2) → u = Nil →
      u1 = hexDecode src ++ List.replicate (16 - src.length / 2) 0 := by
    intro src h1 h2
    rw [h1, h2]
    unfold Nil
    rw [List.drop_replicate]
  by_cases hlen : text.length < 32
  · rw [UnmarshalText_short u text hlen] at h
    simp only [Run.ret.injEq, Prod.mk.injEq, Option.some.injEq] at h
    have hu1 : u1 = hexDecode [] ++ u.drop (([] : List Nat).length / 2) := by
      rw [← h.1]; rfl
    exact ⟨[], by simp [allHex], rfl, by simp, rfl, hu1, hnil [] hu1,
      fun _ => ⟨rfl, h.1.symm, h.2.symm⟩, fun h32 => absurd hlen (by omega)⟩
  · rw [UnmarshalText_body u text (by omega)] at h
    obtain ⟨src, a, b, c, d, f⟩ :=
      loop_fail_spec text (isBraced text) u (bodyOf text) u1 e hu h
    exact ⟨src, a, b, c, hexDecode_length_even src b, d, hnil src d,
      fun hlt => absurd hlt hlen, fun _ => ⟨f, fun src2 a2 b2 c2 f2 =>
        FailedAt_unique (bodyOf text) (isBraced text) text src src2 e a a2 b b2 c c2 f f2⟩⟩

theorem C9_witness :
    (Nil : UUID).length = 16 ∧
    UnmarshalText Nil (bytesOf "6ba7b810-9dad-11d1-80b4-00c04fd430cg") =
      .ret ([107, 167, 184, 16, 157, 173, 17, 209, 128, 180, 0, 192, 79, 212, 48, 0],
        some (.invalidByte 103)) ∧
    (∃ src, allHex src ∧ src.length % 2 = 0 ∧ src.length ≤ 30 ∧
      (hexDecode src).length = src.length / 2 ∧
      ([107, 167, 184, 16, 157, 173, 17, 209, 128, 180, 0, 192, 79, 212, 48, 0] : UUID) =
        hexDecode src ++ Nil.drop (src.length / 2) ∧
      (Nil = Nil →
        ([107, 167, 184, 16, 157, 173, 17, 209, 128, 180, 0, 192, 79, 212, 48, 0] : UUID) =
          hexDecode src ++ List.replicate (16 - src.length / 2) 0) ∧
      ((bytesOf "6ba7b810-9dad-11d1-80b4-00c04fd430cg").length < 32 → src = [] ∧
        ([107, 167, 184, 16, 157, 173, 17, 209, 128, 180, 0, 192, 79, 212, 48, 0] : UUID) =
          Nil ∧
        Err.invalidByte 103 = .tooShort (bytesOf "6ba7b810-9dad-11d1-80b4-00c04fd430cg")) ∧
      (32 ≤ (bytesOf "6ba7b810-9dad-11d1-80b4-00c04fd430cg").length →
        FailedAt (bodyOf (bytesOf "6ba7b810-9dad-11d1-80b4-00c04fd430cg"))
          (isBraced (bytesOf "6ba7b810-9dad-11d1-80b4-00c04fd430cg"))
          (bytesOf "6ba7b810-9dad-11d1-80b4-00c04fd430cg") src (.invalidByte 103) ∧
        ∀ src2, allHex src2 → src2.length % 2 = 0 → src2.length ≤ 30 →
          FailedAt (bodyOf (bytesOf "6ba7b810-9dad-11d1-80b4-00c04fd430cg"))
            (isBraced (bytesOf "6ba7b810-9dad-11d1-80b4-00c04fd430cg"))
            (bytesOf "6ba7b810-9dad-11d1-80b4-00c04fd430cg") src2 (.invalidByte 103) →
          src2 = src)) :=
  ⟨by decide, by decide,
    C9_failure_keeps_suffix Nil (bytesOf "6ba7b810-9dad-11d1-80b4-00c04fd430cg")
      [107, 167, 184, 16, 157, 173, 17, 209, 128, 180, 0, 192, 79, 212, 48, 0]
      (.invalidByte 103) (by decide) (by decide)⟩

/-- C10. Trailing characters are rejected as too long: for every UUID `u` and every non-empty
`x`, parsing `u.String() + x`, `"urn:uuid:" + u.String() + x` and
`"{" + u.String() + "}" + x` each return the "UUID string too long" error, which quotes the
input. -/
theorem C10_trailing_too_long (u : UUID) (x : List Nat) (h : u.wf) (hx : x ≠ []) :
    (∃ v, Parse (u.String ++ x) = .ret (v, some (.tooLong (u.String ++ x)))) ∧
    (∃ v, Parse (urnPrefix ++ (u.String ++ x)) =
      .ret (v, some (.tooLong (urnPrefix ++ (u.String ++ x))))) ∧
    (∃ v, Parse (123 :: (u.String ++ (125 :: x))) =
      .ret (v, some (.tooLong (123 :: (u.String ++ (125 :: x)))))) := by
  have hlen := String_length u h
  refine ⟨⟨u.take 10 ++ Nil.drop 10, ?_⟩, ⟨u.take 10 ++ Nil.drop 10, ?_⟩,
    ⟨u.take 10 ++ Nil.drop 10, ?_⟩⟩
  · unfold Parse
    rw [UnmarshalText_String u Nil x h]
    exact loop_String_tooLong _ false u Nil x h Nil_length hx (by simp)
  · unfold Parse
    rw [UnmarshalText_urn Nil _ (by simp [hlen]; omega)]
    exact loop_String_tooLong _ false u Nil x h Nil_length hx (by simp)
  · unfold Parse
    rw [UnmarshalText_braced Nil _ (by simp [hlen]; omega)]
    exact loop_String_tooLong _ true u Nil (125 :: x) h Nil_length (by simp) (by simp [hx])

theorem C10_witness :
    UUID.wf [0, 18, 65, 111, 158, 236, 62, 212, 168, 176, 59, 206, 236, 222, 28, 217] ∧
    bytesOf "ab" ≠ [] ∧
    (∃ v, Parse (bytesOf "0012416f-9eec-3ed4-a8b0-3bceecde1cd9ab") =
      .ret (v, some (.tooLong (bytesOf "0012416f-9eec-3ed4-a8b0-3bceecde1cd9ab")))) :=
  ⟨by decide, by decide, (C10_trailing_too_long
    [0, 18, 65, 111, 158, 236, 62, 212, 168, 176, 59, 206, 236, 222, 28, 217]
    (bytesOf "ab") (by decide) (by decide)).1⟩

/-- C11, as stated, fails: the 36 characters `zzzzzzzz-zzzz-zzzz-zzzz-zzzzzzzzzzzz` contain no
hex digit at all, and `Parse` returns the invalid-byte error of `hex.Decode` for `z`, not the
"too short" error. -/
theorem C11_counterexample :
    countHex (bytesOf "zzzzzzzz-zzzz-zzzz-zzzz-zzzzzzzzzzzz") = 0 ∧
    Parse (bytesOf "zzzzzzzz-zzzz-zzzz-zzzz-zzzzzzzzzzzz") =
      .ret (Nil, some (.invalidByte 122)) := by
  decide

/-- C11, amended. `Parse` returns the "UUID string too short" error, quoting the input, for
every input shorter than 32 bytes, for every proper truncation of the canonical text of a UUID,
and for every proper truncation of its URN-prefixed form other than the one of 32 bytes. -/
theorem C11_short_and_truncated (u : UUID) (text : List Nat) (m : Nat) (h : u.wf) :
    (text.length < 32 → Parse text = .ret (Nil, some (.tooShort text))) ∧
    (m < 36 → ∃ v, Parse (u.String.take m) = .ret (v, some (.tooShort (u.String.take m)))) ∧
    (m < 45 → m ≠ 32 → ∃ v, Parse ((urnPrefix ++ u.String).take m) =
      .ret (v, some (.tooShort ((urnPrefix ++ u.String).take m)))) := by
  have hlen := String_length u h
  refine ⟨fun hlt => UnmarshalText_short Nil text hlt, ?_, ?_⟩
  · intro hm
    by_cases h32 : m < 32
    · exact ⟨Nil, UnmarshalText_short Nil _ (by rw [List.length_take]; omega)⟩
    · obtain ⟨v, hv⟩ := loop_String_take_short (u.String.take m) false u Nil h Nil_length m
        (by omega) hm
      refine ⟨v, ?_⟩
      obtain ⟨c, tl, hs, hc, _⟩ := String_head u h
      have hcons : u.String.take m = c :: tl.take (m - 1) := by
        rw [hs]
        cases m with
        | zero => omega
        | succ k => simp
      unfold Parse
      rw [hcons] at hv ⊢
      rw [UnmarshalText_hex_head Nil c _ (by rw [← hcons, List.length_take]; omega)
        (isHexDigit_of_lower hc)]
      exact hv
  · intro hm hne
    by_cases h32 : m < 32
    · exact ⟨Nil, UnmarshalText_short Nil _ (by rw [List.length_take]; omega)⟩
    · have htake : (urnPrefix ++ u.String).take m = urnPrefix ++ u.String.take (m - 9) := by
        rw [List.take_append_eq_append_take, List.take_of_length_le (by simp [urnPrefix]; omega)]
        rfl
      obtain ⟨v, hv⟩ := loop_String_take_short (urnPrefix ++ u.String.take (m - 9)) false u Nil
        h Nil_length (m - 9) (by omega) (by omega)
      refine ⟨v, ?_⟩
      unfold Parse
      rw [htake, UnmarshalText_urn Nil _ (by rw [List.length_take]; omega)]
      exact hv

theorem C11_witness :
    UUID.wf [107, 167, 184, 16, 157, 173, 17, 209, 128, 180, 0, 192, 79, 212, 48, 200] ∧
    (bytesOf "6ba7").length < 32 ∧
    Parse (bytesOf "6ba7") = .ret (Nil, some (.tooShort (bytesOf "6ba7"))) :=
  ⟨by decide, by decide, (C11_short_and_truncated
    [107, 167, 184, 16, 157, 173, 17, 209, 128, 180, 0, 192, 79, 212, 48, 200]
    (bytesOf "6ba7") 35 (by decide)).1 (by decide)⟩

/-- C12. A missing or wrong group separator is rejected as invalid format: when the input is an
input of at least 32 bytes that is an optional `urn:uuid:` or opening-brace prefix followed by
`k` groups of hex digits of the expected lengths (`k` in 1..4) with `-` between them and then a
character other than `-`, `Parse` returns the "invalid string format" error; in particular so
does every input of 32 or more hex digits and nothing else. -/
theorem C12_bad_separator_invalid_format (pfx body : List Nat) (k : Nat)
    (gs : List (List Nat)) (c : Nat) (rest : List Nat)
    (hp : pfx = [] ∨ pfx = urnPrefix ∨ pfx = [123]) (hlen : 32 ≤ (pfx ++ body).length)
    (hk : 1 ≤ k ∧ k ≤ 4) (hgs : gs.map List.length = byteGroups.take k)
    (hhex : ∀ g ∈ gs, allHex g) (hc : c ≠ 45) (hbody : body = sepJoin gs ++ c :: rest) :
    (∃ v, Parse (pfx ++ body) = .ret (v, some .invalidFormat)) ∧
    (∀ text : List Nat, 32 ≤ text.length → allHex text →
      ∃ v, Parse text = .ret (v, some .invalidFormat)) := by
  constructor
  · obtain ⟨v, hv⟩ := loop_sepJoin_bad (pfx ++ body) (pfx = [123]) Nil Nil_length k gs c rest
      hk hgs hhex hc
    rw [← hbody] at hv
    refine ⟨v, ?_⟩
    unfold Parse
    rcases hp with rfl | rfl | rfl
    · obtain ⟨h, t, hht, hh⟩ := sepJoin_head k gs (c :: rest) hk hgs hhex
      rw [← hbody] at hht
      simp only [List.nil_append] at hv ⊢
      rw [hht] at hv ⊢
      rw [UnmarshalText_hex_head Nil h t (by rw [← hht]; simpa using hlen) hh]
      simpa using hv
    · rw [UnmarshalText_urn Nil body (by simp [urnPrefix] at hlen; omega)]
      simpa [urnPrefix] using hv
    · rw [List.singleton_append, UnmarshalText_braced Nil body (by simp at hlen; omega)]
      simpa using hv
  · intro text htl hth
    have hsplit : text = text.take 8 ++ text.drop 8 := (List.take_append_drop 8 text).symm
    cases hd : text.drop 8 with
    | nil =>
      have : (text.drop 8).length = 0 := by rw [hd]; rfl
      simp at this; omega
    | cons c2 rest2 =>
      have hc2 : isHexDigit c2 := hth c2 (List.mem_of_mem_drop (by rw [hd]; simp))
      have h8 : allHex (text.take 8) := fun x hx => hth x (List.mem_of_mem_take hx)
      obtain ⟨v, hv⟩ := loop_sepJoin_bad text false Nil Nil_length 1 [text.take 8] c2 rest2
        (by decide) (by simp [byteGroups]; omega)
        (by intro g hg; simp at hg; rw [hg]; exact h8) (isHexDigit_ne c2 hc2).2.2
      simp only [sepJoin] at hv
      rw [← hd, List.take_append_drop] at hv
      refine ⟨v, ?_⟩
      unfold Parse
      cases text with
      | nil => simp at htl
      | cons h t =>
        rw [UnmarshalText_hex_head Nil h t htl (hth h (by simp))]
        exact hv

theorem C12_witness :
    (([] : List Nat) = [] ∨ ([] : List Nat) = urnPrefix ∨ ([] : List Nat) = [123]) ∧
    32 ≤ (([] : List Nat) ++ bytesOf "6ba7b8109dad11d180b400c04fd430c8").length ∧
    (1 ≤ 1 ∧ 1 ≤ 4) ∧
    [bytesOf "6ba7b810"].map List.length = byteGroups.take 1 ∧
    (∀ g ∈ [bytesOf "6ba7b810"], allHex g) ∧ (57 : Nat) ≠ 45 ∧
    bytesOf "6ba7b8109dad11d180b400c04fd430c8" =
      sepJoin [bytesOf "6ba7b810"] ++ 57 :: bytesOf "dad11d180b400c04fd430c8" ∧
    (∃ v, Parse ([] ++ bytesOf "6ba7b8109dad11d180b400c04fd430c8") =
      .ret (v, some .invalidFormat)) :=
  ⟨by decide, by decide, by decide, by decide, by decide, by decide, by decide,
    (C12_bad_separator_invalid_format [] (bytesOf "6ba7b8109dad11d180b400c04fd430c8") 1
      [bytesOf "6ba7b810"] 57 (bytesOf "dad11d180b400c04fd430c8")
      (by decide) (by decide) (by decide) (by decide) (by decide) (by decide) (by decide)).1⟩

/-- C13. A non-hex character inside a group is rejected: for every input of 36 characters with
`-` at indices 8, 13, 18 and 23 and a character that is not a hex digit at some other index,
`Parse` returns the invalid-byte error of `hex.Decode`, for a character that is not a hex
digit; the error is none of too short, too long and invalid format. -/
theorem C13_non_hex_rejected (text : List Nat) (hlen : text.length = 36)
    (h8 : text.getD 8 0 = 45) (h13 : text.getD 13 0 = 45) (h18 : text.getD 18 0 = 45)
    (h23 : text.getD 23 0 = 45)
    (hbad : ∃ i, i < 36 ∧ i ∉ [8, 13, 18, 23] ∧ ¬ isHexDigit (text.getD i 0)) :
    ∃ v c, Parse text = .ret (v, some (.invalidByte c)) ∧ ¬ isHexDigit c := by
  obtain ⟨g0, g1, g2, g3, g4, ht, h0, h1, h2, h3, h4, hin, _⟩ :=
    text36_groups text hlen h8 h13 h18 h23
  have hnot : ¬ (allHex g0 ∧ allHex g1 ∧ allHex g2 ∧ allHex g3 ∧ allHex g4) := by
    rintro ⟨a0, a1, a2, a3, a4⟩
    obtain ⟨i, hi, hn, hb⟩ := hbad
    have hall : allHex (g0 ++ g1 ++ g2 ++ g3 ++ g4) := by
      simp only [allHex_append]
      exact ⟨⟨⟨⟨a0, a1⟩, a2⟩, a3⟩, a4⟩
    exact hb (hall _ (hin i hi hn))
  have hurn := take9_ne_urn_of_dash text h8
  unfold Parse
  rw [UnmarshalText_cases Nil text (by omega), if_neg hurn]
  by_cases hbr : text.head? = some 123
  · rw [if_pos hbr]
    cases g0 with
    | nil => simp at h0
    | cons c g0t =>
      have hdrop : text.drop 1 =
          (g0t ++ [45]) ++ (g1 ++ (45 :: (g2 ++ (45 :: (g3 ++ (45 :: (g4 ++ [])))))))  := by
        rw [ht]; simp [rawJoined]
      rw [hdrop]
      exact loop_bad_first text true 8 _ _ _ (g0t ++ [45]) _ (by simpa using h0) (by decide)
        (by rw [Nil_length]; decide)
        (fun hh => (isHexDigit_ne 45 (hh 45 (by simp))).2.2 rfl)
  · rw [if_neg hbr]
    have hloop := loop_rawJoined_bad text false Nil g0 g1 g2 g3 g4 Nil_length h0 h1 h2 h3 h4 hnot
    rw [← ht] at hloop
    exact hloop

theorem C13_witness :
    (bytesOf "6ba7b810-9dad-11d1-80b4-00c04fd430cg").length = 36 ∧
    (∃ v c, Parse (bytesOf "6ba7b810-9dad-11d1-80b4-00c04fd430cg") =
      .ret (v, some (.invalidByte c)) ∧ ¬ isHexDigit c) :=
  ⟨by decide, C13_non_hex_rejected (bytesOf "6ba7b810-9dad-11d1-80b4-00c04fd430cg")
    (by decide) (by decide) (by decide) (by decide) (by decide)
    ⟨35, by decide, by decide, by decide⟩⟩

/-- C14. Name-based construction keeps the leading 16 digest bytes and overwrites only the
version and variant fields: with `D` the digest of the namespace bytes followed by the name, of
at least 16 bytes, the result `r` of `NewV3` (and of `NewV5`) has `r[i] = D[i]` for `i < 16`
other than 6 and 8, the low nibble of `r[6]` is that of `D[6]`, the low six bits of `r[8]` are
those of `D[8]`, and a digest function with the same first 16 bytes gives the same result. -/
theorem C14_digest_bytes_kept (digest : List Nat → List Nat) (n : UUID) (s : List Nat)
    (hD : 16 ≤ (digest (n ++ s)).length) :
    ((∀ i, i < 16 → i ≠ 6 → i ≠ 8 →
        (NewV3 digest n s).at i = UUID.at (digest (n ++ s)) i) ∧
      (NewV3 digest n s).at 6 % 16 = UUID.at (digest (n ++ s)) 6 % 16 ∧
      (NewV3 digest n s).at 8 % 64 = UUID.at (digest (n ++ s)) 8 % 64) ∧
    ((∀ i, i < 16 → i ≠ 6 → i ≠ 8 →
        (NewV5 digest n s).at i = UUID.at (digest (n ++ s)) i) ∧
      (NewV5 digest n s).at 6 % 16 = UUID.at (digest (n ++ s)) 6 % 16 ∧
      (NewV5 digest n s).at 8 % 64 = UUID.at (digest (n ++ s)) 8 % 64) ∧
    (∀ f : List Nat → List Nat, (f (n ++ s)).take 16 = (digest (n ++ s)).take 16 →
      NewV3 f n s = NewV3 digest n s ∧ NewV5 f n s = NewV5 digest n s) := by
  have hnew : newFromHash (Hash.New digest) n s = (digest (n ++ s)).take 16 := by
    rw [newFromHash_eq, copy_Nil_take _ hD]
  have hat : ∀ i, i < 16 → (newFromHash (Hash.New digest) n s).at i =
      UUID.at (digest (n ++ s)) i := by
    intro i hi
    rw [hnew]; exact at_take _ i 16 hi
  obtain ⟨_, _, _, h36, h38, h3r⟩ :=
    stamped_fields (newFromHash (Hash.New digest) n s) (newFromHash_length _ _ _)
      (((newFromHash (Hash.New digest) n s).at 6 &&& 0x0f) ||| 0x30)
  obtain ⟨_, _, _, h56, h58, h5r⟩ :=
    stamped_fields (newFromHash (Hash.New digest) n s) (newFromHash_length _ _ _)
      (((newFromHash (Hash.New digest) n s).at 6 &&& 0x0f) ||| 0x50)
  refine ⟨?_, ?_, ?_⟩
  · rw [NewV3_eq]
    refine ⟨fun i hi hi6 hi8 => (h3r i hi6 hi8).trans (hat i hi), ?_, ?_⟩
    · rw [h36, (version_stamp _).1.2, hat 6 (by decide)]
    · rw [h38, hat 8 (by decide)]
  · rw [NewV5_eq]
    refine ⟨fun i hi hi6 hi8 => (h5r i hi6 hi8).trans (hat i hi), ?_, ?_⟩
    · rw [h56, (version_stamp _).2.2.2, hat 6 (by decide)]
    · rw [h58, hat 8 (by decide)]
  · intro f hf
    have hfl : 16 ≤ (f (n ++ s)).length := by
      have h1 : ((f (n ++ s)).take 16).length = 16 := by rw [hf]; simp [hD]
      simp at h1; exact h1
    have hfn : newFromHash (Hash.New f) n s = newFromHash (Hash.New digest) n s := by
      rw [hnew, newFromHash_eq, copy_Nil_take _ hfl, hf]
    exact ⟨by unfold NewV3; rw [hfn], by unfold NewV5; rw [hfn]⟩

/-- C14 at a concrete input: a digest of 20 bytes, the first 16 of which are the input. -/
theorem C14_witness :
    16 ≤ ((fun m : List Nat => m.take 16 ++ [1, 2, 3, 4])
      ([107, 167, 184, 16, 157, 173, 17, 209, 128, 180, 0, 192, 79, 212, 48, 200] ++
        bytesOf "a")).length ∧
    (NewV3 (fun m : List Nat => m.take 16 ++ [1, 2, 3, 4])
      [107, 167, 184, 16, 157, 173, 17, 209, 128, 180, 0, 192, 79, 212, 48, 200]
      (bytesOf "a")).at 6 % 16 = 17 % 16 :=
  ⟨by decide, (C14_digest_bytes_kept (fun m : List Nat => m.take 16 ++ [1, 2, 3, 4])
    [107, 167, 184, 16, 157, 173, 17, 209, 128, 180, 0, 192, 79, 212, 48, 200] (bytesOf "a")
    (by decide)).1.2.1⟩

/-- C15. The four namespace initialisers return without a panic; each constant encodes back to
its literal and has version 1 and variant RFC4122; `Nil` encodes as the all-zero text and has
version 0 and variant NCS. -/
theorem C15_well_known_constants :
    (∃ u, NamespaceDNS = .ret u ∧ u.String = bytesOf "6ba7b810-9dad-11d1-80b4-00c04fd430c8" ∧
      u.Version = 1 ∧ u.Variant = VariantRFC4122) ∧
    (∃ u, NamespaceURL = .ret u ∧ u.String = bytesOf "6ba7b811-9dad-11d1-80b4-00c04fd430c8" ∧
      u.Version = 1 ∧ u.Variant = VariantRFC4122) ∧
    (∃ u, NamespaceOID = .ret u ∧ u.String = bytesOf "6ba7b812-9dad-11d1-80b4-00c04fd430c8" ∧
      u.Version = 1 ∧ u.Variant = VariantRFC4122) ∧
    (∃ u, NamespaceX500 = .ret u ∧ u.String = bytesOf "6ba7b814-9dad-11d1-80b4-00c04fd430c8" ∧
      u.Version = 1 ∧ u.Variant = VariantRFC4122) ∧
    (Nil.String = bytesOf "00000000-0000-0000-0000-000000000000" ∧
      Nil.Version = 0 ∧ Nil.Variant = VariantNCS) :=
  ⟨⟨[107, 167, 184, 16, 157, 173, 17, 209, 128, 180, 0, 192, 79, 212, 48, 200], by decide⟩,
   ⟨[107, 167, 184, 17, 157, 173, 17, 209, 128, 180, 0, 192, 79, 212, 48, 200], by decide⟩,
   ⟨[107, 167, 184, 18, 157, 173, 17, 209, 128, 180, 0, 192, 79, 212, 48, 200], by decide⟩,
   ⟨[107, 167, 184, 20, 157, 173, 17, 209, 128, 180, 0, 192, 79, 212, 48, 200], by decide⟩,
   by decide⟩

set_option maxRecDepth 1000000 in
/-- C16. Interoperability vectors, with MD5 and SHA-1 as their standards define them:
`NewV3(NamespaceDNS, "www.example.org")` encodes as `0012416f-9eec-3ed4-a8b0-3bceecde1cd9`,
`NewV3(NamespaceURL, "www.example.org")` as `288ea4f1-895d-3984-98a3-85aa3aa6db56` and
`NewV5(NamespaceDNS, "www.example.org")` as `74738ff5-5367-5958-9aee-98fffdcd1876`. -/
theorem C16_interoperability_vectors :
    (∃ ns, NamespaceDNS = .ret ns ∧
      (NewV3 md5Sum ns (bytesOf "www.example.org")).String =
        bytesOf "0012416f-9eec-3ed4-a8b0-3bceecde1cd9") ∧
    (∃ ns, NamespaceURL = .ret ns ∧
      (NewV3 md5Sum ns (bytesOf "www.example.org")).String =
        bytesOf "288ea4f1-895d-3984-98a3-85aa3aa6db56") ∧
    (∃ ns, NamespaceDNS = .ret ns ∧
      (NewV5 sha1Sum ns (bytesOf "www.example.org")).String =
        bytesOf "74738ff5-5367-5958-9aee-98fffdcd1876") :=
  ⟨⟨[107, 167, 184, 16, 157, 173, 17, 209, 128, 180, 0, 192, 79, 212, 48, 200], by decide⟩,
   ⟨[107, 167, 184, 17, 157, 173, 17, 209, 128, 180, 0, 192, 79, 212, 48, 200], by decide⟩,
   ⟨[107, 167, 184, 16, 157, 173, 17, 209, 128, 180, 0, 192, 79, 212, 48, 200], by decide⟩⟩

/-- C17. For all UUIDs `a` and `b`, `Equal(a, b)` is true if and only if `a` and `b` have the
same 16 bytes; so `Equal(u, u)` is true and `Equal(a, b) = Equal(b, a)`. -/
theorem C17_equal_bytewise (a b : UUID) (ha : a.length = 16) (hb : b.length = 16) :
    (Equal a b = true ↔ ∀ i < 16, a.at i = b.at i) ∧
    Equal a a = true ∧ Equal a b = Equal b a := by
  refine ⟨⟨?_, ?_⟩, ?_, ?_⟩
  · intro h i _
    exact at_eq_of_eq (of_decide_eq_true h) i
  · intro h
    exact decide_eq_true (eq_of_at_eq a b ha hb h)
  · exact decide_eq_true rfl
  · unfold Equal
    by_cases h : a = b
    · rw [h]
    · rw [decide_eq_false h, decide_eq_false (fun h2 => h h2.symm)]

theorem C17_witness :
    ([107, 167, 184, 16, 157, 173, 17, 209, 128, 180, 0, 192, 79, 212, 48, 200] : UUID).length
      = 16 ∧ (Nil : UUID).length = 16 ∧
    Equal [107, 167, 184, 16, 157, 173, 17, 209, 128, 180, 0, 192, 79, 212, 48, 200] Nil =
      Equal Nil [107, 167, 184, 16, 157, 173, 17, 209, 128, 180, 0, 192, 79, 212, 48, 200] :=
  ⟨by decide, by decide, (C17_equal_bytewise
    [107, 167, 184, 16, 157, 173, 17, 209, 128, 180, 0, 192, 79, 212, 48, 200] Nil
    (by decide) (by decide)).2.2⟩

/-- C18, as stated, fails: with byte 8 equal to `0xc0` the NCS case is excluded and the RFC4122
condition is false, and with byte 8 equal to `0xe0` the NCS and RFC4122 cases are excluded and
the Microsoft condition is false; `Variant` then answers Microsoft and Future. -/
theorem C18_counterexample :
    (caseNCS 0xc0 = false ∧ caseRFC4122 0xc0 = false) ∧
    (caseNCS 0xe0 = false ∧ caseRFC4122 0xe0 = false ∧ caseMicrosoft 0xe0 = false) ∧
    UUID.Variant [0, 0, 0, 0, 0, 0, 0, 0, 0xc0, 0, 0, 0, 0, 0, 0, 0] = VariantMicrosoft ∧
    UUID.Variant [0, 0, 0, 0, 0, 0, 0, 0, 0xe0, 0, 0, 0, 0, 0, 0, 0] = VariantFuture := by
  decide

/-- C18, amended. `Variant` is the `switch` over its three case expressions, and once the NCS
case is excluded (top bit of byte 8 set) the RFC4122 condition is true exactly when the top two
bits are `10`; the Microsoft condition is true exactly when the top three bits are `100` or
`110`, hence, once the RFC4122 case is excluded too, exactly when they are `110`. -/
theorem C18_case_conditions (u : UUID) (h : u.wf) :
    u.Variant = (if caseNCS (u.at 8) = true then VariantNCS
      else if caseRFC4122 (u.at 8) = true then VariantRFC4122
      else if caseMicrosoft (u.at 8) = true then VariantMicrosoft
      else VariantFuture) ∧
    (caseNCS (u.at 8) = false → (caseRFC4122 (u.at 8) = true ↔ u.at 8 / 64 = 2)) ∧
    (caseNCS (u.at 8) = false →
      (caseMicrosoft (u.at 8) = true ↔ (u.at 8 / 32 = 4 ∨ u.at 8 / 32 = 6))) ∧
    (caseNCS (u.at 8) = false → caseRFC4122 (u.at 8) = false →
      (caseMicrosoft (u.at 8) = true ↔ u.at 8 / 32 = 6)) :=
  ⟨Variant_switch u, (case_bits_all (u.at 8) (wf_at_lt u h 8)).2⟩

theorem C18_witness :
    UUID.wf [0, 0, 0, 0, 0, 0, 0, 0, 0xc0, 0, 0, 0, 0, 0, 0, 0] ∧
    (caseNCS (UUID.at [0, 0, 0, 0, 0, 0, 0, 0, 0xc0, 0, 0, 0, 0, 0, 0, 0] 8) = false →
      (caseRFC4122 (UUID.at [0, 0, 0, 0, 0, 0, 0, 0, 0xc0, 0, 0, 0, 0, 0, 0, 0] 8) = true ↔
        UUID.at [0, 0, 0, 0, 0, 0, 0, 0, 0xc0, 0, 0, 0, 0, 0, 0, 0] 8 / 64 = 2)) :=
  ⟨by decide, (C18_case_conditions [0, 0, 0, 0, 0, 0, 0, 0, 0xc0, 0, 0, 0, 0, 0, 0, 0]
    (by decide)).2.1⟩

/-- C19. Parsing is case-insensitive in the hex digits: for every UUID `u`, `Parse` of
`u.String()` with every letter `a-f` replaced by `A-F` returns `u` with a nil error; the prefix
`urn:uuid:` is matched in lower case only: written with any letter in upper case it is not
stripped, and `Parse` returns the invalid-byte error. -/
theorem C19_case_insensitive_digits (u : UUID) (h : u.wf) :
    Parse (u.String.map upperHex) = .ret (u, none) ∧
    (∀ p : List Nat, p.map lowerAscii = urnPrefix → p ≠ urnPrefix →
      ∃ v c, Parse (p ++ u.String) = .ret (v, some (.invalidByte c))) := by
  obtain ⟨⟨h0, h1, h2, h3, h4⟩, ⟨hb0, hb1, hb2, hb3, hb4⟩, hcat, _⟩ := slices_wf u h
  have hs : u.String = rawJoined (hexEncode (u.slice 0 4)) (hexEncode (u.slice 4 6))
      (hexEncode (u.slice 6 8)) (hexEncode (u.slice 8 10)) (hexEncode (u.slice 10 16)) [] := by
    have := String_joined u []
    rw [List.append_nil] at this
    rw [this, joined_eq_rawJoined]
  have hlen := String_length u h
  constructor
  · have hloop := loop_rawJoined_ok (u.String.map upperHex) false Nil
      ((hexEncode (u.slice 0 4)).map upperHex) ((hexEncode (u.slice 4 6)).map upperHex)
      ((hexEncode (u.slice 6 8)).map upperHex) ((hexEncode (u.slice 8 10)).map upperHex)
      ((hexEncode (u.slice 10 16)).map upperHex) [] Nil_length
      (by rw [List.length_map, hexEncode_length, h0])
      (by rw [List.length_map, hexEncode_length, h1])
      (by rw [List.length_map, hexEncode_length, h2])
      (by rw [List.length_map, hexEncode_length, h3])
      (by rw [List.length_map, hexEncode_length, h4])
      (allHex_map_upperHex _ (allHex_hexEncode _ hb0))
      (allHex_map_upperHex _ (allHex_hexEncode _ hb1))
      (allHex_map_upperHex _ (allHex_hexEncode _ hb2))
      (allHex_map_upperHex _ (allHex_hexEncode _ hb3))
      (allHex_map_upperHex _ (allHex_hexEncode _ hb4)) (Or.inl rfl)
    rw [← rawJoined_map upperHex (by decide), ← hs] at hloop
    simp only [hexDecode_map_upperHex, hexDecode_hexEncode _ hb0, hexDecode_hexEncode _ hb1,
      hexDecode_hexEncode _ hb2, hexDecode_hexEncode _ hb3, hexDecode_hexEncode _ hb4,
      hcat] at hloop
    obtain ⟨c, tl, hst, hc, htl⟩ := String_head u h
    unfold Parse
    rw [hst, List.map_cons] at hloop ⊢
    rw [UnmarshalText_hex_head Nil _ _ (by simp [htl])
      (isHexDigit_upperHex c (isHexDigit_of_lower hc))]
    exact hloop
  · intro p hp hne
    have hpl : p.length = 9 := by
      have := congrArg List.length hp
      simpa [urnPrefix] using this
    cases p with
    | nil => simp at hpl
    | cons c tl =>
      have hc0 : lowerAscii c = 117 := by
        have := congrArg List.head? hp
        simpa [urnPrefix] using this
      have hc : c = 117 ∨ c = 85 := by
        unfold lowerAscii at hc0
        split_ifs at hc0 <;> omega
      have hnh : ¬ isHexDigit c := by
        unfold isHexDigit; omega
      have htake : List.take 9 ((c :: tl) ++ u.String) = c :: tl :=
        List.take_left' hpl
      unfold Parse
      exact UnmarshalText_bad_head Nil c (tl ++ u.String)
        (by simp at hpl ⊢; omega) Nil_length hnh (by omega)
        (by rw [← List.cons_append, htake]; exact hne)

theorem C19_witness :
    UUID.wf [107, 167, 184, 16, 157, 173, 17, 209, 128, 180, 0, 192, 79, 212, 48, 200] ∧
    (UUID.String [107, 167, 184, 16, 157, 173, 17, 209, 128, 180, 0, 192, 79, 212, 48, 200]).map
      upperHex = bytesOf "6BA7B810-9DAD-11D1-80B4-00C04FD430C8" ∧
    Parse ((UUID.String
      [107, 167, 184, 16, 157, 173, 17, 209, 128, 180, 0, 192, 79, 212, 48, 200]).map upperHex) =
      .ret ([107, 167, 184, 16, 157, 173, 17, 209, 128, 180, 0, 192, 79, 212, 48, 200], none) :=
  ⟨by decide, by decide, (C19_case_insensitive_digits
    [107, 167, 184, 16, 157, 173, 17, 209, 128, 180, 0, 192, 79, 212, 48, 200] (by decide)).1⟩

/-- C20. Encoding canonicalises what parsing accepted: for every input `s` of 36 characters on
which `Parse` returns `(u, nil)`, `u.String()` is `s` with the letters `A-F` in lower case; so
when `s` has no letter `A-F`, `u.String()` is `s`. -/
theorem C20_string_canonicalises (s : List Nat) (u : UUID) (hlen : s.length = 36)
    (h : Parse s = .ret (u, none)) :
    u.String = s.map lowerHex ∧ ((∀ c ∈ s, ¬ (65 ≤ c ∧ c ≤ 70)) → u.String = s) := by
  have key : u.String = s.map lowerHex := by
    unfold Parse at h
    rw [UnmarshalText_cases Nil s (by omega)] at h
    have hform : ∃ g0 g1 g2 g3 g4, s = rawJoined g0 g1 g2 g3 g4 [] ∧
        g0.length = 8 ∧ g1.length = 4 ∧ g2.length = 4 ∧ g3.length = 4 ∧ g4.length = 12 ∧
        allHex g0 ∧ allHex g1 ∧ allHex g2 ∧ allHex g3 ∧ allHex g4 ∧
        u = hexDecode g0 ++ hexDecode g1 ++ hexDecode g2 ++ hexDecode g3 ++ hexDecode g4 := by
      split at h
      · obtain ⟨g0, g1, g2, g3, g4, rest, e, h0, h1, h2, h3, h4, _⟩ :=
          loop_ok_inv s false Nil _ u Nil_length h
        have hl := congrArg List.length e
        simp [rawJoined, h0, h1, h2, h3, h4, hlen] at hl
        omega
      · split at h
        · obtain ⟨g0, g1, g2, g3, g4, rest, e, h0, h1, h2, h3, h4, _⟩ :=
            loop_ok_inv s true Nil _ u Nil_length h
          have hl := congrArg List.length e
          simp [rawJoined, h0, h1, h2, h3, h4, hlen] at hl
          omega
        · obtain ⟨g0, g1, g2, g3, g4, rest, e, h0, h1, h2, h3, h4, a0, a1, a2, a3, a4, hu, _⟩ :=
            loop_ok_inv s false Nil _ u Nil_length h
          have hl := congrArg List.length e
          simp [rawJoined, h0, h1, h2, h3, h4, hlen] at hl
          have hr : rest = [] := List.length_eq_zero.mp (by omega)
          subst hr
          exact ⟨g0, g1, g2, g3, g4, e, h0, h1, h2, h3, h4, a0, a1, a2, a3, a4, hu⟩
    obtain ⟨g0, g1, g2, g3, g4, e, h0, h1, h2, h3, h4, a0, a1, a2, a3, a4, hu⟩ := hform
    rw [hu, String_concat _ _ _ _ _ (hexDecode_length g0 4 (by omega))
      (hexDecode_length g1 2 (by omega)) (hexDecode_length g2 2 (by omega))
      (hexDecode_length g3 2 (by omega)) (hexDecode_length g4 6 (by omega)),
      joined_eq_rawJoined, hexEncode_hexDecode g0 a0 (by omega),
      hexEncode_hexDecode g1 a1 (by omega), hexEncode_hexDecode g2 a2 (by omega),
      hexEncode_hexDecode g3 a3 (by omega), hexEncode_hexDecode g4 a4 (by omega),
      ← rawJoined_map lowerHex (by decide), ← e]
  exact ⟨key, fun hno => key.trans (map_lowerHex_of_no_upper s hno)⟩

theorem C20_witness :
    (bytesOf "6BA7b810-9DAD-11d1-80B4-00c04fd430C8").length = 36 ∧
    UUID.String [107, 167, 184, 16, 157, 173, 17, 209, 128, 180, 0, 192, 79, 212, 48, 200] =
      (bytesOf "6BA7b810-9DAD-11d1-80B4-00c04fd430C8").map lowerHex :=
  ⟨by decide, (C20_string_canonicalises (bytesOf "6BA7b810-9DAD-11d1-80B4-00c04fd430C8")
    [107, 167, 184, 16, 157, 173, 17, 209, 128, 180, 0, 192, 79, 212, 48, 200]
    (by decide) (by decide)).1⟩

end uuid
